import Mathlib

/-! Community wealth tracker: shallow embedding and verified properties.

The development embeds the background orchestrator and its message handler
(`background.js`), the popup link validation (`popup.js`) and the authenticated
request gateway of the content script (`content.js`) of the browser extension.

Modelling conventions.

* An `async` function is a state transformer `Tracker → Except String α × Tracker`:
  `Except.error msg` is a rejected promise (a thrown `Error` with that message),
  and the state survives a throw, as assignments to `this` do in JavaScript.
* The outside world (the browser's tab API and the two Roblox endpoints reached
  through `chrome.tabs.sendMessage`) is an `Env` of outcomes.  The outcome of an
  API request may depend on how many requests were issued before it, on the tab
  and on the URL, so two requests for the same URL may be answered differently.
* Counts and indices are natural numbers.  Prices and user ids are JavaScript
  numbers with integer values, carried as `Int`: the addition `totalValue += price`
  rounds its exact result to the nearest double (`jsAdd`), and a number is printed
  into a URL the way `Number.prototype.toString` prints it (`jsNumberToString`).
  A sum beyond the largest double is `Infinity`, which is carried as `2^1024`, a
  value above every double, so that comparisons come out as in JavaScript.
* JSON payloads are typed after the endpoints' documented shapes, with `Option`
  for a field that may be missing or `null`.
* `Tracker.requests`, `Tracker.processedWrites` and `Tracker.browserCalls` are
  ghost logs: they record the requests handed to `makeAPIRequest`, the values
  assigned to `currentProgress.processed` and the calls of the tab API, in
  program order.
-/

namespace WealthTracker

/-! ## Data model -/

/-- The `user` object of one listing entry. -/
structure User where
  userId : Int
  username : String
  deriving DecidableEq, Repr

/-- One entry of the listing endpoint's `data` array.  `user` is `none` when the
entry lacks its `user` field. -/
structure Member where
  user : Option User
  deriving DecidableEq, Repr

/-- One entry of the inventory endpoint's `data` array.  `recentAveragePrice` is
`none` when the field is missing or `null`. -/
structure Item where
  name : String
  recentAveragePrice : Option Int
  deriving DecidableEq, Repr

/-- The `{name, value}` object pushed onto `valuableItems`. -/
structure ValuableItem where
  name : String
  value : Int
  deriving DecidableEq, Repr

/-- The object returned by `analyzeMemberWealth` for a member that clears the floor.
`totalValue` is a number with an integer value, or `2^1024` for `Infinity`. -/
structure WealthRecord where
  userId : Int
  username : String
  totalValue : Int
  valuableItems : List ValuableItem
  deriving DecidableEq, Repr

/-- Body of a successful listing response: `{ data, nextPageCursor }`. -/
structure ListingData where
  data : Option (List Member)
  nextPageCursor : Option String
  deriving DecidableEq, Repr

/-- Body of a successful inventory response: `{ data }`. -/
structure InventoryData where
  data : Option (List Item)
  deriving DecidableEq, Repr

/-- The value the content script answers a `makeAPIRequest` message with:
`{success: true, data}` or `{success: false, error}`. -/
inductive ApiResponse (α : Type) where
  | success (data : α)
  | failure (error : String)
  deriving DecidableEq, Repr

/-- The object `currentProgress`. -/
structure Progress where
  processed : Nat
  total : Nat
  completed : Bool
  results : List WealthRecord
  deriving DecidableEq, Repr

/-- A request handed to `makeAPIRequest(tabId, url)`. -/
structure Request where
  tabId : Nat
  url : String
  deriving DecidableEq, Repr

/-- A call of the browser's tab API made by the orchestrator. -/
inductive BrowserCall where
  | tabsQuery
  | tabsCreate
  | waitForTabLoad (tabId : Nat)
  | ping (tabId : Nat)
  | executeScript (tabId : Nat)
  deriving DecidableEq, Repr

/-- The fields of `CommunityWealthTracker`, with the three ghost logs. -/
structure Tracker where
  isProcessing : Bool
  currentProgress : Progress
  requests : List Request
  processedWrites : List Nat
  browserCalls : List BrowserCall
  deriving DecidableEq, Repr

/-- A browser tab as the orchestrator reads it: `tab.id` and `tab.url`
(`none` when the URL is not exposed). -/
structure Tab where
  id : Nat
  url : Option String
  deriving DecidableEq, Repr

/-- Outcomes of the calls that leave the orchestrator.  `listing` and `inventory`
are the answers of `chrome.tabs.sendMessage(tabId, {action:'makeAPIRequest', url})`
for the two endpoints, given the number of requests issued before, the tab and the
URL; `Except.error` is a rejected promise. -/
structure Env where
  tabsQuery : Except String (Option Tab)
  tabsCreate : Except String Tab
  tabLoad : Nat → Except String Unit
  ping : Nat → Except String Bool
  executeScript : Nat → Except String Unit
  listing : Nat → Nat → String → Except String (ApiResponse ListingData)
  inventory : Nat → Nat → String → Except String (ApiResponse InventoryData)

deriving instance DecidableEq for Except

/-- An `async` method of the tracker. -/
abbrev Action (α : Type) : Type := Tracker → Except String α × Tracker

/-- The assignment `this.currentProgress.processed = n`, recorded in the ghost log. -/
def setProcessed (n : Nat) (st : Tracker) : Tracker :=
  { st with
    currentProgress := { st.currentProgress with processed := n }
    processedWrites := st.processedWrites ++ [n] }

/-! ## `makeAPIRequest` (background.js 308-320) -/

/-- The method `makeAPIRequest(tabId, url)`: forwards the request to the tab and
returns the answer; a rejected `sendMessage` becomes `{success:false, error}`.
`send` is the endpoint's outcome table. -/
def makeAPIRequest {α : Type} (send : Nat → Nat → String → Except String (ApiResponse α))
    (tabId : Nat) (url : String) : Action (ApiResponse α) := fun st =>
  let st1 := { st with requests := st.requests ++ [⟨tabId, url⟩] }
  match send st.requests.length tabId url with
  | .ok response => (.ok response, st1)
  | .error msg => (.ok (.failure msg), st1)

/-! ## JavaScript numbers with integer values -/

/-- The number of binary digits of `v`.  `fuel` bounds the recursion, and `v`
itself is enough of it. -/
def bitLength : Nat → Nat → Nat
  | 0, _ => 0
  | fuel + 1, v => if v = 0 then 0 else bitLength fuel (v / 2) + 1

/-- The double nearest to the natural number `v`: `v` itself below `2^53`, and
otherwise `v` rounded to 53 significant binary digits, a tie going to the even
significand (IEEE 754 round-to-nearest-even).  From `2^1024 - 2^970` on the
rounding overflows: the result is `2^1024`, which stands for `Infinity`. -/
def roundToDouble (v : Nat) : Nat :=
  if v < 2 ^ 53 then v
  else if 1024 < bitLength v v then 2 ^ 1024
  else
    let scale := 2 ^ (bitLength v v - 53)
    let q := v / scale
    let r := v % scale
    if 2 * r < scale then q * scale
    else if scale < 2 * r then (q + 1) * scale
    else if q % 2 = 0 then q * scale
    else (q + 1) * scale

/-- The operator `+` on two numbers with integer values, or infinite, of the same
sign: the exact sum, rounded to the nearest double; `Infinity` is `2^1024` and
`-Infinity` is `-2^1024`. -/
def jsAdd (a b : Int) : Int :=
  (a + b).sign * (roundToDouble (a + b).natAbs : Int)

/-- The decimal with `k` significant digits that `Number.prototype.toString` may
print for the double `v`, which has `digits` decimal digits: of the two multiples
of `10^(digits - k)` next to `v`, the one that reads back as `v`; when both do, the
closer one, and the one with the even last digit when they are equally close. -/
def roundTripCandidate (v digits k : Nat) : Option Nat :=
  let unit := 10 ^ (digits - k)
  let low := v / unit * unit
  let high := low + unit
  if roundToDouble low = v then
    if roundToDouble high = v then
      if v - low < high - v then some low
      else if high - v < v - low then some high
      else if (v / unit) % 2 = 0 then some low
      else some high
    else some low
  else if roundToDouble high = v then some high
  else none

/-- The decimal that `Number.prototype.toString` prints for the double `v`: the one
with the fewest significant digits that reads back as `v`. -/
def shortestDecimal (v : Nat) : Nat :=
  let digits := (Nat.toDigits 10 v).length
  ((List.range digits).findSome? fun k => roundTripCandidate v digits (k + 1)).getD v

/-- The exponent form `d.ddde+n` in which a number from `10^21` on is printed. -/
def exponentForm (c : Nat) : String :=
  let ds := Nat.toDigits 10 c
  match (ds.reverse.dropWhile (· = '0')).reverse with
  | [] => "0"
  | d :: more =>
    String.mk (d :: (if more = [] then [] else '.' :: more)) ++ "e+" ++ toString (ds.length - 1)

/-- The text of a non-negative number with an integer value: all its digits below
`2^53`; from there on the shortest decimal that reads back as the number, written
out below `10^21` and in exponent form from `10^21` on. -/
def natToString (v : Nat) : String :=
  if v < 2 ^ 53 then toString v
  else if shortestDecimal v < 10 ^ 21 then toString (shortestDecimal v)
  else exponentForm (shortestDecimal v)

/-- The text that a template literal substitutes for a number with an integer
value (`Number.prototype.toString`). -/
def jsNumberToString (n : Int) : String :=
  if n < 0 then "-" ++ natToString n.natAbs else natToString n.natAbs

/-! ## `analyzeMemberWealth` (background.js 263-306) -/

/-- The inventory URL built at line 269. -/
def inventoryUrl (userId : Int) : String :=
  "https://inventory.roblox.com/v1/users/" ++ jsNumberToString userId ++
    "/assets/collectibles?sortOrder=Desc&limit=100"

/-- One iteration of the `for (const item of inventory)` loop (lines 281-289) on
the pair `(totalValue, valuableItems)`. -/
def tallyItem (acc : Int × List ValuableItem) (item : Item) : Int × List ValuableItem :=
  match item.recentAveragePrice with
  | some price =>
    if price ≠ 0 ∧ price > 10000 then
      (jsAdd acc.1 price, acc.2 ++ [{ name := item.name, value := price }])
    else acc
  | none => acc

/-- The whole loop of lines 277-289, started from `totalValue = 0`, `valuableItems = []`. -/
def tallyInventory (inventory : List Item) : Int × List ValuableItem :=
  inventory.foldl tallyItem (0, [])

/-- The `try` block of `analyzeMemberWealth` (lines 265-301). -/
def analyzeMemberWealthBody (env : Env) (tabId : Nat) (member : Member) :
    Action (Option WealthRecord) := fun st =>
  match member.user with
  | none => (.error "Cannot read properties of undefined (reading 'userId')", st)
  | some user =>
    match makeAPIRequest env.inventory tabId (inventoryUrl user.userId) st with
    | (.error e, st1) => (.error e, st1)
    | (.ok (.failure _), st1) => (.ok none, st1)
    | (.ok (.success body), st1) =>
      let inventory := body.data.getD []
      let tally := tallyInventory inventory
      if tally.1 > 10000 then
        (.ok (some { userId := user.userId, username := user.username,
                     totalValue := tally.1, valuableItems := tally.2 }), st1)
      else (.ok none, st1)

/-- The method `analyzeMemberWealth(tabId, member)`: the `try` block, with every
exception turned into `null` by the `catch` of lines 302-305. -/
def analyzeMemberWealth (env : Env) (tabId : Nat) (member : Member) :
    Action (Option WealthRecord) := fun st =>
  match analyzeMemberWealthBody env tabId member st with
  | (.ok r, st1) => (.ok r, st1)
  | (.error _, st1) => (.ok none, st1)

/-! ## Specification-side definitions for the valuation -/

/-- The items of an inventory whose recorded price is strictly above 10000. -/
def qualifyingItems (inventory : List Item) : List ValuableItem :=
  inventory.filterMap fun item =>
    match item.recentAveragePrice with
    | some price => if price > 10000 then some { name := item.name, value := price } else none
    | none => none

/-- The sum of the prices of the qualifying items as JavaScript computes it: the
prices are added in inventory order, starting from 0, and every addition is rounded
to the nearest double. -/
def qualifyingSum (inventory : List Item) : Int :=
  (qualifyingItems inventory).foldl (fun total item => jsAdd total item.value) 0

/-- The exact sum `S` of the prices of the qualifying items. -/
def qualifyingTotal (inventory : List Item) : Int :=
  ((qualifyingItems inventory).map (·.value)).sum

/-! ## `processMemberBatch` (background.js 245-261) -/

/-- The inventory requests a batch issues, in order: one for every member that
carries a user. -/
def inventoryRequests (tabId : Nat) (batch : List Member) : List Request :=
  batch.filterMap fun member =>
    member.user.map fun user => ⟨tabId, inventoryUrl user.userId⟩

/-- The expression `Promise.all(memberBatch.map(async (member) => ...))` of lines
247-254: every member's valuation is started in array order (so the requests are
issued in that order), and an exception of one valuation is replaced by `null`
for that member. -/
def analyzeAll (env : Env) (tabId : Nat) : List Member → Action (List (Option WealthRecord))
  | [] => fun st => (.ok [], st)
  | member :: rest => fun st =>
    let first : Option WealthRecord × Tracker :=
      match analyzeMemberWealth env tabId member st with
      | (.ok r, st1) => (r, st1)
      | (.error _, st1) => (none, st1)
    match analyzeAll env tabId rest first.2 with
    | (.ok rs, st2) => (.ok (first.1 :: rs), st2)
    | (.error e, st2) => (.error e, st2)

/-- The method `processMemberBatch(tabId, memberBatch)`: the non-null results of
the batch, or `[]` when the `Promise.all` rejects. -/
def processMemberBatch (env : Env) (tabId : Nat) (memberBatch : List Member) :
    Action (List WealthRecord) := fun st =>
  match analyzeAll env tabId memberBatch st with
  | (.ok results, st1) => (.ok (results.filterMap id), st1)
  | (.error _, st1) => (.ok [], st1)

/-! ## `processMembersOptimized` (background.js 199-243) -/

/-- The constant `batchSize` of line 201. -/
def batchSize : Nat := 50

/-- The constant `concurrentBatches` of line 202. -/
def concurrentBatches : Nat := 5

/-- The array method `slice(start, end)` for in-range natural indices. -/
def slice {α : Type} (xs : List α) (startIdx endIdx : Nat) : List α :=
  (xs.drop startIdx).take (endIdx - startIdx)

/-- The inner loop `for (let j = 0; j < concurrentBatches; j++)` of lines 211-219
followed by `Promise.all(batches)` (line 222), over the values of `j` still to
run: each group that starts inside the array is sliced off and submitted. -/
def runBatches (env : Env) (tabId : Nat) (members : List Member) (i : Nat) :
    List Nat → Action (List (List WealthRecord))
  | [] => fun st => (.ok [], st)
  | j :: js => fun st =>
    let startIdx := i + j * batchSize
    let endIdx := min (startIdx + batchSize) members.length
    if startIdx < members.length then
      match processMemberBatch env tabId (slice members startIdx endIdx) st with
      | (.ok batchResult, st1) =>
        match runBatches env tabId members i js st1 with
        | (.ok others, st2) => (.ok (batchResult :: others), st2)
        | (.error e, st2) => (.error e, st2)
      | (.error e, st1) => (.error e, (runBatches env tabId members i js st1).2)
    else runBatches env tabId members i js st

/-- The loop of lines 225-227: append to `wealthyMembers` the entries of every
batch result that are non-null and have `totalValue > 0`. -/
def combineResults (wealthyMembers : List WealthRecord)
    (batchResults : List (List WealthRecord)) : List WealthRecord :=
  batchResults.foldl
    (fun acc batchResult => acc ++ batchResult.filter (fun member => member.totalValue > 0))
    wealthyMembers

/-- The outer loop `for (let i = 0; i < members.length; i += batchSize * concurrentBatches)`
of lines 207-236.  `fuel` bounds the number of iterations; running out of it is
reported as an error, and `processMembersOptimized` supplies enough. -/
def processLoop (env : Env) (tabId : Nat) (members : List Member) :
    Nat → Nat → List WealthRecord → Action (List WealthRecord)
  | 0, i, wealthyMembers => fun st =>
    if i < members.length then (.error "iteration bound exceeded", st)
    else (.ok wealthyMembers, st)
  | fuel + 1, i, wealthyMembers => fun st =>
    if i < members.length then
      match runBatches env tabId members i (List.range concurrentBatches) st with
      | (.error e, st1) => (.error e, st1)
      | (.ok batchResults, st1) =>
        let wealthyMembers1 := combineResults wealthyMembers batchResults
        let st2 := setProcessed (min (i + batchSize * concurrentBatches) members.length) st1
        processLoop env tabId members fuel (i + batchSize * concurrentBatches) wealthyMembers1 st2
    else (.ok wealthyMembers, st)

/-- The call `wealthyMembers.sort((a, b) => b.totalValue - a.totalValue)` of line 239.
`Array.prototype.sort` is stable and the comparator is a total preorder on the
keys (the difference of two keys has the sign of their comparison, and the `NaN`
that two infinite keys give counts as 0, as for equal keys), so the result is the
stable sort by descending `totalValue`, which insertion sort computes. -/
def sortByWealth (wealthyMembers : List WealthRecord) : List WealthRecord :=
  wealthyMembers.insertionSort (fun a b => a.totalValue ≥ b.totalValue)

/-- The method `processMembersOptimized(tabId, members)`. -/
def processMembersOptimized (env : Env) (tabId : Nat) (members : List Member) :
    Action (List WealthRecord) := fun st =>
  match processLoop env tabId members members.length 0 [] st with
  | (.error e, st1) => (.error e, st1)
  | (.ok wealthyMembers, st1) => (.ok (sortByWealth wealthyMembers), st1)

/-! ## `getAllCommunityMembers` (background.js 156-197) -/

/-- The constant `maxPages` of line 160. -/
def maxPages : Nat := 200

/-- JavaScript truthiness of a cursor: present and not the empty string. -/
def cursorTruthy (cursor : Option String) : Bool :=
  match cursor with
  | some c => c ≠ ""
  | none => false

/-- The listing URL built at line 164. -/
def listingUrl (communityId : String) (cursor : Option String) : String :=
  "https://groups.roblox.com/v1/groups/" ++ communityId ++
    "/users?sortOrder=Desc&limit=100" ++
    (match cursor with
     | some c => if c ≠ "" then "&cursor=" ++ c else ""
     | none => "")

/-- The `do ... while (cursor && pageCount < maxPages)` loop of lines 163-188, from
the state `(allMembers, cursor, pageCount)` at the top of an iteration.  `fuel`
bounds the number of iterations; running out of it is reported as an error, and
`getAllCommunityMembers` supplies `maxPages`, which the loop condition never exceeds. -/
def membersLoop (env : Env) (tabId : Nat) (communityId : String) :
    Nat → List Member → Option String → Nat → Action (List Member)
  | 0, _, _, _ => fun st => (.error "iteration bound exceeded", st)
  | fuel + 1, allMembers, cursor, pageCount => fun st =>
    match makeAPIRequest env.listing tabId (listingUrl communityId cursor) st with
    | (.error e, st1) => (.error e, st1)
    | (.ok (.failure error), st1) =>
      (.error (if error ≠ "" then error else "Failed to fetch members"), st1)
    | (.ok (.success data), st1) =>
      let allMembers1 :=
        match data.data with
        | some page => if page.length > 0 then allMembers ++ page else allMembers
        | none => allMembers
      let cursor1 := data.nextPageCursor
      let pageCount1 := pageCount + 1
      let st2 := setProcessed allMembers1.length st1
      if cursorTruthy cursor1 ∧ pageCount1 < maxPages then
        membersLoop env tabId communityId fuel allMembers1 cursor1 pageCount1 st2
      else (.ok allMembers1, st2)

/-- The method `getAllCommunityMembers(tabId, communityId)`; its `catch` rethrows. -/
def getAllCommunityMembers (env : Env) (tabId : Nat) (communityId : String) :
    Action (List Member) :=
  membersLoop env tabId communityId maxPages [] none 0

/-! ## `fetchCommunityDataFast` (background.js 129-154) -/

/-- The result object of a run: `{success, members?, totalProcessed?, error?}`. -/
structure FetchResult where
  success : Bool
  members : Option (List WealthRecord)
  totalProcessed : Option Nat
  error : Option String
  deriving DecidableEq, Repr

/-- The result object `{ success: false, error: message }`. -/
def failedResult (message : String) : FetchResult :=
  { success := false, members := none, totalProcessed := none, error := some message }

/-- The method `fetchCommunityDataFast(tabId, communityId)`; its `catch` rethrows. -/
def fetchCommunityDataFast (env : Env) (tabId : Nat) (communityId : String) :
    Action FetchResult := fun st =>
  match getAllCommunityMembers env tabId communityId st with
  | (.error e, st1) => (.error e, st1)
  | (.ok members, st1) =>
    if members.length = 0 then
      (.error "No members found in this community or community is private", st1)
    else
      let st2 := { st1 with
        currentProgress := { st1.currentProgress with total := members.length } }
      match processMembersOptimized env tabId members st2 with
      | (.error e, st3) => (.error e, st3)
      | (.ok wealthyMembers, st3) =>
        (.ok { success := true, members := some wealthyMembers,
               totalProcessed := some members.length, error := none }, st3)

/-! ## `handleFetchCommunityMembers` (background.js 46-98) -/

/-- The test `s.includes(pattern)`: `pattern` occurs in `s` as a contiguous block. -/
def includes (s pattern : String) : Bool :=
  decide (pattern.data <:+: s.data)

/-- Append a tab-API call to the ghost log. -/
def logCall (call : BrowserCall) (st : Tracker) : Tracker :=
  { st with browserCalls := st.browserCalls ++ [call] }

/-- The method `waitForTabLoad(tabId)`. -/
def waitForTabLoad (env : Env) (tabId : Nat) : Action Unit := fun st =>
  match env.tabLoad tabId with
  | .ok _ => (.ok (), logCall (.waitForTabLoad tabId) st)
  | .error e => (.error e, logCall (.waitForTabLoad tabId) st)

/-- The method `ensureContentScriptInjected(tabId)` (lines 112-127): ping the
content script; only when the ping rejects, inject the script, and an exception
of the injection propagates. -/
def ensureContentScriptInjected (env : Env) (tabId : Nat) : Action Unit := fun st =>
  let st1 := logCall (.ping tabId) st
  match env.ping tabId with
  | .ok _ => (.ok (), st1)
  | .error _ =>
    let st2 := logCall (.executeScript tabId) st1
    match env.executeScript tabId with
    | .ok _ => (.ok (), st2)
    | .error e => (.error e, st2)

/-- The assignments of lines 84-85: `results` and `completed = true`. -/
def markCompleted (result : FetchResult) (st : Tracker) : Tracker :=
  { st with
    currentProgress := { st.currentProgress with
      results := result.members.getD [], completed := true } }

/-- The assignments of lines 86-87: `total` and `processed`. -/
def publishTotals (result : FetchResult) (st : Tracker) : Tracker :=
  setProcessed (result.totalProcessed.getD 0)
    { st with
      currentProgress := { st.currentProgress with total := result.totalProcessed.getD 0 } }

/-- Lines 63-75: the active tab, or a freshly created Roblox tab when the active
one is not on `roblox.com`. -/
def findTargetTab (env : Env) : Action Tab := fun st =>
  let st1 := logCall .tabsQuery st
  match env.tabsQuery with
  | .error e => (.error e, st1)
  | .ok none => (.error "Cannot read properties of undefined (reading 'url')", st1)
  | .ok (some tab) =>
    match tab.url with
    | none => (.error "Cannot read properties of undefined (reading 'includes')", st1)
    | some url =>
      if !includes url "roblox.com" then
        let st2 := logCall .tabsCreate st1
        match env.tabsCreate with
        | .error e => (.error e, st2)
        | .ok targetTab =>
          match waitForTabLoad env targetTab.id st2 with
          | (.error e, st3) => (.error e, st3)
          | (.ok _, st3) => (.ok targetTab, st3)
      else (.ok tab, st1)

/-- The `try` block of `handleFetchCommunityMembers` (lines 52-90). -/
def handleFetchTry (env : Env) (communityId : String) : Action FetchResult := fun st =>
  let st1 := { st with
    isProcessing := true
    currentProgress := { processed := 0, total := 0, completed := false, results := [] } }
  match findTargetTab env st1 with
  | (.error e, st2) => (.error e, st2)
  | (.ok targetTab, st2) =>
    match ensureContentScriptInjected env targetTab.id st2 with
    | (.error e, st3) => (.error e, st3)
    | (.ok _, st3) =>
      match fetchCommunityDataFast env targetTab.id communityId st3 with
      | (.error e, st4) => (.error e, st4)
      | (.ok result, st4) =>
        if result.success then (.ok result, publishTotals result (markCompleted result st4))
        else (.ok result, st4)

/-- The method `handleFetchCommunityMembers(communityId)`: the busy guard of lines
47-49, then the `try` block with its `catch` (lines 92-94, the exception becomes
`{success:false, error}`) and its `finally` (line 96, the lock is released). -/
def handleFetchCommunityMembers (env : Env) (communityId : String) :
    Action FetchResult := fun st =>
  if st.isProcessing then
    (.ok (failedResult "Already processing a community"), st)
  else
    let caught : Except String FetchResult × Tracker :=
      match handleFetchTry env communityId st with
      | (.ok result, st1) => (.ok result, st1)
      | (.error e, st1) => (.ok (failedResult e), st1)
    (caught.1, { caught.2 with isProcessing := false })

/-- The record `r` is what valuing `member` in state `st` produces when the member
carries a user, the inventory request is answered successfully and the qualifying
sum of the answered inventory is strictly above 10000. -/
def ClearsFloor (env : Env) (tabId : Nat) (member : Member) (st : Tracker)
    (r : WealthRecord) : Prop :=
  ∃ user body, member.user = some user ∧
    (makeAPIRequest env.inventory tabId (inventoryUrl user.userId) st).1 =
      .ok (.success body) ∧
    10000 < qualifyingSum (body.data.getD []) ∧
    r = { userId := user.userId, username := user.username,
          totalValue := qualifyingSum (body.data.getD []),
          valuableItems := qualifyingItems (body.data.getD []) }

/-! ## Specification-side definitions for runs -/

/-- The state `st1` differs from `st` only by API requests, by the values `ws`
written to `currentProgress.processed` (in order) and by tab-API calls: the lock,
`total`, `completed` and `results` are untouched and `processed` holds the last
value written, if any. -/
def Evolves (st st1 : Tracker) (ws : List Nat) : Prop :=
  st1.isProcessing = st.isProcessing ∧
  st1.currentProgress.total = st.currentProgress.total ∧
  st1.currentProgress.completed = st.currentProgress.completed ∧
  st1.currentProgress.results = st.currentProgress.results ∧
  st1.processedWrites = st.processedWrites ++ ws ∧
  st1.currentProgress.processed = ws.getLast?.getD st.currentProgress.processed

/-- An outcome of `chrome.tabs.sendMessage` that `makeAPIRequest` reports as a
failed request: a rejected promise or a `{success:false}` answer. -/
def requestFails {α : Type} (outcome : Except String (ApiResponse α)) : Bool :=
  match outcome with
  | .ok (.success _) => false
  | _ => true

/-- The cursor carried by the listing request number `k` (from 0) of an
enumeration that starts when `base` requests have been issued, as long as every
earlier page succeeded: none for the first request, then the `nextPageCursor` of
the page before. -/
def pageCursor (env : Env) (tabId : Nat) (communityId : String) (base : Nat) :
    Nat → Option String
  | 0 => none
  | k + 1 =>
    match env.listing (base + k) tabId
        (listingUrl communityId (pageCursor env tabId communityId base k)) with
    | .ok (.success data) => data.nextPageCursor
    | _ => none

/-- The outcome of listing request number `k` of such an enumeration. -/
def pageOutcome (env : Env) (tabId : Nat) (communityId : String) (base k : Nat) :
    Except String (ApiResponse ListingData) :=
  env.listing (base + k) tabId (listingUrl communityId (pageCursor env tabId communityId base k))

/-- Listing page `k` succeeded and returned a cursor that keeps the loop going. -/
def pageContinues (env : Env) (tabId : Nat) (communityId : String) (base k : Nat) : Bool :=
  match pageOutcome env tabId communityId base k with
  | .ok (.success data) => cursorTruthy data.nextPageCursor
  | _ => false

/-- The state in which a run started from `st` begins its enumeration: the lock is
taken, the progress is reset and the tab-API calls `calls` have been made. -/
def runStart (st : Tracker) (calls : List BrowserCall) : Tracker :=
  { isProcessing := true
    currentProgress := { processed := 0, total := 0, completed := false, results := [] }
    requests := st.requests
    processedWrites := st.processedWrites
    browserCalls := st.browserCalls ++ calls }

/-! ## Concrete scenarios -/

/-- A tracker at rest, as the constructor leaves it. -/
def idleTracker : Tracker :=
  { isProcessing := false
    currentProgress := { processed := 0, total := 0, completed := false, results := [] }
    requests := [], processedWrites := [], browserCalls := [] }

/-- A tracker in the middle of a run. -/
def busyTracker : Tracker :=
  { isProcessing := true
    currentProgress := { processed := 100, total := 0, completed := false, results := [] }
    requests := [⟨1, listingUrl "42" none⟩], processedWrites := [100], browserCalls := [] }

/-- A listing entry for user number `k`. -/
def sampleMember (k : Nat) : Member :=
  { user := some { userId := k, username := "user" } }

/-- An inventory with one item above the floor and one below it. -/
def sampleInventory : List Item :=
  [{ name := "Crown", recentAveragePrice := some 15000 },
   { name := "Cap", recentAveragePrice := some 500 }]

/-- An environment whose active tab is a Roblox page with a live content script. -/
def robloxEnv (listing : Nat → Nat → String → Except String (ApiResponse ListingData))
    (inventory : Nat → Nat → String → Except String (ApiResponse InventoryData)) : Env :=
  { tabsQuery := .ok (some { id := 1, url := some "https://www.roblox.com/home" })
    tabsCreate := .error "no tab"
    tabLoad := fun _ => .ok ()
    ping := fun _ => .ok true
    executeScript := fun _ => .ok ()
    listing := listing
    inventory := inventory }

/-- One page with one member, who holds `sampleInventory`. -/
def envSingle : Env :=
  robloxEnv
    (fun _ _ _ => .ok (.success { data := some [sampleMember 7], nextPageCursor := none }))
    (fun _ _ _ => .ok (.success { data := some sampleInventory }))

/-- The record of `sampleMember 7` holding `sampleInventory`. -/
def singleRecord : WealthRecord :=
  { userId := 7, username := "user", totalValue := 15000,
    valuableItems := [{ name := "Crown", value := 15000 }] }

/-- The result of the run in `envSingle`. -/
def singleResult : FetchResult :=
  { success := true, members := some [singleRecord], totalProcessed := some 1, error := none }

/-- The first listing request is answered with a failure. -/
def envFirstFailure : Env :=
  robloxEnv (fun _ _ _ => .ok (.failure "HTTP 403: Forbidden"))
    (fun _ _ _ => .ok (.failure "HTTP 500: "))

/-- The first listing page holds one member and a next cursor; the request for the
second page fails. -/
def envLaterFailure : Env :=
  robloxEnv
    (fun n _ _ =>
      if n = 0 then
        .ok (.success { data := some [sampleMember 7], nextPageCursor := some "next" })
      else .ok (.failure "HTTP 500: "))
    (fun _ _ _ => .ok (.success { data := some sampleInventory }))

/-- Three listing pages of 100 members each; every inventory request fails. -/
def envThreePages : Env :=
  robloxEnv
    (fun n _ _ => .ok (.success
      { data := some (List.replicate 100 (sampleMember n))
        nextPageCursor := if n < 2 then some "next" else none }))
    (fun _ _ _ => .ok (.failure "HTTP 429: "))

/-- An inventory whose two qualifying prices, `2^53` and 10001, add up to an odd
number above `2^53`. -/
def largeInventory : List Item :=
  [{ name := "Dominus", recentAveragePrice := some 9007199254740992 },
   { name := "Crown", recentAveragePrice := some 10001 }]

/-- One page with one member, who holds `largeInventory`. -/
def envLargePrices : Env :=
  robloxEnv
    (fun _ _ _ => .ok (.success { data := some [sampleMember 7], nextPageCursor := none }))
    (fun _ _ _ => .ok (.success { data := some largeInventory }))

/-- The listing endpoint refuses the requests of tab 1, the tab the run works on,
and would answer any other tab with one member. -/
def envOwnTabFailure : Env :=
  robloxEnv
    (fun _ tabId _ =>
      if tabId = 1 then .ok (.failure "HTTP 403: Forbidden")
      else .ok (.success { data := some [sampleMember 7], nextPageCursor := none }))
    (fun _ _ _ => .ok (.success { data := some sampleInventory }))

/-- On tab 1 the first listing page holds one member and a next cursor and the
request for the second page fails; any other tab would be answered with one
complete page. -/
def envOwnTabLaterFailure : Env :=
  robloxEnv
    (fun n tabId _ =>
      if tabId = 1 then
        if n = 0 then
          .ok (.success { data := some [sampleMember 7], nextPageCursor := some "next" })
        else .ok (.failure "HTTP 500: ")
      else .ok (.success { data := some [sampleMember 7], nextPageCursor := none }))
    (fun _ _ _ => .ok (.success { data := some sampleInventory }))

/-! ## Specification-side definitions for the preparation of a run -/

/-- The preparation of a run (lines 63-78) as the environment determines it: the id
of the tab that the run sends its requests to, or the message of the exception that
ends the run before any request, together with the tab-API calls made.  It is
`findTargetTab` followed by `ensureContentScriptInjected`, run with an empty call
log. -/
def runPreparation (env : Env) : Except String Nat × List BrowserCall :=
  match findTargetTab env idleTracker with
  | (.error e, st1) => (.error e, st1.browserCalls)
  | (.ok targetTab, st1) =>
    match ensureContentScriptInjected env targetTab.id st1 with
    | (.error e, st2) => (.error e, st2.browserCalls)
    | (.ok _, st2) => (.ok targetTab.id, st2.browserCalls)

/-- The state in which a run started from `st` issues its first request: `runStart`
with the tab-API calls of the preparation. -/
def enumerationStart (env : Env) (st : Tracker) : Tracker :=
  runStart st (runPreparation env).2

end WealthTracker

/-! ## Popup: link validation (popup.js 26-62) -/

namespace Popup

/-- The code points that `String.prototype.trim` strips: ECMAScript `WhiteSpace`
and `LineTerminator`. -/
def isJsWhiteSpace (c : Char) : Bool :=
  c.toNat ∈ [9, 10, 11, 12, 13, 32, 160, 5760, 8232, 8233, 8239, 8287, 12288, 65279] ∨
    (8192 ≤ c.toNat ∧ c.toNat ≤ 8202)

/-- The method `trim()`. -/
def jsTrim (s : String) : String :=
  ⟨((s.data.dropWhile isJsWhiteSpace).reverse.dropWhile isJsWhiteSpace).reverse⟩

/-- The literal `https://www.roblox.com/communities/`, which both `startsWith`
(line 52) and the regular expression (line 29) test for. -/
def acceptedHead : String := "https://www.roblox.com/communities/"

/-- The character class of the regular expression's digit escape: `0` to `9`. -/
def isAsciiDigit (c : Char) : Bool :=
  48 ≤ c.toNat ∧ c.toNat ≤ 57

/-- The regular expression of line 29 tried at the start of `s`: the literal
`acceptedHead`, then one or more digits, as many as there are.  The result is the
capture group. -/
def matchAt (s : List Char) : Option (List Char) :=
  if acceptedHead.data.isPrefixOf s then
    let digits := (s.drop acceptedHead.data.length).takeWhile isAsciiDigit
    if digits.isEmpty then none else some digits
  else none

/-- The call `url.match(regex)` for the regular expression of line 29, which is not
anchored: the match at the leftmost position where there is one.  The result is
the capture group `match[1]`. -/
def regexMatch : List Char → Option (List Char)
  | [] => matchAt []
  | c :: rest =>
    match matchAt (c :: rest) with
    | some digits => some digits
    | none => regexMatch rest

/-- The function `parseInt` on a string of decimal digits. -/
def parseIntDigits (digits : List Char) : Nat :=
  digits.foldl (fun n c => 10 * n + (c.toNat - 48)) 0

/-- The method `extractCommunityId(url)`: the captured digits when they are a
string of digits (the test of line 35) denoting a positive integer, else `null`. -/
def extractCommunityId (url : String) : Option String :=
  match regexMatch url.data with
  | some digits =>
    if ¬ digits.isEmpty ∧ digits.all isAsciiDigit ∧ parseIntDigits digits > 0 then
      some ⟨digits⟩
    else none
  | none => none

/-- The object returned by `validateCommunityLink`: `{valid, error}` or
`{valid, communityId}`. -/
structure Validation where
  valid : Bool
  communityId : Option String
  error : Option String
  deriving DecidableEq, Repr

/-- The method `validateCommunityLink(url)` on a string. -/
def validateCommunityLink (url : String) : Validation :=
  if url = "" then
    { valid := false, communityId := none, error := some "Please enter a community link" }
  else
    let trimmed := jsTrim url
    if ¬ acceptedHead.data.isPrefixOf trimmed.data then
      { valid := false, communityId := none,
        error := some "Invalid Roblox community link format" }
    else
      match extractCommunityId trimmed with
      | none =>
        { valid := false, communityId := none,
          error := some "Could not extract valid community ID from link" }
      | some communityId => { valid := true, communityId := some communityId, error := none }

/-! ## Popup: `handleSearch` (popup.js 64-107) -/

/-- A message handed to `chrome.runtime.sendMessage`. -/
structure Message where
  action : String
  communityId : String
  deriving DecidableEq, Repr

/-- The fields of `RobloxCommunityTracker` and the parts of the page it drives, with
three ghost logs: the objects written to `chrome.storage.local`, the messages sent
to the background script and the number of progress timers started. -/
structure PopupState where
  currentCommunityId : Option String
  isSearching : Bool
  inputValue : String
  statusText : String
  statusClass : String
  searchDisabled : Bool
  refreshDisabled : Bool
  searchLabel : String
  storageWrites : List (String × String)
  messages : List Message
  progressTimers : Nat
  deriving DecidableEq, Repr

/-- The answer of the background script to `fetchCommunityMembers`, as the popup
reads it: `response.success` and `response.error`. -/
structure SearchResponse where
  success : Bool
  error : Option String
  deriving DecidableEq, Repr

/-- Outcomes of the two calls that leave the popup during a search. -/
structure PopupEnv where
  storageSet : Except String Unit
  sendMessage : Except String SearchResponse

/-- The method `showStatus(message, type)`. -/
def showStatus (message type : String) (st : PopupState) : PopupState :=
  { st with statusText := message, statusClass := "status " ++ type }

/-- The method `updateButtonStates()`. -/
def updateButtonStates (st : PopupState) : PopupState :=
  { st with
    searchDisabled := st.isSearching
    refreshDisabled := st.isSearching ||
      (match st.currentCommunityId with
       | some communityId => communityId = ""
       | none => true)
    searchLabel := if st.isSearching then "🔄 Searching..." else "🔍 Search for List" }

/-- The method `startProgressTracking()`: one more polling timer is running. -/
def startProgressTracking (st : PopupState) : PopupState :=
  { st with progressTimers := st.progressTimers + 1 }

/-- The `try` block of `handleSearch` (lines 80-99), entered with the validated
link and identifier. -/
def handleSearchTry (env : PopupEnv) (link communityId : String) (st : PopupState) :
    Except String Unit × PopupState :=
  let st1 := showStatus "🔍 Extracting community members..." "loading" st
  let st2 := { st1 with storageWrites := st1.storageWrites ++ [(link, communityId)] }
  match env.storageSet with
  | .error e => (.error e, st2)
  | .ok _ =>
    let st3 := { st2 with
      messages := st2.messages ++ [⟨"fetchCommunityMembers", communityId⟩] }
    match env.sendMessage with
    | .error e => (.error e, st3)
    | .ok response =>
      if response.success then
        (.ok (), startProgressTracking
          (showStatus "✅ Community members found! Analyzing wealth..." "loading" st3))
      else
        (.error (match response.error with
                 | some e => if e ≠ "" then e else "Failed to fetch community members"
                 | none => "Failed to fetch community members"), st3)

/-- The method `handleSearch()`. -/
def handleSearch (env : PopupEnv) (st : PopupState) : Except String Unit × PopupState :=
  if st.isSearching then (.ok (), st)
  else
    let link := st.inputValue
    let validation := validateCommunityLink link
    if ¬ validation.valid then
      (.ok (), showStatus (validation.error.getD "undefined") "error" st)
    else
      let st1 := updateButtonStates
        { st with currentCommunityId := validation.communityId, isSearching := true }
      match handleSearchTry env link (validation.communityId.getD "") st1 with
      | (.ok _, st2) => (.ok (), st2)
      | (.error e, st2) =>
        (.ok (), updateButtonStates
          { showStatus ("❌ Error: " ++ e) "error" st2 with isSearching := false })

/-! ## Specification-side definitions for links -/

/-- The characters of `s` from its first occurrence of `pattern` on, the pattern
removed; `none` when `pattern` does not occur. -/
def afterFirst (pattern : List Char) : List Char → Option (List Char)
  | [] => if pattern.isPrefixOf [] then some [] else none
  | c :: rest =>
    if pattern.isPrefixOf (c :: rest) then some ((c :: rest).drop pattern.length)
    else afterFirst pattern rest

/-- The path segment immediately following `/communities/` in a link: the
characters up to the next `/`, `?` or `#`. -/
def communitiesSegment (link : String) : Option String :=
  (afterFirst "/communities/".data link.data).map fun tail =>
    ⟨tail.takeWhile fun c => c ≠ '/' ∧ c ≠ '?' ∧ c ≠ '#'⟩

/-- The string is entirely a positive decimal integer. -/
def isPositiveDecimal (s : String) : Bool :=
  ¬ s.data.isEmpty ∧ s.data.all isAsciiDigit ∧ parseIntDigits s.data > 0

/-- The list `digits` is the digit run of the leftmost place in `s` where the
accepted head is directly followed by a decimal digit: `s` is `pre`, the head,
`digits` and `rest`, where `digits` is non-empty, consists of decimal digits and is
not continued by a digit, and no occurrence of the head that starts further left
than `pre` is directly followed by a digit. -/
def FirstDigitRun (s digits : List Char) : Prop :=
  ∃ pre rest, s = pre ++ acceptedHead.data ++ digits ++ rest ∧
    digits ≠ [] ∧
    (∀ c ∈ digits, isAsciiDigit c = true) ∧
    (∀ c, rest.head? = some c → isAsciiDigit c = false) ∧
    ∀ pre2 d rest2, s = pre2 ++ acceptedHead.data ++ d :: rest2 → isAsciiDigit d = true →
      pre.length ≤ pre2.length

/-- The links that the validation accepts, and the identifier `c` it takes from
them: the trimmed link starts with the accepted head, `c` is the digit run of the
leftmost place in it where the head is directly followed by a digit, and `c`
denotes a positive integer. -/
def AcceptedShape (link c : String) : Prop :=
  acceptedHead.data <+: (jsTrim link).data ∧
  FirstDigitRun (jsTrim link).data c.data ∧
  0 < parseIntDigits c.data

/-- A popup at rest with `link` typed into the input field. -/
def popupWith (link : String) : PopupState :=
  { currentCommunityId := none, isSearching := false, inputValue := link,
    statusText := "", statusClass := "status", searchDisabled := false,
    refreshDisabled := true, searchLabel := "🔍 Search for List",
    storageWrites := [], messages := [], progressTimers := 0 }

/-- A popup environment in which the store and the background script answer. -/
def popupEnvOk : PopupEnv :=
  { storageSet := .ok (), sendMessage := .ok { success := true, error := none } }

end Popup


/-! ## Background message handler (background.js 15-44) -/

namespace WealthTracker

/-- A message received by the background script: its `action` and the fields the
handler reads. -/
structure IncomingMessage where
  action : String
  communityId : String
  processed : Nat
  total : Nat
  deriving DecidableEq, Repr

/-- The value handed to `sendResponse`. -/
inductive Reply where
  | result (response : FetchResult)
  | progress (snapshot : Progress)
  | received
  | unknownAction
  deriving DecidableEq, Repr

/-- The listener installed by `setupMessageHandlers`: the value it answers with, the
flag it returns (`true` when the answer comes asynchronously) and the state it
leaves. -/
def onMessage (env : Env) (request : IncomingMessage) (st : Tracker) :
    (Reply × Bool) × Tracker :=
  if request.action = "fetchCommunityMembers" then
    match handleFetchCommunityMembers env request.communityId st with
    | (.ok response, st1) => ((.result response, true), st1)
    | (.error e, st1) => ((.result (failedResult e), true), st1)
  else if request.action = "getProgress" then
    ((.progress st.currentProgress, false), st)
  else if request.action = "updateProgress" then
    ((.received, false),
      { setProcessed request.processed st with
        currentProgress :=
          { (setProcessed request.processed st).currentProgress with
            total := request.total } })
  else if request.action = "contentScriptReady" then
    ((.received, false), st)
  else
    ((.unknownAction, false), st)

end WealthTracker

/-! ## Content script: the authenticated request gateway (content.js 58-85, 235-255) -/

namespace Content

/-- A response of `fetch` as the gateway reads it: `status`, `statusText`, the
value of `headers.get('x-csrf-token')` (`none` when the header is absent) and the
outcome of `response.json()`. -/
structure HttpResponse (α : Type) where
  status : Nat
  statusText : String
  csrfHeader : Option String
  body : Except String α
  deriving DecidableEq

/-- The property `response.ok`: the status is in the range 200-299. -/
def HttpResponse.ok {α : Type} (response : HttpResponse α) : Bool :=
  200 ≤ response.status ∧ response.status ≤ 299

/-- The arguments of one call of `fetch`: the URL, the `credentials` option and the
`headers` object as a list of its properties. -/
structure FetchCall where
  url : String
  credentials : String
  headers : List (String × String)
  deriving DecidableEq, Repr

/-- The `options` argument of `makeAuthenticatedRequest`; `none` is an absent
property. -/
structure RequestOptions where
  credentials : Option String
  headers : Option (List (String × String))
  deriving DecidableEq, Repr

/-- The fields of `RobloxAPIHelper`, with the ghost log of the calls of `fetch`. -/
structure ApiHelper where
  csrfToken : Option String
  authCookie : Option String
  fetches : List FetchCall
  deriving DecidableEq, Repr

/-- The transport: the outcome of a call of `fetch`, given the number of calls made
before it; `Except.error` is a rejected promise. -/
abbrev Transport (α : Type) : Type := Nat → FetchCall → Except String (HttpResponse α)

/-- JavaScript truthiness of an optional string: present and not empty. -/
def stringTruthy (s : Option String) : Bool :=
  match s with
  | some v => v ≠ ""
  | none => false

/-- The assignment `headers[name] = value` on an object given as its property list. -/
def setHeader (name value : String) (headers : List (String × String)) :
    List (String × String) :=
  if headers.any (fun h => h.1 = name) then
    headers.map (fun h => if h.1 = name then (name, value) else h)
  else headers ++ [(name, value)]

/-- The value of `mergedOptions.headers` (lines 59-68): the caller's `headers` when
`options` has one, else the default headers with the cached token or `''`. -/
def mergedHeaders (csrfToken : Option String) (options : RequestOptions) :
    List (String × String) :=
  match options.headers with
  | some headers => headers
  | none =>
    [("Content-Type", "application/json"),
     ("X-CSRF-TOKEN", if stringTruthy csrfToken then csrfToken.getD "" else "")]

/-- The method `makeAuthenticatedRequest(url, options)`; its `catch` rethrows. -/
def makeAuthenticatedRequest {α : Type} (fetch : Transport α) (url : String)
    (options : RequestOptions) (helper : ApiHelper) :
    Except String (HttpResponse α) × ApiHelper :=
  let call1 : FetchCall :=
    { url := url, credentials := options.credentials.getD "include",
      headers := mergedHeaders helper.csrfToken options }
  let helper1 := { helper with fetches := helper.fetches ++ [call1] }
  match fetch helper.fetches.length call1 with
  | .error e => (.error e, helper1)
  | .ok response =>
    if response.status = 403 ∧ stringTruthy response.csrfHeader then
      let call2 : FetchCall :=
        { call1 with
          headers := setHeader "X-CSRF-TOKEN" (response.csrfHeader.getD "") call1.headers }
      (fetch helper1.fetches.length call2,
        { helper1 with
          csrfToken := response.csrfHeader
          fetches := helper1.fetches ++ [call2] })
    else (.ok response, helper1)

/-- The arguments of the first call of `fetch` in `makeAuthenticatedRequest`. -/
def firstCall (url : String) (options : RequestOptions) (helper : ApiHelper) : FetchCall :=
  { url := url, credentials := options.credentials.getD "include",
    headers := mergedHeaders helper.csrfToken options }

/-- The default `options = {}`. -/
def noOptions : RequestOptions := { credentials := none, headers := none }

/-- The function `handleAPIRequest(url)`: every exception of its `try` block becomes
`{success:false, error}`. -/
def handleAPIRequest {α : Type} (fetch : Transport α) (url : String) (helper : ApiHelper) :
    Except String (WealthTracker.ApiResponse α) × ApiHelper :=
  match makeAuthenticatedRequest fetch url noOptions helper with
  | (.error e, helper1) => (.ok (.failure e), helper1)
  | (.ok response, helper1) =>
    if ¬ response.ok then
      (.ok (.failure ("HTTP " ++ toString response.status ++ ": " ++ response.statusText)),
        helper1)
    else
      match response.body with
      | .error e => (.ok (.failure e), helper1)
      | .ok data => (.ok (.success data), helper1)

/-- The answer of the content script's listener to `{action:'makeAPIRequest', url}`
(lines 222-227): the result of `handleAPIRequest`, or `{success:false, error}` if
that promise were rejected. -/
def onMakeAPIRequest {α : Type} (fetch : Transport α) (url : String) (helper : ApiHelper) :
    WealthTracker.ApiResponse α × ApiHelper :=
  match handleAPIRequest fetch url helper with
  | (.ok response, helper1) => (response, helper1)
  | (.error e, helper1) => (.failure e, helper1)

/-- The outcome of `chrome.tabs.sendMessage(tabId, {action:'makeAPIRequest', url})`
seen from the background script: the listener's answer when the message is
delivered, a rejection when it is not. -/
def relay {α : Type} (delivery : Except String Unit) (fetch : Transport α)
    (helper : ApiHelper) : Nat → Nat → String → Except String (WealthTracker.ApiResponse α) :=
  fun _ _ url =>
    match delivery with
    | .ok _ => .ok (onMakeAPIRequest fetch url helper).1
    | .error e => .error e

/-- A helper with a cached token and no call made. -/
def freshHelper : ApiHelper :=
  { csrfToken := some "stale", authCookie := none, fetches := [] }

/-- A transport whose first answer is 403 with a refreshed token and whose second
answer is 200 with the body `7`. -/
def transportRefresh : Transport Nat :=
  fun n _ =>
    if n = 0 then
      .ok { status := 403, statusText := "Forbidden", csrfHeader := some "fresh",
            body := .error "Unexpected token" }
    else .ok { status := 200, statusText := "OK", csrfHeader := none, body := .ok 7 }

/-- A 200 response whose body is not JSON. -/
def badBodyResponse : HttpResponse Nat :=
  { status := 200, statusText := "OK", csrfHeader := none,
    body := .error "Unexpected token < in JSON at position 0" }

/-- A 403 response that carries an empty `x-csrf-token` header. -/
def emptyTokenResponse : HttpResponse Nat :=
  { status := 403, statusText := "Forbidden", csrfHeader := some "",
    body := .error "Unexpected token" }

/-- A transport whose first answer is 403 with a refreshed token and whose second
answer is 200 with a body that is not JSON. -/
def transportRefreshBadBody : Transport Nat :=
  fun n _ =>
    if n = 0 then
      .ok { status := 403, statusText := "Forbidden", csrfHeader := some "fresh",
            body := .error "Unexpected token" }
    else .ok badBodyResponse

/-- A transport that answers 403 with an empty `x-csrf-token` header. -/
def transportEmptyToken : Transport Nat :=
  fun _ _ => .ok emptyTokenResponse

end Content

/-! ## Specification-side definitions for the scheduler -/

namespace WealthTracker

/-- The valuation of one member whose inventory request, if it issues one, is
request number `seq`: the record of the member when the member carries a user, the
request is answered successfully and the qualifying sum of the answered inventory
is strictly above 10000; `none` (no entry) in every other case. -/
def valuationOf (env : Env) (tabId : Nat) (member : Member) (seq : Nat) :
    Option WealthRecord :=
  match member.user with
  | none => none
  | some user =>
    match env.inventory seq tabId (inventoryUrl user.userId) with
    | .ok (.success body) =>
      if 10000 < qualifyingSum (body.data.getD []) then
        some { userId := user.userId, username := user.username,
               totalValue := qualifyingSum (body.data.getD []),
               valuableItems := qualifyingItems (body.data.getD []) }
      else none
    | _ => none

/-- The valuations of the members of a sequence, in order, when `seq` requests have
been issued before the first of them: each member that carries a user takes the
next request number. -/
def valuations (env : Env) (tabId : Nat) : List Member → Nat → List (Option WealthRecord)
  | [], _ => []
  | member :: rest, seq =>
    valuationOf env tabId member seq ::
      valuations env tabId rest (seq + (inventoryRequests tabId [member]).length)

/-- The records of the members whose fetch succeeded and whose value cleared the
floor, in member order. -/
def valued (env : Env) (tabId : Nat) (members : List Member) (seq : Nat) :
    List WealthRecord :=
  (valuations env tabId members seq).filterMap id

/-- The group that the inner loop of `processMembersOptimized` forms for the values
`i` and `j` of its counters (lines 212-217), if it forms one. -/
def batchAt (members : List Member) (i j : Nat) : Option (List Member) :=
  if i + j * batchSize < members.length then
    some (slice members (i + j * batchSize)
      (min (i + j * batchSize + batchSize) members.length))
  else none

/-- The groups that one outer iteration forms, in the order of `j`. -/
def iterationGroups (members : List Member) (i : Nat) (js : List Nat) : List (List Member) :=
  js.filterMap (batchAt members i)

/-- The outer iterations of `processMembersOptimized`, in order: the value of `i`
and the groups formed, following the loop header of line 207. -/
def schedule (members : List Member) : Nat → Nat → List (Nat × List (List Member))
  | 0, _ => []
  | fuel + 1, i =>
    if i < members.length then
      (i, iterationGroups members i (List.range concurrentBatches)) ::
        schedule members fuel (i + batchSize * concurrentBatches)
    else []

/-- The calls `processMemberBatch(tabId, group)` for the given groups, started in
order and awaited together. -/
def submitAll (env : Env) (tabId : Nat) : List (List Member) → Action (List (List WealthRecord))
  | [] => fun st => (.ok [], st)
  | group :: groups => fun st =>
    match processMemberBatch env tabId group st with
    | (.ok batchResult, st1) =>
      match submitAll env tabId groups st1 with
      | (.ok others, st2) => (.ok (batchResult :: others), st2)
      | (.error e, st2) => (.error e, st2)
    | (.error e, st1) => (.error e, (submitAll env tabId groups st1).2)

/-- The outer iterations run on given groups: submit the groups of the iteration,
append their results, publish the progress. -/
def runIterations (env : Env) (tabId : Nat) (total : Nat) :
    List (Nat × List (List Member)) → List WealthRecord → Action (List WealthRecord)
  | [], wealthyMembers => fun st => (.ok wealthyMembers, st)
  | (i, groups) :: rest, wealthyMembers => fun st =>
    match submitAll env tabId groups st with
    | (.error e, st1) => (.error e, st1)
    | (.ok batchResults, st1) =>
      runIterations env tabId total rest (combineResults wealthyMembers batchResults)
        (setProcessed (min (i + batchSize * concurrentBatches) total) st1)

/-- The groups of the specification: the consecutive slices `[50k, min(50k+50, n))`
for `k = 0 .. ceil(n/50) - 1`. -/
def specGroups (members : List Member) : List (List Member) :=
  (List.range ((members.length + (batchSize - 1)) / batchSize)).map fun k =>
    slice members (batchSize * k) (min (batchSize * k + batchSize) members.length)

/-- An environment with one listing page of 120 members, each of whom holds one item
worth 15000. -/
def envScenarioB : Env :=
  robloxEnv
    (fun _ _ _ => .ok (.success
      { data := some ((List.range 120).map sampleMember), nextPageCursor := none }))
    (fun _ _ _ => .ok (.success
      { data := some [{ name := "Crown", recentAveragePrice := some 15000 }] }))

/-- The record of user `k` in `envScenarioB`. -/
def scenarioRecord (k : Nat) : WealthRecord :=
  { userId := k, username := "user", totalValue := 15000,
    valuableItems := [{ name := "Crown", value := 15000 }] }

end WealthTracker

/-! ## Specification-side definitions for the enumeration -/

namespace WealthTracker

/-- The members returned by listing page number `k` (from 0) of an enumeration that
starts when `base` requests have been issued: its `data`, or nothing when the field
is missing. -/
def pageData (env : Env) (tabId : Nat) (communityId : String) (base k : Nat) : List Member :=
  match pageOutcome env tabId communityId base k with
  | .ok (.success data) => data.data.getD []
  | _ => []

/-- The request for listing page number `k`: the listing URL carrying the cursor
that page `k - 1` returned, and no cursor for the first page. -/
def pageRequest (env : Env) (tabId : Nat) (communityId : String) (base k : Nat) : Request :=
  { tabId := tabId, url := listingUrl communityId (pageCursor env tabId communityId base k) }

end WealthTracker

namespace WealthTracker

/-! ## Valuation of one member -/

theorem two_pow_bitLength_le (fuel v : Nat) (hfuel : v ≤ fuel) (hv : v ≠ 0) :
    2 ^ (bitLength fuel v - 1) ≤ v := by
  induction fuel generalizing v with
  | zero => omega
  | succ fuel ih =>
    unfold bitLength
    rw [if_neg hv, Nat.add_sub_cancel]
    by_cases h2 : v / 2 = 0
    · have hb : bitLength fuel (v / 2) = 0 := by
        rw [h2]
        cases fuel <;> simp [bitLength]
      rw [hb]
      omega
    · have hle : v / 2 ≤ fuel := by omega
      have hih := ih (v / 2) hle h2
      have hpos : 1 ≤ bitLength fuel (v / 2) := by
        cases fuel with
        | zero => omega
        | succ f =>
          unfold bitLength
          rw [if_neg h2]
          omega
      have hsplit : bitLength fuel (v / 2) = (bitLength fuel (v / 2) - 1) + 1 := by omega
      rw [hsplit, pow_succ]
      omega

/-- The fuel `v` is enough for `bitLength`: the result is the position of the
leading binary digit of `v`. -/
theorem lt_two_pow_bitLength (fuel v : Nat) (hfuel : v ≤ fuel) :
    v < 2 ^ bitLength fuel v := by
  induction fuel generalizing v with
  | zero =>
    have hv : v = 0 := by omega
    subst hv
    simp [bitLength]
  | succ fuel ih =>
    unfold bitLength
    by_cases hv : v = 0
    · rw [if_pos hv, hv]
      simp
    · rw [if_neg hv, pow_succ]
      have hih := ih (v / 2) (by omega)
      omega

theorem roundToDouble_of_lt (v : Nat) (h : v < 2 ^ 53) : roundToDouble v = v := by
  unfold roundToDouble
  rw [if_pos h]

theorem roundToDouble_of_le (v : Nat) (h : v ≤ 2 ^ 53) : roundToDouble v = v := by
  rcases Nat.lt_or_eq_of_le h with hlt | heq
  · exact roundToDouble_of_lt v hlt
  · subst heq
    decide

theorem floor_lt_two_pow (n : Nat) (hn : 14 ≤ n) : 10000 < 2 ^ n :=
  lt_of_lt_of_le (by norm_num) (Nat.pow_le_pow_right (by decide) hn)

/-- Rounding keeps a number above the floor above the floor. -/
theorem roundToDouble_gt (v : Nat) (h : 10000 < v) : 10000 < roundToDouble v := by
  by_cases hlt : v < 2 ^ 53
  · rw [roundToDouble_of_lt v hlt]
    exact h
  · unfold roundToDouble
    rw [if_neg hlt]
    by_cases hover : 1024 < bitLength v v
    · rw [if_pos hover]
      exact floor_lt_two_pow 1024 (by decide)
    · rw [if_neg hover]
      have hv : v ≠ 0 := by omega
      have hpow := two_pow_bitLength_le v v le_rfl hv
      have hscale : 2 ^ (bitLength v v - 53) ≤ 2 ^ (bitLength v v - 1) :=
        Nat.pow_le_pow_right (by decide) (by omega)
      have hspos : 0 < 2 ^ (bitLength v v - 53) := Nat.pow_pos (by decide)
      have hq : 1 ≤ v / 2 ^ (bitLength v v - 53) :=
        (Nat.one_le_div_iff hspos).mpr (le_trans hscale hpow)
      have hdm := Nat.div_add_mod v (2 ^ (bitLength v v - 53))
      have hmod := Nat.mod_lt v hspos
      have hbig : (2 : Nat) ^ 53 ≤ v := Nat.le_of_not_lt hlt
      have h53 : (2 : Nat) ^ 53 = 9007199254740992 := by norm_num
      rw [h53] at hbig
      dsimp only
      generalize 2 ^ (bitLength v v - 53) = scale at *
      generalize v / scale = q at *
      generalize v % scale = r at *
      have hqs : scale ≤ q * scale := Nat.le_mul_of_pos_left scale hq
      have hcomm : scale * q = q * scale := Nat.mul_comm _ _
      have hup : q * scale ≤ (q + 1) * scale := Nat.mul_le_mul_right _ (by omega)
      have hlow : 10000 < q * scale := by omega
      split_ifs <;> omega

theorem jsAdd_of_le (a b : Int) (h0 : 0 ≤ a + b) (h : a + b ≤ 2 ^ 53) : jsAdd a b = a + b := by
  unfold jsAdd
  have hn : (a + b).natAbs ≤ 2 ^ 53 := by
    have : ((a + b).natAbs : Int) ≤ 2 ^ 53 := by
      rw [Int.natAbs_of_nonneg h0]
      exact h
    exact_mod_cast this
  rw [roundToDouble_of_le _ hn]
  exact Int.sign_mul_natAbs _

theorem jsAdd_gt (a b : Int) (h : 10000 < a + b) : 10000 < jsAdd a b := by
  unfold jsAdd
  have hpos : 0 < a + b := by omega
  rw [Int.sign_eq_one_of_pos hpos, one_mul]
  have hn : 10000 < (a + b).natAbs := by omega
  have := roundToDouble_gt _ hn
  exact_mod_cast this

theorem qualifyingItems_cons (item : Item) (rest : List Item) :
    qualifyingItems (item :: rest) = qualifyingItems [item] ++ qualifyingItems rest := by
  rcases item with ⟨name, _ | price⟩
  · simp [qualifyingItems]
  · by_cases h : 10000 < price <;> simp [qualifyingItems, h]

theorem tallyItem_eq (acc : Int × List ValuableItem) (item : Item) :
    tallyItem acc item =
      ((qualifyingItems [item]).foldl (fun total item => jsAdd total item.value) acc.1,
        acc.2 ++ qualifyingItems [item]) := by
  rcases item with ⟨name, _ | price⟩
  · simp [tallyItem, qualifyingItems]
  · by_cases h : 10000 < price
    · have h0 : price ≠ 0 := by omega
      simp [tallyItem, qualifyingItems, h, h0]
    · simp [tallyItem, qualifyingItems, h]

theorem foldl_tallyItem (inventory : List Item) (acc : Int × List ValuableItem) :
    inventory.foldl tallyItem acc =
      ((qualifyingItems inventory).foldl (fun total item => jsAdd total item.value) acc.1,
        acc.2 ++ qualifyingItems inventory) := by
  induction inventory generalizing acc with
  | nil => simp [qualifyingItems]
  | cons item rest ih =>
    rw [List.foldl_cons, ih, tallyItem_eq, qualifyingItems_cons item rest, List.foldl_append,
      List.append_assoc]

theorem tallyInventory_eq (inventory : List Item) :
    tallyInventory inventory = (qualifyingSum inventory, qualifyingItems inventory) := by
  simp [tallyInventory, foldl_tallyItem, qualifyingSum]

theorem mem_qualifyingItems (inventory : List Item) (v : ValuableItem)
    (h : v ∈ qualifyingItems inventory) : 10000 < v.value := by
  unfold qualifyingItems at h
  rw [List.mem_filterMap] at h
  obtain ⟨item, _, hv⟩ := h
  rcases hp : item.recentAveragePrice with _ | price
  · rw [hp] at hv
    simp at hv
  · rw [hp] at hv
    by_cases hgt : price > 10000
    · simp [hgt] at hv
      rw [← hv]
      exact hgt
    · simp [hgt] at hv

/-- The rounded accumulation of prices above the floor clears the floor as soon as
there is one price or the start does. -/
theorem foldl_jsAdd_gt (vs : List ValuableItem) (start : Int)
    (hvs : ∀ v ∈ vs, 10000 < v.value) (h0 : 0 ≤ start)
    (hne : 10000 < start ∨ vs ≠ []) :
    10000 < vs.foldl (fun total item => jsAdd total item.value) start := by
  induction vs generalizing start with
  | nil =>
    rcases hne with h | h
    · exact h
    · exact absurd rfl h
  | cons v rest ih =>
    rw [List.foldl_cons]
    have hv := hvs v (List.mem_cons_self _ _)
    have hstep : 10000 < jsAdd start v.value := jsAdd_gt _ _ (by omega)
    exact ih _ (fun w hw => hvs w (List.mem_cons_of_mem _ hw)) (by omega) (Or.inl hstep)

/-- The rounded accumulation is the exact sum as long as that sum stays within
`2^53`. -/
theorem foldl_jsAdd_exact (vs : List ValuableItem) (start : Int)
    (hvs : ∀ v ∈ vs, 10000 < v.value) (h0 : 0 ≤ start)
    (hle : start + (vs.map (·.value)).sum ≤ 2 ^ 53) :
    vs.foldl (fun total item => jsAdd total item.value) start =
      start + (vs.map (·.value)).sum := by
  induction vs generalizing start with
  | nil => simp
  | cons v rest ih =>
    rw [List.foldl_cons]
    have hv := hvs v (List.mem_cons_self _ _)
    have hrest : ∀ w ∈ rest, 10000 < w.value := fun w hw => hvs w (List.mem_cons_of_mem _ hw)
    have hsum : 0 ≤ (rest.map (·.value)).sum := by
      apply List.sum_nonneg
      intro x hx
      rw [List.mem_map] at hx
      obtain ⟨w, hw, rfl⟩ := hx
      have := hrest w hw
      omega
    simp only [List.map_cons, List.sum_cons] at hle ⊢
    have hstep : jsAdd start v.value = start + v.value :=
      jsAdd_of_le _ _ (by omega) (by omega)
    rw [hstep, ih _ hrest (by omega) (by omega)]
    omega

theorem qualifyingSum_of_le (inventory : List Item)
    (h : qualifyingTotal inventory ≤ 2 ^ 53) :
    qualifyingSum inventory = qualifyingTotal inventory := by
  unfold qualifyingSum
  unfold qualifyingTotal at h ⊢
  rw [foldl_jsAdd_exact _ 0 (mem_qualifyingItems inventory) le_rfl (by simpa using h)]
  simp

theorem qualifyingTotal_gt_iff (inventory : List Item) :
    10000 < qualifyingTotal inventory ↔ qualifyingItems inventory ≠ [] := by
  unfold qualifyingTotal
  have hall := mem_qualifyingItems inventory
  generalize qualifyingItems inventory = vs at hall
  cases vs with
  | nil => simp
  | cons v rest =>
    have hv := hall v (List.mem_cons_self _ _)
    have hsum : 0 ≤ (rest.map (·.value)).sum := by
      apply List.sum_nonneg
      intro x hx
      rw [List.mem_map] at hx
      obtain ⟨w, hw, rfl⟩ := hx
      have := hall w (List.mem_cons_of_mem _ hw)
      omega
    simp only [List.map_cons, List.sum_cons, ne_eq, reduceCtorEq, not_false_eq_true, iff_true]
    omega

theorem qualifyingSum_gt_iff (inventory : List Item) :
    10000 < qualifyingSum inventory ↔ 10000 < qualifyingTotal inventory := by
  rw [qualifyingTotal_gt_iff]
  unfold qualifyingSum
  have hall := mem_qualifyingItems inventory
  generalize qualifyingItems inventory = vs at hall
  constructor
  · intro h hnil
    subst hnil
    simp at h
  · intro hne
    exact foldl_jsAdd_gt vs 0 hall le_rfl (Or.inr hne)

theorem makeAPIRequest_fst {α : Type}
    (send : Nat → Nat → String → Except String (ApiResponse α)) (tabId : Nat) (url : String)
    (st : Tracker) :
    (makeAPIRequest send tabId url st).1 =
      .ok (match send st.requests.length tabId url with
           | .ok response => response
           | .error msg => .failure msg) := by
  unfold makeAPIRequest
  cases send st.requests.length tabId url <;> rfl

theorem makeAPIRequest_snd {α : Type}
    (send : Nat → Nat → String → Except String (ApiResponse α)) (tabId : Nat) (url : String)
    (st : Tracker) :
    (makeAPIRequest send tabId url st).2 =
      { st with requests := st.requests ++ [⟨tabId, url⟩] } := by
  unfold makeAPIRequest
  cases send st.requests.length tabId url <;> rfl

/-- The result of `analyzeMemberWealth` on a member that carries a user and whose
inventory request is answered successfully. -/
theorem analyzeMemberWealth_of_success (env : Env) (tabId : Nat) (member : Member)
    (user : User) (body : InventoryData) (st : Tracker)
    (huser : member.user = some user)
    (hresp : (makeAPIRequest env.inventory tabId (inventoryUrl user.userId) st).1 =
      .ok (.success body)) :
    (analyzeMemberWealth env tabId member st).1 =
      .ok (if 10000 < qualifyingSum (body.data.getD []) then
             some { userId := user.userId, username := user.username,
                    totalValue := qualifyingSum (body.data.getD []),
                    valuableItems := qualifyingItems (body.data.getD []) }
           else none) := by
  unfold analyzeMemberWealth analyzeMemberWealthBody
  rw [huser]
  dsimp only
  rcases hreq : makeAPIRequest env.inventory tabId (inventoryUrl user.userId) st with ⟨r, st1⟩
  rw [hreq] at hresp
  dsimp only at hresp
  subst hresp
  dsimp only
  rw [tallyInventory_eq]
  dsimp only
  by_cases h : 10000 < qualifyingSum (body.data.getD []) <;> simp [h]

/-- C1 (as amended): for every member that carries a user and every successful
inventory response with item list `L` to that member's request,
`analyzeMemberWealth` returns a record if and only if the sum `S` of
`recentAveragePrice` over the items of `L` priced strictly above 10000 is itself
strictly above 10000, and returns `null` otherwise; the record carries the member's
`userId` and `username`, as `valuableItems` the qualifying items as `{name, value}`
pairs in inventory order, and, provided `S` does not exceed `2^53`,
`totalValue = S`. -/
theorem analyzeMemberWealth_returns_record_iff (env : Env) (tabId : Nat) (member : Member)
    (user : User) (body : InventoryData) (st : Tracker)
    (huser : member.user = some user)
    (hresp : (makeAPIRequest env.inventory tabId (inventoryUrl user.userId) st).1 =
      .ok (.success body)) :
    ((∃ r, (analyzeMemberWealth env tabId member st).1 = .ok (some r)) ↔
      10000 < qualifyingTotal (body.data.getD [])) ∧
    (∀ r, (analyzeMemberWealth env tabId member st).1 = .ok (some r) →
      r.userId = user.userId ∧ r.username = user.username ∧
      r.valuableItems = qualifyingItems (body.data.getD []) ∧
      (qualifyingTotal (body.data.getD []) ≤ 2 ^ 53 →
        r.totalValue = qualifyingTotal (body.data.getD []))) ∧
    (¬ 10000 < qualifyingTotal (body.data.getD []) →
      (analyzeMemberWealth env tabId member st).1 = .ok none) := by
  have hmain := analyzeMemberWealth_of_success env tabId member user body st huser hresp
  have hiff := qualifyingSum_gt_iff (body.data.getD [])
  refine ⟨?_, ?_, ?_⟩
  · rw [hmain, ← hiff]
    by_cases h : 10000 < qualifyingSum (body.data.getD []) <;> simp [h]
  · intro r hr
    rw [hmain] at hr
    by_cases h : 10000 < qualifyingSum (body.data.getD [])
    · rw [if_pos h] at hr
      have hrec : r = { userId := user.userId, username := user.username,
                        totalValue := qualifyingSum (body.data.getD []),
                        valuableItems := qualifyingItems (body.data.getD []) } := by
        simpa using hr.symm
      subst hrec
      exact ⟨rfl, rfl, rfl, fun hle => qualifyingSum_of_le (body.data.getD []) hle⟩
    · rw [if_neg h] at hr
      simp at hr
  · intro hnot
    rw [hmain, if_neg (fun h => hnot (hiff.mp h))]

/-- Witness of C1 (as amended): the member of `envSingle`, whose inventory holds one
item worth 15000 and one worth 500, is valued at 15000, the exact sum. -/
theorem analyzeMemberWealth_returns_record_witness :
    (sampleMember 7).user = some { userId := 7, username := "user" } ∧
    (makeAPIRequest envSingle.inventory 1 (inventoryUrl 7) idleTracker).1 =
      .ok (.success { data := some sampleInventory }) ∧
    (analyzeMemberWealth envSingle 1 (sampleMember 7) idleTracker).1 =
      .ok (some singleRecord) ∧
    qualifyingTotal sampleInventory = 15000 ∧
    singleRecord.userId = 7 ∧ singleRecord.username = "user" ∧
    singleRecord.valuableItems = qualifyingItems sampleInventory ∧
    (qualifyingTotal sampleInventory ≤ 2 ^ 53 →
      singleRecord.totalValue = qualifyingTotal sampleInventory) :=
  ⟨rfl, rfl, by decide, by decide,
    (analyzeMemberWealth_returns_record_iff envSingle 1 (sampleMember 7)
      { userId := 7, username := "user" } { data := some sampleInventory } idleTracker
      rfl rfl).2.1 singleRecord (by decide)⟩

/-- Counterexample to C1 as stated: the inventory holds two qualifying items, priced
`2^53 = 9007199254740992` and 10001, so `S = 9007199254750993`; the request is
answered successfully, and the record returned carries
`totalValue = 9007199254750992`, which is not `S`. -/
theorem total_value_is_rounded_sum :
    (sampleMember 7).user = some { userId := 7, username := "user" } ∧
    (makeAPIRequest envLargePrices.inventory 1 (inventoryUrl 7) idleTracker).1 =
      .ok (.success { data := some largeInventory }) ∧
    qualifyingItems largeInventory =
      [{ name := "Dominus", value := 9007199254740992 }, { name := "Crown", value := 10001 }] ∧
    qualifyingTotal largeInventory = 9007199254750993 ∧
    (analyzeMemberWealth envLargePrices 1 (sampleMember 7) idleTracker).1 =
      .ok (some { userId := 7, username := "user", totalValue := 9007199254750992,
                  valuableItems := qualifyingItems largeInventory }) ∧
    (9007199254750992 : Int) ≠ qualifyingTotal largeInventory := by
  decide

end WealthTracker

namespace WealthTracker

/-! ## The scheduler never throws and only returns valuation results -/

theorem analyzeMemberWealth_ok (env : Env) (tabId : Nat) (member : Member) (st : Tracker) :
    ∃ r, (analyzeMemberWealth env tabId member st).1 = .ok r := by
  unfold analyzeMemberWealth
  rcases analyzeMemberWealthBody env tabId member st with ⟨_ | r, st1⟩
  · exact ⟨none, rfl⟩
  · exact ⟨r, rfl⟩

theorem analyzeMemberWealth_some (env : Env) (tabId : Nat) (member : Member) (st : Tracker)
    (r : WealthRecord) (h : (analyzeMemberWealth env tabId member st).1 = .ok (some r)) :
    ClearsFloor env tabId member st r := by
  unfold analyzeMemberWealth analyzeMemberWealthBody at h
  rcases hu : member.user with _ | user
  · rw [hu] at h; simp at h
  · rw [hu] at h
    dsimp only at h
    have hfst := makeAPIRequest_fst env.inventory tabId (inventoryUrl user.userId) st
    rcases hreq : makeAPIRequest env.inventory tabId (inventoryUrl user.userId) st with
      ⟨resp, st1⟩
    rw [hreq] at h hfst
    rcases resp with e | (body | err)
    · simp at hfst
    · dsimp only at h
      rw [tallyInventory_eq] at h
      dsimp only at h
      by_cases hgt : 10000 < qualifyingSum (body.data.getD [])
      · refine ⟨user, body, hu, ?_, hgt, ?_⟩
        · rw [hreq]
        · simp [hgt] at h
          exact h.symm
      · simp [hgt] at h
    · simp at h

theorem analyzeAll_spec (env : Env) (tabId : Nat) (batch : List Member) (st : Tracker) :
    ∃ rs, (analyzeAll env tabId batch st).1 = .ok rs ∧
      ∀ r, some r ∈ rs → ∃ m ∈ batch, ∃ s, ClearsFloor env tabId m s r := by
  induction batch generalizing st with
  | nil => exact ⟨[], rfl, by simp⟩
  | cons member rest ih =>
    obtain ⟨r0, hr0⟩ := analyzeMemberWealth_ok env tabId member st
    rcases hm : analyzeMemberWealth env tabId member st with ⟨res, st1⟩
    rw [hm] at hr0
    dsimp only at hr0
    subst hr0
    obtain ⟨rs, hrs, hall⟩ := ih st1
    rcases hrest : analyzeAll env tabId rest st1 with ⟨res2, st2⟩
    rw [hrest] at hrs
    dsimp only at hrs
    subst hrs
    refine ⟨r0 :: rs, ?_, ?_⟩
    · simp [analyzeAll, hm, hrest]
    · intro r hr
      rcases List.mem_cons.mp hr with h | h
      · refine ⟨member, List.mem_cons_self _ _, st, ?_⟩
        apply analyzeMemberWealth_some
        rw [hm, h]
      · obtain ⟨m, hmem, s, hs⟩ := hall r h
        exact ⟨m, List.mem_cons_of_mem _ hmem, s, hs⟩

theorem processMemberBatch_spec (env : Env) (tabId : Nat) (batch : List Member)
    (st : Tracker) :
    ∃ rs, (processMemberBatch env tabId batch st).1 = .ok rs ∧
      ∀ r ∈ rs, ∃ m ∈ batch, ∃ s, ClearsFloor env tabId m s r := by
  obtain ⟨rs, hrs, hall⟩ := analyzeAll_spec env tabId batch st
  rcases hrest : analyzeAll env tabId batch st with ⟨res, st1⟩
  rw [hrest] at hrs
  dsimp only at hrs
  subst hrs
  refine ⟨rs.filterMap id, ?_, ?_⟩
  · simp [processMemberBatch, hrest]
  · intro r hr
    apply hall
    simpa using hr

theorem mem_of_mem_slice {α : Type} (xs : List α) (s e : Nat) (x : α)
    (h : x ∈ slice xs s e) : x ∈ xs :=
  List.mem_of_mem_drop (List.mem_of_mem_take h)

theorem runBatches_spec (env : Env) (tabId : Nat) (members : List Member) (i : Nat)
    (js : List Nat) (st : Tracker) :
    ∃ brs, (runBatches env tabId members i js st).1 = .ok brs ∧
      ∀ br ∈ brs, ∀ r ∈ br, ∃ m ∈ members, ∃ s, ClearsFloor env tabId m s r := by
  induction js generalizing st with
  | nil => exact ⟨[], rfl, by simp⟩
  | cons j js ih =>
    by_cases hlt : i + j * batchSize < members.length
    · obtain ⟨b, hb, hball⟩ := processMemberBatch_spec env tabId
        (slice members (i + j * batchSize) (min (i + j * batchSize + batchSize) members.length)) st
      rcases hpb : processMemberBatch env tabId
        (slice members (i + j * batchSize) (min (i + j * batchSize + batchSize) members.length))
        st with ⟨res, st1⟩
      rw [hpb] at hb
      dsimp only at hb
      subst hb
      obtain ⟨brs, hbrs, hall⟩ := ih st1
      rcases hrest : runBatches env tabId members i js st1 with ⟨res2, st2⟩
      rw [hrest] at hbrs
      dsimp only at hbrs
      subst hbrs
      refine ⟨b :: brs, ?_, ?_⟩
      · simp [runBatches, hlt, hpb, hrest]
      · intro br hbr r hr
        rcases List.mem_cons.mp hbr with h | h
        · subst h
          obtain ⟨m, hm, s, hs⟩ := hball r hr
          exact ⟨m, mem_of_mem_slice _ _ _ _ hm, s, hs⟩
        · exact hall br h r hr
    · obtain ⟨brs, hbrs, hall⟩ := ih st
      refine ⟨brs, ?_, hall⟩
      simpa [runBatches, hlt] using hbrs

theorem mem_combineResults (acc : List WealthRecord) (brs : List (List WealthRecord))
    (r : WealthRecord) (h : r ∈ combineResults acc brs) :
    r ∈ acc ∨ ∃ br ∈ brs, r ∈ br := by
  induction brs generalizing acc with
  | nil => exact Or.inl h
  | cons b brs ih =>
    unfold combineResults at h
    rw [List.foldl_cons] at h
    rcases ih _ h with h1 | ⟨br, hbr, hr⟩
    · rcases List.mem_append.mp h1 with h2 | h2
      · exact Or.inl h2
      · exact Or.inr ⟨b, List.mem_cons_self _ _, (List.mem_filter.mp h2).1⟩
    · exact Or.inr ⟨br, List.mem_cons_of_mem _ hbr, hr⟩

theorem processLoop_spec (env : Env) (tabId : Nat) (members : List Member)
    (fuel i : Nat) (acc : List WealthRecord) (st : Tracker)
    (hfuel : members.length ≤ i + fuel * (batchSize * concurrentBatches))
    (hacc : ∀ r ∈ acc, ∃ m ∈ members, ∃ s, ClearsFloor env tabId m s r) :
    ∃ res, (processLoop env tabId members fuel i acc st).1 = .ok res ∧
      ∀ r ∈ res, ∃ m ∈ members, ∃ s, ClearsFloor env tabId m s r := by
  induction fuel generalizing i acc st with
  | zero =>
    have hge : ¬ i < members.length := by omega
    exact ⟨acc, by simp [processLoop, hge], hacc⟩
  | succ fuel ih =>
    by_cases hlt : i < members.length
    · obtain ⟨brs, hbrs, hall⟩ :=
        runBatches_spec env tabId members i (List.range concurrentBatches) st
      rcases hrun : runBatches env tabId members i (List.range concurrentBatches) st with
        ⟨res, st1⟩
      rw [hrun] at hbrs
      dsimp only at hbrs
      subst hbrs
      have hfuel2 : members.length ≤
          i + batchSize * concurrentBatches + fuel * (batchSize * concurrentBatches) := by
        have := hfuel
        rw [Nat.succ_mul] at this
        omega
      obtain ⟨res, hres, hresall⟩ := ih (i + batchSize * concurrentBatches)
        (combineResults acc brs)
        (setProcessed (min (i + batchSize * concurrentBatches) members.length) st1) hfuel2
        (by
          intro r hr
          rcases mem_combineResults _ _ _ hr with h | ⟨br, hbr, h⟩
          · exact hacc r h
          · exact hall br hbr r h)
      refine ⟨res, ?_, hresall⟩
      simpa [processLoop, hlt, hrun] using hres
    · exact ⟨acc, by simp [processLoop, hlt], hacc⟩

theorem processMembersOptimized_spec (env : Env) (tabId : Nat) (members : List Member)
    (st : Tracker) :
    ∃ wealthy, (processLoop env tabId members members.length 0 [] st).1 = .ok wealthy ∧
      (processMembersOptimized env tabId members st).1 = .ok (sortByWealth wealthy) ∧
      ∀ r ∈ wealthy, ∃ m ∈ members, ∃ s, ClearsFloor env tabId m s r := by
  have hfuel : members.length ≤ 0 + members.length * (batchSize * concurrentBatches) := by
    simp only [batchSize, concurrentBatches]
    omega
  obtain ⟨res, hres, hall⟩ :=
    processLoop_spec env tabId members members.length 0 [] st hfuel (by simp)
  refine ⟨res, hres, ?_, hall⟩
  unfold processMembersOptimized
  rcases hl : processLoop env tabId members members.length 0 [] st with ⟨r, st1⟩
  rw [hl] at hres
  dsimp only at hres
  subst hres
  rfl

theorem mem_sortByWealth (wealthy : List WealthRecord) (r : WealthRecord) :
    r ∈ sortByWealth wealthy ↔ r ∈ wealthy :=
  (List.perm_insertionSort _ wealthy).mem_iff

/-- C2: `processMembersOptimized` returns a list (it never throws), and every
record in it has `totalValue > 10000` and is the valuation of one of the given
members whose inventory request succeeded with a qualifying sum strictly above
10000; so a member whose qualifying sum is at most 10000 contributes no record. -/
theorem processMembersOptimized_only_above_floor (env : Env) (tabId : Nat)
    (members : List Member) (st : Tracker) :
    ∃ result, (processMembersOptimized env tabId members st).1 = .ok result ∧
      ∀ r ∈ result, 10000 < r.totalValue ∧
        ∃ m ∈ members, ∃ s, ClearsFloor env tabId m s r := by
  obtain ⟨wealthy, _, hres, hall⟩ := processMembersOptimized_spec env tabId members st
  refine ⟨sortByWealth wealthy, hres, ?_⟩
  intro r hr
  obtain ⟨m, hm, s, hs⟩ := hall r ((mem_sortByWealth wealthy r).mp hr)
  refine ⟨?_, m, hm, s, hs⟩
  obtain ⟨user, body, _, _, hgt, hr⟩ := hs
  rw [hr]
  exact hgt

theorem sortByWealth_sorted (wealthy : List WealthRecord) :
    (sortByWealth wealthy).Sorted (fun a b => a.totalValue ≥ b.totalValue) := by
  haveI : IsTotal WealthRecord (fun a b => a.totalValue ≥ b.totalValue) :=
    ⟨fun a b => le_total b.totalValue a.totalValue⟩
  haveI : IsTrans WealthRecord (fun a b => a.totalValue ≥ b.totalValue) :=
    ⟨fun a b c hab hbc => le_trans hbc hab⟩
  exact List.sorted_insertionSort _ wealthy

/-- C3: the list `r` returned by `processMembersOptimized` is sorted by `totalValue`
descending: for every adjacent pair `r[i]`, `r[i+1]`,
`r[i].totalValue >= r[i+1].totalValue`. -/
theorem processMembersOptimized_sorted_desc (env : Env) (tabId : Nat)
    (members : List Member) (st : Tracker) :
    ∃ result, (processMembersOptimized env tabId members st).1 = .ok result ∧
      ∀ (i : Nat) (a b : WealthRecord), result[i]? = some a → result[i + 1]? = some b →
        a.totalValue ≥ b.totalValue := by
  obtain ⟨wealthy, _, hres, _⟩ := processMembersOptimized_spec env tabId members st
  refine ⟨sortByWealth wealthy, hres, ?_⟩
  intro i a b ha hb
  have hs := sortByWealth_sorted wealthy
  rw [List.Sorted, List.pairwise_iff_getElem] at hs
  obtain ⟨hi, rfl⟩ := List.getElem?_eq_some_iff.mp ha
  obtain ⟨hj, rfl⟩ := List.getElem?_eq_some_iff.mp hb
  exact hs i (i + 1) hi hj (Nat.lt_succ_self i)

end WealthTracker

namespace WealthTracker

/-! ## Effects on the tracker state -/

theorem Evolves.refl (st : Tracker) : Evolves st st [] := by
  simp [Evolves]

theorem Evolves.trans {a b c : Tracker} {w1 w2 : List Nat}
    (h1 : Evolves a b w1) (h2 : Evolves b c w2) : Evolves a c (w1 ++ w2) := by
  obtain ⟨p1, t1, c1, r1, ws1, pr1⟩ := h1
  obtain ⟨p2, t2, c2, r2, ws2, pr2⟩ := h2
  refine ⟨p2.trans p1, t2.trans t1, c2.trans c1, r2.trans r1, ?_, ?_⟩
  · rw [ws2, ws1, List.append_assoc]
  · rw [pr2, pr1, List.getLast?_append]
    cases w2.getLast? <;> simp

theorem Evolves.setProcessed (n : Nat) (st : Tracker) : Evolves st (setProcessed n st) [n] := by
  simp [Evolves, WealthTracker.setProcessed]

theorem Evolves.of_requests (st : Tracker) (rs : List Request) :
    Evolves st { st with requests := rs } [] := by
  simp [Evolves]

theorem analyzeMemberWealth_snd (env : Env) (tabId : Nat) (member : Member) (st : Tracker) :
    (analyzeMemberWealth env tabId member st).2 =
      { st with requests := st.requests ++
          (match member.user with
           | some user => [⟨tabId, inventoryUrl user.userId⟩]
           | none => []) } := by
  unfold analyzeMemberWealth analyzeMemberWealthBody
  rcases member.user with _ | user
  · simp
  · dsimp only
    have h2 := makeAPIRequest_snd env.inventory tabId (inventoryUrl user.userId) st
    rcases hreq : makeAPIRequest env.inventory tabId (inventoryUrl user.userId) st with
      ⟨resp, st1⟩
    rw [hreq] at h2
    dsimp only at h2
    subst h2
    rcases resp with e | (body | err)
    · rfl
    · dsimp only
      by_cases hgt : (tallyInventory (body.data.getD [])).1 > 10000 <;> simp [hgt]
    · rfl

theorem mem_inventoryRequests (tabId : Nat) (batch : List Member) (r : Request)
    (h : r ∈ inventoryRequests tabId batch) : ∃ userId, r = ⟨tabId, inventoryUrl userId⟩ := by
  unfold inventoryRequests at h
  obtain ⟨m, _, hm⟩ := List.mem_filterMap.mp h
  rcases hu : m.user with _ | user
  · rw [hu] at hm
    simp at hm
  · rw [hu] at hm
    exact ⟨user.userId, by simpa using hm.symm⟩

theorem analyzeAll_snd (env : Env) (tabId : Nat) (batch : List Member) (st : Tracker) :
    (analyzeAll env tabId batch st).2 =
      { st with requests := st.requests ++ inventoryRequests tabId batch } := by
  induction batch generalizing st with
  | nil => simp [analyzeAll, inventoryRequests]
  | cons member rest ih =>
    have h1 := analyzeMemberWealth_snd env tabId member st
    rcases hm : analyzeMemberWealth env tabId member st with ⟨res, st1⟩
    rw [hm] at h1
    dsimp only at h1
    have h2 := ih st1
    rcases hrest : analyzeAll env tabId rest st1 with ⟨res2, st2⟩
    rw [hrest] at h2
    dsimp only at h2
    have hstate : (analyzeAll env tabId (member :: rest) st).2 = st2 := by
      unfold analyzeAll
      rw [hm]
      rcases res with e | r <;> dsimp only <;> rw [hrest] <;> rcases res2 with e2 | r2 <;> rfl
    rw [hstate, h2, h1]
    rcases hu : member.user with _ | user <;> simp [inventoryRequests, hu]

theorem processMemberBatch_snd (env : Env) (tabId : Nat) (batch : List Member)
    (st : Tracker) :
    (processMemberBatch env tabId batch st).2 =
      { st with requests := st.requests ++ inventoryRequests tabId batch } := by
  have h := analyzeAll_snd env tabId batch st
  unfold processMemberBatch
  rcases hrest : analyzeAll env tabId batch st with ⟨res, st1⟩
  rw [hrest] at h
  rcases res with e | r <;> exact h

theorem runBatches_snd (env : Env) (tabId : Nat) (members : List Member) (i : Nat)
    (js : List Nat) (st : Tracker) :
    ∃ rs, (runBatches env tabId members i js st).2 = { st with requests := st.requests ++ rs } ∧
      ∀ r ∈ rs, ∃ userId, r = ⟨tabId, inventoryUrl userId⟩ := by
  induction js generalizing st with
  | nil => exact ⟨[], by simp [runBatches], by simp⟩
  | cons j js ih =>
    by_cases hlt : i + j * batchSize < members.length
    · have h1 := processMemberBatch_snd env tabId
        (slice members (i + j * batchSize) (min (i + j * batchSize + batchSize) members.length)) st
      rcases hpb : processMemberBatch env tabId
        (slice members (i + j * batchSize) (min (i + j * batchSize + batchSize) members.length))
        st with ⟨res, st1⟩
      rw [hpb] at h1
      dsimp only at h1
      obtain ⟨rs, hrs, hall⟩ := ih st1
      refine ⟨inventoryRequests tabId (slice members (i + j * batchSize)
        (min (i + j * batchSize + batchSize) members.length)) ++ rs, ?_, ?_⟩
      · have hstate : (runBatches env tabId members i (j :: js) st).2 =
            (runBatches env tabId members i js st1).2 := by
          simp only [runBatches, hlt, if_true, hpb]
          rcases res with e | r
          · rfl
          · dsimp only
            rcases runBatches env tabId members i js st1 with ⟨res2, st2⟩
            rcases res2 with e2 | r2 <;> rfl
        rw [hstate, hrs, h1]
        simp
      · intro r hr
        rcases List.mem_append.mp hr with h | h
        · exact mem_inventoryRequests _ _ _ h
        · exact hall r h
    · obtain ⟨rs, hrs, hall⟩ := ih st
      refine ⟨rs, ?_, hall⟩
      simpa [runBatches, hlt] using hrs

end WealthTracker

namespace WealthTracker

/-! ## Progress writes of the two loops -/

theorem processLoop_evolves (env : Env) (tabId : Nat) (members : List Member)
    (fuel i : Nat) (acc : List WealthRecord) (st : Tracker)
    (hfuel : members.length ≤ i + fuel * (batchSize * concurrentBatches)) :
    ∃ ws rs, Evolves st (processLoop env tabId members fuel i acc st).2 ws ∧
      List.Sorted (· ≤ ·) ws ∧
      (∀ w ∈ ws, min (i + batchSize * concurrentBatches) members.length ≤ w ∧
        w ≤ members.length) ∧
      (i < members.length → ws.getLast? = some members.length) ∧
      (¬ i < members.length → ws = []) ∧
      (processLoop env tabId members fuel i acc st).2.requests = st.requests ++ rs ∧
      ∀ r ∈ rs, ∃ userId, r = ⟨tabId, inventoryUrl userId⟩ := by
  induction fuel generalizing i acc st with
  | zero =>
    have hge : ¬ i < members.length := by omega
    refine ⟨[], [], ?_, List.sorted_nil, by simp, by simp [hge], by simp, ?_, by simp⟩
    · simp [processLoop, hge, Evolves.refl]
    · simp [processLoop, hge]
  | succ fuel ih =>
    by_cases hlt : i < members.length
    · obtain ⟨brs, hbrs, _⟩ :=
        runBatches_spec env tabId members i (List.range concurrentBatches) st
      obtain ⟨rs1, hrs1, hrs1all⟩ :=
        runBatches_snd env tabId members i (List.range concurrentBatches) st
      rcases hrun : runBatches env tabId members i (List.range concurrentBatches) st with
        ⟨res, st1⟩
      rw [hrun] at hbrs hrs1
      dsimp only at hbrs hrs1
      subst hbrs
      have hfuel2 : members.length ≤
          i + batchSize * concurrentBatches + fuel * (batchSize * concurrentBatches) := by
        have := hfuel
        rw [Nat.succ_mul] at this
        omega
      obtain ⟨ws, rs2, hev, hsorted, hbounds, hlast, hempty, hreq, hreqall⟩ :=
        ih (i + batchSize * concurrentBatches) (combineResults acc brs)
          (setProcessed (min (i + batchSize * concurrentBatches) members.length) st1) hfuel2
      have hstep : processLoop env tabId members (fuel + 1) i acc st =
          processLoop env tabId members fuel (i + batchSize * concurrentBatches)
            (combineResults acc brs)
            (setProcessed (min (i + batchSize * concurrentBatches) members.length) st1) := by
        simp [processLoop, hlt, hrun]
      rw [hstep]
      refine ⟨min (i + batchSize * concurrentBatches) members.length :: ws, rs1 ++ rs2,
        ?_, ?_, ?_, ?_, ?_, ?_, ?_⟩
      · have h1 : Evolves st st1 [] := by rw [hrs1]; exact Evolves.of_requests st _
        have h2 := Evolves.setProcessed
          (min (i + batchSize * concurrentBatches) members.length) st1
        simpa using (h1.trans h2).trans hev
      · refine List.sorted_cons.mpr ⟨?_, hsorted⟩
        intro w hw
        have := (hbounds w hw).1
        omega
      · intro w hw
        rcases List.mem_cons.mp hw with h | h
        · subst h
          exact ⟨le_refl _, Nat.min_le_right _ _⟩
        · have := hbounds w h
          omega
      · intro _
        by_cases hnext : i + batchSize * concurrentBatches < members.length
        · have := hlast hnext
          rw [List.getLast?_cons, this]
          rfl
        · rw [hempty hnext]
          simp
          omega
      · intro h
        exact absurd hlt h
      · rw [hreq]
        simp [WealthTracker.setProcessed, hrs1, List.append_assoc]
      · intro r hr
        rcases List.mem_append.mp hr with h | h
        · exact hrs1all r h
        · exact hreqall r h
    · refine ⟨[], [], ?_, List.sorted_nil, by simp, by simp [hlt], by simp, ?_, by simp⟩
      · simp [processLoop, hlt, Evolves.refl]
      · simp [processLoop, hlt]

theorem membersLoop_evolves (env : Env) (tabId : Nat) (communityId : String)
    (fuel : Nat) (allMembers : List Member) (cursor : Option String) (pageCount : Nat)
    (st : Tracker) :
    ∃ ws rs,
      Evolves st (membersLoop env tabId communityId fuel allMembers cursor pageCount st).2 ws ∧
      List.Sorted (· ≤ ·) ws ∧
      (∀ w ∈ ws, allMembers.length ≤ w) ∧
      (∀ members,
        (membersLoop env tabId communityId fuel allMembers cursor pageCount st).1 = .ok members →
          ws.getLast? = some members.length) ∧
      (membersLoop env tabId communityId fuel allMembers cursor pageCount st).2.requests =
        st.requests ++ rs ∧
      ∀ r ∈ rs, ∃ c, r = ⟨tabId, listingUrl communityId c⟩ := by
  induction fuel generalizing allMembers cursor pageCount st with
  | zero =>
    exact ⟨[], [], by simp [membersLoop, Evolves.refl], List.sorted_nil, by simp,
      by simp [membersLoop], by simp [membersLoop], by simp⟩
  | succ fuel ih =>
    have h1 := makeAPIRequest_snd env.listing tabId (listingUrl communityId cursor) st
    rcases hreq : makeAPIRequest env.listing tabId (listingUrl communityId cursor) st with
      ⟨resp, st1⟩
    rw [hreq] at h1
    dsimp only at h1
    have hev1 : Evolves st st1 [] := by rw [h1]; exact Evolves.of_requests st _
    have hmem1 : ∀ r ∈ [(⟨tabId, listingUrl communityId cursor⟩ : Request)],
        ∃ c, r = ⟨tabId, listingUrl communityId c⟩ := by
      intro r hr
      exact ⟨cursor, by simpa using hr⟩
    rcases resp with e | (data | err)
    · refine ⟨[], _, ?_, List.sorted_nil, by simp, ?_, ?_, hmem1⟩
      · simpa [membersLoop, hreq] using hev1
      · simp [membersLoop, hreq]
      · simp [membersLoop, hreq, h1]
    · -- a successful page
      obtain ⟨all1, hall1, hlen⟩ : ∃ all1 : List Member,
          all1 = (match data.data with
            | some page => if page.length > 0 then allMembers ++ page else allMembers
            | none => allMembers) ∧ allMembers.length ≤ all1.length := by
        refine ⟨_, rfl, ?_⟩
        rcases data.data with _ | page
        · simp
        · by_cases hp : page.length > 0 <;> simp [hp]
      have hev2 : Evolves st (setProcessed all1.length st1) [all1.length] := by
        simpa using hev1.trans (Evolves.setProcessed all1.length st1)
      by_cases hcont : cursorTruthy data.nextPageCursor ∧ pageCount + 1 < maxPages
      · obtain ⟨ws, rs, hev, hsorted, hbounds, hlast, hrs, hrsall⟩ :=
          ih all1 data.nextPageCursor (pageCount + 1) (setProcessed all1.length st1)
        have hstep : membersLoop env tabId communityId (fuel + 1) allMembers cursor pageCount st =
            membersLoop env tabId communityId fuel all1 data.nextPageCursor (pageCount + 1)
              (setProcessed all1.length st1) := by
          rw [hall1]
          simp only [membersLoop, hreq]
          rw [if_pos hcont]
        rw [hstep]
        refine ⟨all1.length :: ws, ⟨tabId, listingUrl communityId cursor⟩ :: rs,
          ?_, ?_, ?_, ?_, ?_, ?_⟩
        · simpa using hev2.trans hev
        · exact List.sorted_cons.mpr ⟨fun w hw => hbounds w hw, hsorted⟩
        · intro w hw
          rcases List.mem_cons.mp hw with h | h
          · omega
          · have := hbounds w h
            omega
        · intro members hm
          rw [List.getLast?_cons, hlast members hm]
          rfl
        · rw [hrs]
          simp [WealthTracker.setProcessed, h1]
        · intro r hr
          rcases List.mem_cons.mp hr with h | h
          · exact ⟨cursor, h⟩
          · exact hrsall r h
      · have hstep : membersLoop env tabId communityId (fuel + 1) allMembers cursor pageCount st =
            (.ok all1, setProcessed all1.length st1) := by
          rw [hall1]
          simp only [membersLoop, hreq]
          rw [if_neg hcont]
        rw [hstep]
        refine ⟨[all1.length], _, hev2, List.sorted_singleton _, ?_, ?_, ?_, hmem1⟩
        · intro w hw
          have : w = all1.length := by simpa using hw
          omega
        · intro members hm
          have : all1 = members := by simpa using hm
          simp [this]
        · simp [WealthTracker.setProcessed, h1]
    · refine ⟨[], _, ?_, List.sorted_nil, by simp, ?_, ?_, hmem1⟩
      · simpa [membersLoop, hreq] using hev1
      · simp [membersLoop, hreq]
      · simp [membersLoop, hreq, h1]

end WealthTracker

namespace WealthTracker

theorem listingUrl_ne_inventoryUrl (communityId : String) (cursor : Option String)
    (userId : Int) : listingUrl communityId cursor ≠ inventoryUrl userId := by
  intro h
  have h2 := congrArg (fun s : String => s.data.get? 8) h
  simp [listingUrl, inventoryUrl] at h2

end WealthTracker

namespace WealthTracker

/-! ## Structure of a run -/

theorem sorted_le_of_getLast? (ws : List Nat) (x : Nat) (hs : List.Sorted (· ≤ ·) ws)
    (hl : ws.getLast? = some x) : ∀ w ∈ ws, w ≤ x := by
  obtain ⟨init, rfl⟩ : ∃ init, ws = init ++ [x] := by
    rcases List.eq_nil_or_concat ws with h | ⟨init, b, h⟩
    · subst h; simp at hl
    · subst h
      simp at hl
      exact ⟨init, by rw [hl, List.concat_eq_append]⟩
  intro w hw
  rw [List.Sorted, List.pairwise_append] at hs
  rcases List.mem_append.mp hw with h | h
  · exact hs.2.2 w h x (by simp)
  · have : w = x := by simpa using h
    omega

theorem mem_of_getLast? (ws : List Nat) (x : Nat) (hl : ws.getLast? = some x) : x ∈ ws :=
  List.mem_of_getLast?_eq_some hl

theorem makeAPIRequest_eq {α : Type}
    (send : Nat → Nat → String → Except String (ApiResponse α)) (tabId : Nat) (url : String)
    (st : Tracker) :
    makeAPIRequest send tabId url st =
      (.ok (match send st.requests.length tabId url with
            | .ok response => response
            | .error msg => .failure msg),
       { st with requests := st.requests ++ [⟨tabId, url⟩] }) := by
  unfold makeAPIRequest
  cases send st.requests.length tabId url <;> rfl

theorem membersLoop_succ_of_continue (env : Env) (tabId : Nat) (communityId : String)
    (fuel : Nat) (allMembers : List Member) (cursor : Option String) (pageCount : Nat)
    (st : Tracker) (data : ListingData)
    (hresp : env.listing st.requests.length tabId (listingUrl communityId cursor) =
      .ok (.success data))
    (hcursor : cursorTruthy data.nextPageCursor = true) (hpage : pageCount + 1 < maxPages) :
    ∃ all1 st1, st1.requests = st.requests ++ [⟨tabId, listingUrl communityId cursor⟩] ∧
      membersLoop env tabId communityId (fuel + 1) allMembers cursor pageCount st =
        membersLoop env tabId communityId fuel all1 data.nextPageCursor (pageCount + 1) st1 := by
  refine ⟨(match data.data with
      | some page => if page.length > 0 then allMembers ++ page else allMembers
      | none => allMembers),
    setProcessed (match data.data with
      | some page => if page.length > 0 then allMembers ++ page else allMembers
      | none => allMembers).length
      { st with requests := st.requests ++ [⟨tabId, listingUrl communityId cursor⟩] }, ?_, ?_⟩
  · simp [WealthTracker.setProcessed]
  · simp only [membersLoop, makeAPIRequest_eq, hresp]
    rw [if_pos ⟨hcursor, hpage⟩]

theorem membersLoop_succ_of_fail (env : Env) (tabId : Nat) (communityId : String)
    (fuel : Nat) (allMembers : List Member) (cursor : Option String) (pageCount : Nat)
    (st : Tracker)
    (hfail : requestFails
      (env.listing st.requests.length tabId (listingUrl communityId cursor)) = true) :
    ∃ e, membersLoop env tabId communityId (fuel + 1) allMembers cursor pageCount st =
      (.error e, { st with requests := st.requests ++ [⟨tabId, listingUrl communityId cursor⟩] }) := by
  simp only [membersLoop, makeAPIRequest_eq]
  rcases hresp : env.listing st.requests.length tabId (listingUrl communityId cursor) with
    msg | (data | err)
  · exact ⟨_, rfl⟩
  · rw [hresp] at hfail
    simp [requestFails] at hfail
  · exact ⟨_, rfl⟩

/-- More fuel than `maxPages - pageCount` changes nothing: the bound of
`getAllCommunityMembers` is never the reason the enumeration stops. -/
theorem membersLoop_fuel_succ (env : Env) (tabId : Nat) (communityId : String)
    (fuel : Nat) (allMembers : List Member) (cursor : Option String) (pageCount : Nat)
    (st : Tracker) (hpage : pageCount < maxPages) (hfuel : maxPages ≤ pageCount + fuel) :
    membersLoop env tabId communityId (fuel + 1) allMembers cursor pageCount st =
      membersLoop env tabId communityId fuel allMembers cursor pageCount st := by
  induction fuel generalizing allMembers cursor pageCount st with
  | zero => omega
  | succ fuel ih =>
    simp only [membersLoop, makeAPIRequest_eq]
    rcases env.listing st.requests.length tabId (listingUrl communityId cursor) with
      msg | (data | err)
    · rfl
    · dsimp only
      by_cases hcont : cursorTruthy data.nextPageCursor = true ∧ pageCount + 1 < maxPages
      · rw [if_pos hcont, if_pos hcont]
        have := ih (match data.data with
            | some page => if page.length > 0 then allMembers ++ page else allMembers
            | none => allMembers) data.nextPageCursor (pageCount + 1)
          (setProcessed (match data.data with
            | some page => if page.length > 0 then allMembers ++ page else allMembers
            | none => allMembers).length
            { st with requests := st.requests ++ [⟨tabId, listingUrl communityId cursor⟩] })
          hcont.2 (by omega)
        simpa only [membersLoop, makeAPIRequest_eq] using this
      · rw [if_neg hcont, if_neg hcont]
    · rfl

/-- The enumeration with any larger bound on its iterations is the enumeration. -/
theorem getAllCommunityMembers_fuel (env : Env) (tabId : Nat) (communityId : String)
    (st : Tracker) (extra : Nat) :
    membersLoop env tabId communityId (maxPages + extra) [] none 0 st =
      getAllCommunityMembers env tabId communityId st := by
  induction extra with
  | zero => rfl
  | succ extra ih =>
    rw [← ih, ← Nat.add_assoc]
    exact membersLoop_fuel_succ env tabId communityId (maxPages + extra) [] none 0 st
      (by decide) (by omega)

theorem getAllCommunityMembers_reaches (env : Env) (tabId : Nat) (communityId : String)
    (st : Tracker) (k : Nat) (hk : k < maxPages)
    (hprev : ∀ j < k, pageContinues env tabId communityId st.requests.length j = true) :
    ∃ allMembers st1, st1.requests.length = st.requests.length + k ∧
      getAllCommunityMembers env tabId communityId st =
        membersLoop env tabId communityId (maxPages - (k + 1) + 1) allMembers
          (pageCursor env tabId communityId st.requests.length k) k st1 := by
  induction k with
  | zero => exact ⟨[], st, rfl, rfl⟩
  | succ k ih =>
    obtain ⟨all0, s0, hlen, hreach⟩ := ih (by omega) (fun j hj => hprev j (by omega))
    have hcont := hprev k (Nat.lt_succ_self k)
    unfold pageContinues pageOutcome at hcont
    rcases hresp : env.listing (st.requests.length + k) tabId
        (listingUrl communityId (pageCursor env tabId communityId st.requests.length k)) with
      msg | (data | err)
    · rw [hresp] at hcont; simp at hcont
    · rw [hresp] at hcont
      dsimp only at hcont
      have hresp0 : env.listing s0.requests.length tabId
          (listingUrl communityId (pageCursor env tabId communityId st.requests.length k)) =
          .ok (.success data) := by rw [hlen, hresp]
      obtain ⟨all1, s1, hreq1, hstep⟩ := membersLoop_succ_of_continue env tabId communityId
        (maxPages - (k + 1)) all0 _ k s0 data hresp0 hcont (by omega)
      refine ⟨all1, s1, ?_, ?_⟩
      · rw [hreq1, List.length_append, hlen]
        simp
        omega
      · rw [hreach, hstep]
        have hfuel : maxPages - (k + 1) = maxPages - (k + 1 + 1) + 1 := by omega
        have hcur : pageCursor env tabId communityId st.requests.length (k + 1) =
            data.nextPageCursor := by
          simp only [pageCursor, hresp]
        rw [hcur, ← hfuel]
    · rw [hresp] at hcont; simp at hcont

theorem getAllCommunityMembers_fails_at (env : Env) (tabId : Nat) (communityId : String)
    (st : Tracker) (k : Nat) (hk : k < maxPages)
    (hprev : ∀ j < k, pageContinues env tabId communityId st.requests.length j = true)
    (hfail : requestFails (pageOutcome env tabId communityId st.requests.length k) = true) :
    ∃ e, (getAllCommunityMembers env tabId communityId st).1 = .error e := by
  obtain ⟨all0, s0, hlen, hreach⟩ :=
    getAllCommunityMembers_reaches env tabId communityId st k hk hprev
  unfold pageOutcome at hfail
  rw [← hlen] at hfail
  obtain ⟨e, he⟩ := membersLoop_succ_of_fail env tabId communityId (maxPages - (k + 1)) all0
    _ k s0 hfail
  exact ⟨e, by rw [hreach, he]⟩

theorem processMembersOptimized_snd (env : Env) (tabId : Nat) (members : List Member)
    (st : Tracker) :
    (processMembersOptimized env tabId members st).2 =
      (processLoop env tabId members members.length 0 [] st).2 := by
  unfold processMembersOptimized
  rcases processLoop env tabId members members.length 0 [] st with ⟨r, st1⟩
  rcases r with e | r <;> rfl

/-- The three ways `fetchCommunityDataFast` ends: the enumeration throws, it yields
no member, or the members are valued and the ranked list is returned. -/
theorem fetchCommunityDataFast_cases (env : Env) (tabId : Nat) (communityId : String)
    (st : Tracker) :
    (∃ e, (getAllCommunityMembers env tabId communityId st).1 = .error e ∧
      fetchCommunityDataFast env tabId communityId st =
        (.error e, (getAllCommunityMembers env tabId communityId st).2)) ∨
    ((getAllCommunityMembers env tabId communityId st).1 = .ok [] ∧
      ∃ e, fetchCommunityDataFast env tabId communityId st =
        (.error e, (getAllCommunityMembers env tabId communityId st).2)) ∨
    (∃ members ranked st2 ws rs,
      (getAllCommunityMembers env tabId communityId st).1 = .ok members ∧
      members ≠ [] ∧
      st2 = { (getAllCommunityMembers env tabId communityId st).2 with
        currentProgress :=
          { (getAllCommunityMembers env tabId communityId st).2.currentProgress with
            total := members.length } } ∧
      (processMembersOptimized env tabId members st2).1 = .ok ranked ∧
      fetchCommunityDataFast env tabId communityId st =
        (.ok { success := true, members := some ranked,
               totalProcessed := some members.length, error := none },
         (processMembersOptimized env tabId members st2).2) ∧
      Evolves st2 (processMembersOptimized env tabId members st2).2 ws ∧
      List.Sorted (· ≤ ·) ws ∧
      (∀ w ∈ ws, min (batchSize * concurrentBatches) members.length ≤ w ∧
        w ≤ members.length) ∧
      ws.getLast? = some members.length ∧
      (processMembersOptimized env tabId members st2).2.requests = st2.requests ++ rs ∧
      ∀ r ∈ rs, ∃ userId, r = ⟨tabId, inventoryUrl userId⟩) := by
  rcases hg : getAllCommunityMembers env tabId communityId st with ⟨res, st1⟩
  rcases res with e | members
  · left
    exact ⟨e, rfl, by simp [fetchCommunityDataFast, hg]⟩
  · by_cases hlen : members.length = 0
    · right; left
      have hnil : members = [] := List.length_eq_zero.mp hlen
      subst hnil
      exact ⟨rfl, "No members found in this community or community is private",
        by simp [fetchCommunityDataFast, hg]⟩
    · right; right
      have hne : members ≠ [] := fun h => hlen (by rw [h]; rfl)
      have hpos : 0 < members.length := Nat.pos_of_ne_zero hlen
      obtain ⟨wealthy, _, hranked, _⟩ := processMembersOptimized_spec env tabId members
        { st1 with currentProgress := { st1.currentProgress with total := members.length } }
      have hfuel : members.length ≤
          0 + members.length * (batchSize * concurrentBatches) := by
        simp only [batchSize, concurrentBatches]
        omega
      obtain ⟨ws, rs, hev, hsorted, hbounds, hlast, _, hreq, hreqall⟩ :=
        processLoop_evolves env tabId members members.length 0 []
          { st1 with currentProgress := { st1.currentProgress with total := members.length } }
          hfuel
      rw [← processMembersOptimized_snd] at hev hreq
      refine ⟨members, sortByWealth wealthy, _, ws, rs, rfl, hne, rfl, hranked, ?_, hev,
        hsorted, ?_, hlast hpos, hreq, hreqall⟩
      · rcases hp : processMembersOptimized env tabId members
          { st1 with currentProgress := { st1.currentProgress with total := members.length } }
          with ⟨r, st3⟩
        rw [hp] at hranked
        dsimp only at hranked
        subst hranked
        simp [fetchCommunityDataFast, hg, hlen, hp]
      · intro w hw
        simpa using hbounds w hw

end WealthTracker

namespace WealthTracker

theorem findTargetTab_eq (env : Env) (st : Tracker) :
    ∃ calls r, findTargetTab env st =
      (r, { st with browserCalls := st.browserCalls ++ calls }) := by
  rcases hq : env.tabsQuery with e | (_ | tab)
  · exact ⟨[.tabsQuery], .error e, by simp [findTargetTab, hq, logCall]⟩
  · exact ⟨[.tabsQuery], .error "Cannot read properties of undefined (reading 'url')",
      by simp [findTargetTab, hq, logCall]⟩
  · rcases hu : tab.url with _ | url
    · exact ⟨[.tabsQuery], .error "Cannot read properties of undefined (reading 'includes')",
        by simp [findTargetTab, hq, hu, logCall]⟩
    · by_cases hinc : includes url "roblox.com" = true
      · exact ⟨[.tabsQuery], .ok tab, by simp [findTargetTab, hq, hu, hinc, logCall]⟩
      · rcases hc : env.tabsCreate with e | target
        · exact ⟨[.tabsQuery, .tabsCreate], .error e,
            by simp [findTargetTab, hq, hu, hinc, hc, logCall]⟩
        · rcases hl : env.tabLoad target.id with e | u
          · exact ⟨[.tabsQuery, .tabsCreate, .waitForTabLoad target.id], .error e,
              by simp [findTargetTab, hq, hu, hinc, hc, hl, waitForTabLoad, logCall]⟩
          · exact ⟨[.tabsQuery, .tabsCreate, .waitForTabLoad target.id], .ok target,
              by simp [findTargetTab, hq, hu, hinc, hc, hl, waitForTabLoad, logCall]⟩

theorem ensureContentScriptInjected_eq (env : Env) (tabId : Nat) (st : Tracker) :
    ∃ calls r, ensureContentScriptInjected env tabId st =
      (r, { st with browserCalls := st.browserCalls ++ calls }) := by
  rcases hp : env.ping tabId with e | b
  · rcases hx : env.executeScript tabId with e2 | u
    · exact ⟨[.ping tabId, .executeScript tabId], .error e2,
        by simp [ensureContentScriptInjected, hp, hx, logCall]⟩
    · exact ⟨[.ping tabId, .executeScript tabId], .ok (),
        by simp [ensureContentScriptInjected, hp, hx, logCall]⟩
  · exact ⟨[.ping tabId], .ok (), by simp [ensureContentScriptInjected, hp, logCall]⟩

/-- The `try` block either throws before any API request, in the state `runStart`,
or reaches `fetchCommunityDataFast` in such a state and ends as that call does. -/
theorem handleFetchTry_cases (env : Env) (communityId : String) (st : Tracker) :
    ∃ calls,
      (∃ e, handleFetchTry env communityId st = (.error e, runStart st calls)) ∨
      (∃ tabId, handleFetchTry env communityId st =
        match fetchCommunityDataFast env tabId communityId (runStart st calls) with
        | (.error e, st4) => (.error e, st4)
        | (.ok result, st4) =>
          if result.success then (.ok result, publishTotals result (markCompleted result st4))
          else (.ok result, st4)) := by
  unfold handleFetchTry
  dsimp only
  obtain ⟨calls1, r1, h1⟩ := findTargetTab_eq env
    { st with
      isProcessing := true
      currentProgress := { processed := 0, total := 0, completed := false, results := [] } }
  rw [h1]
  rcases r1 with e | tab
  · exact ⟨calls1, Or.inl ⟨e, rfl⟩⟩
  · dsimp only
    obtain ⟨calls2, r2, h2⟩ := ensureContentScriptInjected_eq env tab.id
      { isProcessing := true
        currentProgress := { processed := 0, total := 0, completed := false, results := [] }
        requests := st.requests, processedWrites := st.processedWrites
        browserCalls := st.browserCalls ++ calls1 }
    rw [h2]
    rcases r2 with e | u
    · exact ⟨calls1 ++ calls2, Or.inl ⟨e, by simp [runStart]⟩⟩
    · refine ⟨calls1 ++ calls2, Or.inr ⟨tab.id, ?_⟩⟩
      simp [runStart]

theorem findTargetTab_uniform (env : Env) :
    ∃ calls r, ∀ st, findTargetTab env st =
      (r, { st with browserCalls := st.browserCalls ++ calls }) := by
  rcases hq : env.tabsQuery with e | (_ | tab)
  · exact ⟨[.tabsQuery], .error e, fun st => by simp [findTargetTab, hq, logCall]⟩
  · exact ⟨[.tabsQuery], .error "Cannot read properties of undefined (reading 'url')",
      fun st => by simp [findTargetTab, hq, logCall]⟩
  · rcases hu : tab.url with _ | url
    · exact ⟨[.tabsQuery], .error "Cannot read properties of undefined (reading 'includes')",
        fun st => by simp [findTargetTab, hq, hu, logCall]⟩
    · by_cases hinc : includes url "roblox.com" = true
      · exact ⟨[.tabsQuery], .ok tab, fun st => by simp [findTargetTab, hq, hu, hinc, logCall]⟩
      · rcases hc : env.tabsCreate with e | target
        · exact ⟨[.tabsQuery, .tabsCreate], .error e,
            fun st => by simp [findTargetTab, hq, hu, hinc, hc, logCall]⟩
        · rcases hl : env.tabLoad target.id with e | u
          · exact ⟨[.tabsQuery, .tabsCreate, .waitForTabLoad target.id], .error e,
              fun st => by simp [findTargetTab, hq, hu, hinc, hc, hl, waitForTabLoad, logCall]⟩
          · exact ⟨[.tabsQuery, .tabsCreate, .waitForTabLoad target.id], .ok target,
              fun st => by simp [findTargetTab, hq, hu, hinc, hc, hl, waitForTabLoad, logCall]⟩

theorem ensureContentScriptInjected_uniform (env : Env) (tabId : Nat) :
    ∃ calls r, ∀ st, ensureContentScriptInjected env tabId st =
      (r, { st with browserCalls := st.browserCalls ++ calls }) := by
  rcases hp : env.ping tabId with e | b
  · rcases hx : env.executeScript tabId with e2 | u
    · exact ⟨[.ping tabId, .executeScript tabId], .error e2,
        fun st => by simp [ensureContentScriptInjected, hp, hx, logCall]⟩
    · exact ⟨[.ping tabId, .executeScript tabId], .ok (),
        fun st => by simp [ensureContentScriptInjected, hp, hx, logCall]⟩
  · exact ⟨[.ping tabId], .ok (),
      fun st => by simp [ensureContentScriptInjected, hp, logCall]⟩

/-- The `try` block in terms of the preparation of the run: it throws in the state
`enumerationStart` when the preparation throws, and otherwise ends as
`fetchCommunityDataFast` does on the prepared tab from that state. -/
theorem handleFetchTry_prepared (env : Env) (communityId : String) (st : Tracker) :
    handleFetchTry env communityId st =
      match (runPreparation env).1 with
      | .error e => (.error e, enumerationStart env st)
      | .ok tabId =>
        match fetchCommunityDataFast env tabId communityId (enumerationStart env st) with
        | (.error e, st4) => (.error e, st4)
        | (.ok result, st4) =>
          if result.success then (.ok result, publishTotals result (markCompleted result st4))
          else (.ok result, st4) := by
  obtain ⟨calls1, r1, h1⟩ := findTargetTab_uniform env
  rcases r1 with e | tab
  · have hp : runPreparation env = (.error e, calls1) := by
      simp [runPreparation, h1, idleTracker]
    simp [handleFetchTry, enumerationStart, hp, h1, runStart]
  · obtain ⟨calls2, r2, h2⟩ := ensureContentScriptInjected_uniform env tab.id
    rcases r2 with e | u
    · have hp : runPreparation env = (.error e, calls1 ++ calls2) := by
        simp [runPreparation, h1, h2, idleTracker]
      simp [handleFetchTry, enumerationStart, hp, h1, h2, runStart]
    · have hp : runPreparation env = (.ok tab.id, calls1 ++ calls2) := by
        simp [runPreparation, h1, h2, idleTracker]
      simp [handleFetchTry, enumerationStart, hp, h1, h2, runStart]

/-- The busy guard of lines 47-49: the rejection is returned and the state is the
one the call found. -/
theorem handleFetchCommunityMembers_busy (env : Env) (communityId : String) (st : Tracker)
    (hbusy : st.isProcessing = true) :
    handleFetchCommunityMembers env communityId st =
      (.ok (failedResult "Already processing a community"), st) := by
  simp [handleFetchCommunityMembers, hbusy]

/-- The orchestrator's result and final state in terms of its `try` block. -/
theorem handleFetchCommunityMembers_idle (env : Env) (communityId : String) (st : Tracker)
    (hidle : st.isProcessing = false) :
    handleFetchCommunityMembers env communityId st =
      ((match (handleFetchTry env communityId st).1 with
        | .ok result => .ok result
        | .error e => .ok (failedResult e)),
       { (handleFetchTry env communityId st).2 with isProcessing := false }) := by
  unfold handleFetchCommunityMembers
  rw [hidle]
  rcases handleFetchTry env communityId st with ⟨r, st1⟩
  rcases r with e | result <;> rfl

end WealthTracker

namespace WealthTracker

/-! ## The orchestrator: busy guard, lock release, published totals -/

/-- C4 (as amended): whenever a run is already active (`isProcessing` is true),
`handleFetchCommunityMembers` returns at once the rejection
`{success:false, error:'Already processing a community'}` and leaves the whole
tracker state as it was: no request is logged, `currentProgress` is unchanged and
`isProcessing` stays true. -/
theorem busy_start_rejected_without_effects (env : Env) (communityId : String)
    (st : Tracker) (hbusy : st.isProcessing = true) :
    handleFetchCommunityMembers env communityId st =
      (.ok (failedResult "Already processing a community"), st) :=
  handleFetchCommunityMembers_busy env communityId st hbusy

/-- Witness of C4 (as amended) on a tracker in the middle of a run. -/
theorem busy_start_rejected_witness :
    busyTracker.isProcessing = true ∧
    handleFetchCommunityMembers envSingle "42" busyTracker =
      (.ok (failedResult "Already processing a community"), busyTracker) :=
  ⟨rfl, busy_start_rejected_without_effects envSingle "42" busyTracker rfl⟩

/-- Counterexample to C4 as stated: on a busy tracker the returned error text is
`'Already processing a community'`, so the result is not `{success:false, error:"busy"}`. -/
theorem busy_error_text_is_not_busy :
    busyTracker.isProcessing = true ∧
    (handleFetchCommunityMembers envSingle "42" busyTracker).1 =
      .ok (failedResult "Already processing a community") ∧
    (handleFetchCommunityMembers envSingle "42" busyTracker).1 ≠
      .ok (failedResult "busy") := by
  decide

/-- C5: a run started from the idle state returns a result value (the promise is
never rejected), whatever the tab lookup, the injection, the enumeration and the
valuations do, and `isProcessing` is false when it returns. -/
theorem run_returns_and_releases_lock (env : Env) (communityId : String) (st : Tracker)
    (hidle : st.isProcessing = false) :
    ∃ result, (handleFetchCommunityMembers env communityId st).1 = .ok result ∧
      (handleFetchCommunityMembers env communityId st).2.isProcessing = false := by
  rw [handleFetchCommunityMembers_idle env communityId st hidle]
  rcases (handleFetchTry env communityId st).1 with e | result
  · exact ⟨_, rfl, rfl⟩
  · exact ⟨result, rfl, rfl⟩

/-- Witness of C5: a run in which the first listing request fails. -/
theorem run_returns_and_releases_lock_witness :
    idleTracker.isProcessing = false ∧
    ∃ result, (handleFetchCommunityMembers envFirstFailure "42" idleTracker).1 = .ok result ∧
      (handleFetchCommunityMembers envFirstFailure "42" idleTracker).2.isProcessing = false :=
  ⟨rfl, run_returns_and_releases_lock envFirstFailure "42" idleTracker rfl⟩

/-- C7: when a run succeeds, some enumeration of the run yielded a non-empty member
list `members`, the result carries the ranked list returned by
`processMembersOptimized` as `members` and `members.length` as `totalProcessed`,
and both in the state right after `completed` is set (`markCompleted`) and in the
final state `currentProgress` is
`{processed = total = members.length, completed = true, results = ranked}`. -/
theorem successful_run_publishes_totals (env : Env) (communityId : String) (st : Tracker)
    (result : FetchResult)
    (hrun : (handleFetchCommunityMembers env communityId st).1 = .ok result)
    (hsuccess : result.success = true) :
    ∃ tabId calls members ranked st2 st4,
      (getAllCommunityMembers env tabId communityId (runStart st calls)).1 = .ok members ∧
      members ≠ [] ∧
      (processMembersOptimized env tabId members st2).1 = .ok ranked ∧
      result = { success := true, members := some ranked,
                 totalProcessed := some members.length, error := none } ∧
      (fetchCommunityDataFast env tabId communityId (runStart st calls)).2 = st4 ∧
      (markCompleted result st4).currentProgress =
        { processed := members.length, total := members.length, completed := true,
          results := ranked } ∧
      (handleFetchCommunityMembers env communityId st).2 =
        { publishTotals result (markCompleted result st4) with isProcessing := false } ∧
      (handleFetchCommunityMembers env communityId st).2.currentProgress =
        { processed := members.length, total := members.length, completed := true,
          results := ranked } := by
  have hidle : st.isProcessing = false := by
    by_contra hb
    have hb2 : st.isProcessing = true := by simpa using hb
    rw [handleFetchCommunityMembers_busy env communityId st hb2] at hrun
    have : result = (failedResult "Already processing a community") := by
      simpa using hrun.symm
    rw [this] at hsuccess
    simp [failedResult] at hsuccess
  rw [handleFetchCommunityMembers_idle env communityId st hidle] at hrun ⊢
  obtain ⟨calls, hcase | ⟨tabId, hcase⟩⟩ := handleFetchTry_cases env communityId st
  · obtain ⟨e, he⟩ := hcase
    rw [he] at hrun
    have : result = failedResult e := by
      simpa using hrun.symm
    rw [this] at hsuccess
    simp [failedResult] at hsuccess
  · rw [hcase] at hrun ⊢
    rcases fetchCommunityDataFast_cases env tabId communityId (runStart st calls) with
      ⟨e, _, hf⟩ | ⟨_, e, hf⟩ | ⟨members, ranked, st2, ws, rs, hg, hne, hst2, hranked, hf,
        hev, _, _, hlast, _, _⟩
    · rw [hf] at hrun
      have : result = failedResult e := by
        simpa using hrun.symm
      rw [this] at hsuccess
      simp [failedResult] at hsuccess
    · rw [hf] at hrun
      have : result = failedResult e := by
        simpa using hrun.symm
      rw [this] at hsuccess
      simp [failedResult] at hsuccess
    · rw [hf] at hrun ⊢
      have hres : result = ⟨true, some ranked, some members.length, none⟩ := by
        simpa using hrun.symm
      obtain ⟨_, htotal, _, _, _, hproc⟩ := hev
      have htotal2 : (processMembersOptimized env tabId members st2).2.currentProgress.total =
          members.length := by
        rw [htotal, hst2]
      have hproc2 : (processMembersOptimized env tabId members st2).2.currentProgress.processed =
          members.length := by
        rw [hproc, hlast]
        rfl
      subst hres
      refine ⟨tabId, calls, members, ranked, st2,
        (processMembersOptimized env tabId members st2).2, hg, hne, hranked, rfl,
        by rw [hf], ?_, ?_, ?_⟩
      · rcases hp : (processMembersOptimized env tabId members st2).2.currentProgress with
          ⟨p, t, c, r⟩
        rw [hp] at htotal2 hproc2
        dsimp only at htotal2 hproc2
        simp [markCompleted, hp, htotal2, hproc2]
      · simp
      · simp [publishTotals, markCompleted, WealthTracker.setProcessed]

/-- Witness of C7: one listing page with one member whose inventory clears the floor. -/
theorem successful_run_publishes_totals_witness :
    (handleFetchCommunityMembers envSingle "42" idleTracker).1 = .ok singleResult ∧
    singleResult.success = true ∧
    ∃ tabId calls members ranked st2 st4,
      (getAllCommunityMembers envSingle tabId "42" (runStart idleTracker calls)).1 =
        .ok members ∧
      members ≠ [] ∧
      (processMembersOptimized envSingle tabId members st2).1 = .ok ranked ∧
      singleResult = { success := true, members := some ranked,
                       totalProcessed := some members.length, error := none } ∧
      (fetchCommunityDataFast envSingle tabId "42" (runStart idleTracker calls)).2 = st4 ∧
      (markCompleted singleResult st4).currentProgress =
        { processed := members.length, total := members.length, completed := true,
          results := ranked } ∧
      (handleFetchCommunityMembers envSingle "42" idleTracker).2 =
        { publishTotals singleResult (markCompleted singleResult st4) with
          isProcessing := false } ∧
      (handleFetchCommunityMembers envSingle "42" idleTracker).2.currentProgress =
        { processed := members.length, total := members.length, completed := true,
          results := ranked } :=
  ⟨by decide, rfl,
    successful_run_publishes_totals envSingle "42" idleTracker singleResult (by decide) rfl⟩

end WealthTracker

namespace WealthTracker

/-! ## Progress writes of a run, and runs that fail in the enumeration -/

set_option maxRecDepth 100000

theorem getAllCommunityMembers_evolves (env : Env) (tabId : Nat) (communityId : String)
    (st : Tracker) :
    ∃ ws rs,
      Evolves st (getAllCommunityMembers env tabId communityId st).2 ws ∧
      List.Sorted (· ≤ ·) ws ∧
      (∀ members, (getAllCommunityMembers env tabId communityId st).1 = .ok members →
        ws.getLast? = some members.length) ∧
      (getAllCommunityMembers env tabId communityId st).2.requests = st.requests ++ rs ∧
      ∀ r ∈ rs, ∃ c, r = ⟨tabId, listingUrl communityId c⟩ := by
  obtain ⟨ws, rs, hev, hsorted, _, hlast, hreq, hall⟩ :=
    membersLoop_evolves env tabId communityId maxPages [] none 0 st
  exact ⟨ws, rs, hev, hsorted, hlast, hreq, hall⟩

/-- C6 (as amended): within one run started from the idle state, the values written
to `currentProgress.processed` after the reset split into the writes of the
enumeration (one per page) followed by the later writes (one per outer batch
iteration, one at completion); each of the two parts never decreases, and the
whole sequence never decreases when no enumeration write exceeds
`batchSize * concurrentBatches = 250`, that is, when at most 250 members are
enumerated. -/
theorem processed_writes_monotone_by_phase (env : Env) (communityId : String)
    (st : Tracker) (hidle : st.isProcessing = false) :
    ∃ enumWrites laterWrites,
      (handleFetchCommunityMembers env communityId st).2.processedWrites =
        st.processedWrites ++ (enumWrites ++ laterWrites) ∧
      ((enumWrites = [] ∧ laterWrites = []) ∨
        ∃ tabId calls,
          (getAllCommunityMembers env tabId communityId (runStart st calls)).2.processedWrites =
            st.processedWrites ++ enumWrites) ∧
      List.Sorted (· ≤ ·) enumWrites ∧
      List.Sorted (· ≤ ·) laterWrites ∧
      ((∀ w ∈ enumWrites, w ≤ batchSize * concurrentBatches) →
        List.Sorted (· ≤ ·) (enumWrites ++ laterWrites)) := by
  rw [handleFetchCommunityMembers_idle env communityId st hidle]
  obtain ⟨calls, hcase | ⟨tabId, hcase⟩⟩ := handleFetchTry_cases env communityId st
  · obtain ⟨e, he⟩ := hcase
    refine ⟨[], [], ?_, Or.inl ⟨rfl, rfl⟩, List.sorted_nil, List.sorted_nil,
      fun _ => List.sorted_nil⟩
    rw [he]
    simp [runStart]
  · obtain ⟨wsE, rsE, hevE, hsortedE, hlastE, _, _⟩ :=
      getAllCommunityMembers_evolves env tabId communityId (runStart st calls)
    have hwE : (getAllCommunityMembers env tabId communityId (runStart st calls)).2.processedWrites =
        st.processedWrites ++ wsE := hevE.2.2.2.2.1
    rcases fetchCommunityDataFast_cases env tabId communityId (runStart st calls) with
      ⟨e, _, hf⟩ | ⟨_, e, hf⟩ | ⟨members, ranked, st2, ws, rs, hg, hne, hst2, hranked, hf,
        hev, hsorted, hbounds, hlast, _, _⟩
    · refine ⟨wsE, [], ?_, Or.inr ⟨tabId, calls, hwE⟩, hsortedE, List.sorted_nil, ?_⟩
      · rw [hcase, hf]
        simpa using hwE
      · intro _
        simpa using hsortedE
    · refine ⟨wsE, [], ?_, Or.inr ⟨tabId, calls, hwE⟩, hsortedE, List.sorted_nil, ?_⟩
      · rw [hcase, hf]
        simpa using hwE
      · intro _
        simpa using hsortedE
    · have hlater : List.Sorted (· ≤ ·) (ws ++ [members.length]) := by
        rw [List.Sorted, List.pairwise_append]
        refine ⟨hsorted, List.pairwise_singleton _ _, ?_⟩
        intro a ha b hb
        have hb2 : b = members.length := by simpa using hb
        rw [hb2]
        exact (hbounds a ha).2
      have hw2 : (processMembersOptimized env tabId members st2).2.processedWrites =
          st.processedWrites ++ (wsE ++ ws) := by
        rw [hev.2.2.2.2.1, hst2]
        dsimp only
        rw [hwE, List.append_assoc]
      refine ⟨wsE, ws ++ [members.length], ?_, Or.inr ⟨tabId, calls, hwE⟩, hsortedE,
        hlater, ?_⟩
      · rw [hcase, hf]
        simp [publishTotals, markCompleted, WealthTracker.setProcessed, hw2]
      · intro hsmall
        have hlastE2 := hlastE members hg
        have hn : members.length ≤ batchSize * concurrentBatches :=
          hsmall _ (mem_of_getLast? wsE _ hlastE2)
        rw [List.Sorted, List.pairwise_append]
        refine ⟨hsortedE, hlater, ?_⟩
        intro a ha b hb
        have ha2 := sorted_le_of_getLast? wsE _ hsortedE hlastE2 a ha
        rcases List.mem_append.mp hb with h | h
        · have := (hbounds b h).1
          rw [Nat.min_eq_right hn] at this
          omega
        · have : b = members.length := by simpa using h
          omega

/-- Witness of C6 (as amended): the run over one page with one member. -/
theorem processed_writes_monotone_witness :
    idleTracker.isProcessing = false ∧
    ∃ enumWrites laterWrites,
      (handleFetchCommunityMembers envSingle "42" idleTracker).2.processedWrites =
        idleTracker.processedWrites ++ (enumWrites ++ laterWrites) ∧
      ((enumWrites = [] ∧ laterWrites = []) ∨
        ∃ tabId calls,
          (getAllCommunityMembers envSingle tabId "42"
            (runStart idleTracker calls)).2.processedWrites =
            idleTracker.processedWrites ++ enumWrites) ∧
      List.Sorted (· ≤ ·) enumWrites ∧
      List.Sorted (· ≤ ·) laterWrites ∧
      ((∀ w ∈ enumWrites, w ≤ batchSize * concurrentBatches) →
        List.Sorted (· ≤ ·) (enumWrites ++ laterWrites)) :=
  ⟨rfl, processed_writes_monotone_by_phase envSingle "42" idleTracker rfl⟩

/-- Counterexample to C6 as stated: with three listing pages of 100 members the
enumeration writes 100, 200, 300 and the first batch iteration then writes 250. -/
theorem processed_decreases_after_enumeration :
    idleTracker.isProcessing = false ∧
    (handleFetchCommunityMembers envThreePages "42" idleTracker).2.processedWrites =
      [100, 200, 300, 250, 300, 300] ∧
    ¬ List.Sorted (· ≤ ·)
      (handleFetchCommunityMembers envThreePages "42" idleTracker).2.processedWrites := by
  decide!

/-- C8: when the first listing request of a run fails, or its enumeration yields no
member, the run fails.  For a run started from the idle state whose preparation
selects the tab `tabId`: if the first listing request, sent to that tab, fails, or
the enumeration on that tab from the state the run has reached yields no member,
then `handleFetchCommunityMembers` returns `{success:false, error}`; every request
it issued is a listing request, none an inventory request; and afterwards
`completed` is false and `results` is empty. -/
theorem run_fails_without_members (env : Env) (communityId : String) (st : Tracker)
    (tabId : Nat) (hidle : st.isProcessing = false)
    (htab : (runPreparation env).1 = .ok tabId)
    (hnone :
      requestFails
        (env.listing st.requests.length tabId (listingUrl communityId none)) = true ∨
      (getAllCommunityMembers env tabId communityId (enumerationStart env st)).1 = .ok []) :
    ∃ message rs,
      (handleFetchCommunityMembers env communityId st).1 = .ok (failedResult message) ∧
      (failedResult message).success = false ∧
      (handleFetchCommunityMembers env communityId st).2.requests = st.requests ++ rs ∧
      (∀ r ∈ rs, (∃ c, r.url = listingUrl communityId c) ∧
        ∀ userId, r.url ≠ inventoryUrl userId) ∧
      (handleFetchCommunityMembers env communityId st).2.currentProgress.completed = false ∧
      (handleFetchCommunityMembers env communityId st).2.currentProgress.results = [] := by
  rw [handleFetchCommunityMembers_idle env communityId st hidle]
  have hcase := handleFetchTry_prepared env communityId st
  rw [htab] at hcase
  dsimp only at hcase
  obtain ⟨wsE, rsE, hevE, _, _, hreqE, hallE⟩ :=
    getAllCommunityMembers_evolves env tabId communityId (enumerationStart env st)
  have hurls : ∀ r ∈ rsE, (∃ c, r.url = listingUrl communityId c) ∧
      ∀ userId, r.url ≠ inventoryUrl userId := by
    intro r hr
    obtain ⟨c, hc⟩ := hallE r hr
    subst hc
    exact ⟨⟨c, rfl⟩, fun userId => listingUrl_ne_inventoryUrl communityId c userId⟩
  have hcompleted :
      (getAllCommunityMembers env tabId communityId
        (enumerationStart env st)).2.currentProgress.completed = false := hevE.2.2.1
  have hresults :
      (getAllCommunityMembers env tabId communityId
        (enumerationStart env st)).2.currentProgress.results = [] := hevE.2.2.2.1
  have hreq : (getAllCommunityMembers env tabId communityId
      (enumerationStart env st)).2.requests = st.requests ++ rsE := hreqE
  rcases fetchCommunityDataFast_cases env tabId communityId (enumerationStart env st) with
    ⟨e, _, hf⟩ | ⟨_, e, hf⟩ | ⟨members, ranked, st2, ws, rs, hg, hne, _⟩
  · refine ⟨e, rsE, ?_, rfl, ?_, hurls, ?_, ?_⟩ <;> rw [hcase, hf]
    · exact hreq
    · exact hcompleted
    · exact hresults
  · refine ⟨e, rsE, ?_, rfl, ?_, hurls, ?_, ?_⟩ <;> rw [hcase, hf]
    · exact hreq
    · exact hcompleted
    · exact hresults
  · exfalso
    rcases hnone with h1 | h2
    · have hlen : (enumerationStart env st).requests.length = st.requests.length := rfl
      rw [← hlen] at h1
      obtain ⟨e, he⟩ := membersLoop_succ_of_fail env tabId communityId (maxPages - 1) []
        none 0 (enumerationStart env st) h1
      have : getAllCommunityMembers env tabId communityId (enumerationStart env st) =
          membersLoop env tabId communityId (maxPages - 1 + 1) [] none 0
            (enumerationStart env st) := rfl
      rw [this, he] at hg
      simp at hg
    · rw [h2] at hg
      exact hne (by simpa using hg.symm)

/-- Witness of C8: the listing endpoint refuses the first request of tab 1, the tab
of the run, and would have answered any other tab. -/
theorem run_fails_without_members_witness :
    (runPreparation envOwnTabFailure).1 = .ok 1 ∧
    envOwnTabFailure.listing 0 2 (listingUrl "42" none) =
      .ok (.success { data := some [sampleMember 7], nextPageCursor := none }) ∧
    ∃ message rs,
      (handleFetchCommunityMembers envOwnTabFailure "42" idleTracker).1 =
        .ok (failedResult message) ∧
      (failedResult message).success = false ∧
      (handleFetchCommunityMembers envOwnTabFailure "42" idleTracker).2.requests =
        idleTracker.requests ++ rs ∧
      (∀ r ∈ rs, (∃ c, r.url = listingUrl "42" c) ∧
        ∀ userId, r.url ≠ inventoryUrl userId) ∧
      (handleFetchCommunityMembers envOwnTabFailure "42" idleTracker).2.currentProgress.completed
        = false ∧
      (handleFetchCommunityMembers envOwnTabFailure "42" idleTracker).2.currentProgress.results
        = [] :=
  ⟨by decide, by decide,
    run_fails_without_members envOwnTabFailure "42" idleTracker 1 rfl (by decide)
      (Or.inl (by decide))⟩

/-- C9 (as amended): a failure of any listing request is fatal to the run, the
first or a later one.  For a run started from the idle state whose preparation
selects the tab `tabId`: when the listing pages `0 .. k-1` requested from that tab
succeed with a next cursor (`k < 200`) and the request for page `k` fails, the run
returns `{success:false, error}` and `completed` stays false. -/
theorem listing_failure_is_fatal (env : Env) (communityId : String) (st : Tracker)
    (tabId k : Nat) (hidle : st.isProcessing = false)
    (htab : (runPreparation env).1 = .ok tabId) (hk : k < maxPages)
    (hprev : ∀ j < k, pageContinues env tabId communityId st.requests.length j = true)
    (hfail : requestFails (pageOutcome env tabId communityId st.requests.length k) = true) :
    ∃ message,
      (handleFetchCommunityMembers env communityId st).1 = .ok (failedResult message) ∧
      (failedResult message).success = false ∧
      (handleFetchCommunityMembers env communityId st).2.currentProgress.completed = false := by
  rw [handleFetchCommunityMembers_idle env communityId st hidle]
  have hcase := handleFetchTry_prepared env communityId st
  rw [htab] at hcase
  dsimp only at hcase
  obtain ⟨wsE, rsE, hevE, _⟩ :=
    getAllCommunityMembers_evolves env tabId communityId (enumerationStart env st)
  have hcompleted :
      (getAllCommunityMembers env tabId communityId
        (enumerationStart env st)).2.currentProgress.completed = false := hevE.2.2.1
  obtain ⟨e0, he0⟩ := getAllCommunityMembers_fails_at env tabId communityId
    (enumerationStart env st) k hk hprev hfail
  rcases fetchCommunityDataFast_cases env tabId communityId (enumerationStart env st) with
    ⟨e, _, hf⟩ | ⟨hg, _⟩ | ⟨members, ranked, st2, ws, rs, hg, _⟩
  · refine ⟨e, ?_, rfl, ?_⟩
    · rw [hcase, hf]
    · rw [hcase, hf]
      exact hcompleted
  · rw [he0] at hg
    simp at hg
  · rw [he0] at hg
    simp at hg

/-- Witness of C9 (as amended): on tab 1, the tab of the run, the first page
succeeds with a cursor and the second request fails; any other tab would have been
answered with one complete page. -/
theorem listing_failure_is_fatal_witness :
    (runPreparation envOwnTabLaterFailure).1 = .ok 1 ∧
    pageContinues envOwnTabLaterFailure 1 "42" 0 0 = true ∧
    requestFails (pageOutcome envOwnTabLaterFailure 1 "42" 0 1) = true ∧
    requestFails (pageOutcome envOwnTabLaterFailure 2 "42" 0 0) = false ∧
    ∃ message,
      (handleFetchCommunityMembers envOwnTabLaterFailure "42" idleTracker).1 =
        .ok (failedResult message) ∧
      (failedResult message).success = false ∧
      (handleFetchCommunityMembers envOwnTabLaterFailure "42" idleTracker).2.currentProgress.completed
        = false :=
  ⟨by decide, by decide, by decide, by decide,
    listing_failure_is_fatal envOwnTabLaterFailure "42" idleTracker 1 1 rfl (by decide)
      (by decide)
      (fun j hj => by
        have hj0 : j = 0 := by omega
        subst hj0
        decide)
      (by decide)⟩

/-- Counterexample to C9 as stated: the first listing page succeeds with one member
and a next cursor, the request for the second page fails, and the run ends with
`success = false` and that failure's message. -/
theorem later_page_failure_ends_run :
    envLaterFailure.listing 0 1 (listingUrl "42" none) =
      .ok (.success { data := some [sampleMember 7], nextPageCursor := some "next" }) ∧
    envLaterFailure.listing 1 1 (listingUrl "42" (some "next")) =
      .ok (.failure "HTTP 500: ") ∧
    (handleFetchCommunityMembers envLaterFailure "42" idleTracker).1 =
      .ok (failedResult "HTTP 500: ") ∧
    (failedResult "HTTP 500: ").success = false ∧
    (handleFetchCommunityMembers envLaterFailure "42" idleTracker).2.requests =
      [⟨1, listingUrl "42" none⟩, ⟨1, listingUrl "42" (some "next")⟩] := by
  decide

end WealthTracker

namespace Popup

/-! ## Link validation -/

theorem matchAt_some (s digits : List Char) (h : matchAt s = some digits) :
    ∃ d rest, isAsciiDigit d = true ∧ s = acceptedHead.data ++ d :: rest := by
  unfold matchAt at h
  by_cases hp : acceptedHead.data.isPrefixOf s = true
  · obtain ⟨t, rfl⟩ := List.isPrefixOf_iff_prefix.mp hp
    rw [if_pos hp, List.drop_left] at h
    rcases t with _ | ⟨d, rest⟩
    · simp at h
    · by_cases hd : isAsciiDigit d = true
      · exact ⟨d, rest, hd, rfl⟩
      · simp [List.takeWhile, hd] at h
  · rw [if_neg hp] at h
    simp at h

theorem regexMatch_of_matchAt (s digits : List Char) (h : matchAt s = some digits) :
    regexMatch s = some digits := by
  cases s with
  | nil => simpa [regexMatch] using h
  | cons c tail => simp [regexMatch, h]

theorem matchAt_digits (s digits : List Char) (h : matchAt s = some digits) :
    digits ≠ [] ∧ digits.all isAsciiDigit = true := by
  unfold matchAt at h
  by_cases hp : acceptedHead.data.isPrefixOf s = true
  · rw [if_pos hp] at h
    dsimp only at h
    by_cases he : (List.takeWhile isAsciiDigit (List.drop acceptedHead.data.length s)).isEmpty
        = true
    · rw [if_pos he] at h
      simp at h
    · rw [if_neg he] at h
      have hd : List.takeWhile isAsciiDigit (List.drop acceptedHead.data.length s) = digits := by
        simpa using h
      subst hd
      refine ⟨fun hnil => he (by rw [hnil]; rfl), ?_⟩
      rw [List.all_eq_true]
      intro c hc
      exact List.mem_takeWhile_imp hc
  · rw [if_neg hp] at h
    simp at h

theorem regexMatch_digits (s digits : List Char) (h : regexMatch s = some digits) :
    digits ≠ [] ∧ digits.all isAsciiDigit = true := by
  induction s with
  | nil => exact matchAt_digits [] digits h
  | cons c tail ih =>
    unfold regexMatch at h
    rcases hm : matchAt (c :: tail) with _ | found
    · rw [hm] at h
      exact ih h
    · rw [hm] at h
      have : found = digits := by simpa using h
      subst this
      exact matchAt_digits _ found hm

theorem matchAt_of_digit (d : Char) (rest : List Char) (hd : isAsciiDigit d = true) :
    ∃ digits, matchAt (acceptedHead.data ++ d :: rest) = some digits := by
  have hp : acceptedHead.data.isPrefixOf (acceptedHead.data ++ d :: rest) = true := by
    rw [List.isPrefixOf_iff_prefix]
    exact List.prefix_append _ _
  unfold matchAt
  rw [if_pos hp, List.drop_left]
  simp [List.takeWhile, hd]

theorem head?_dropWhile_false (p : Char → Bool) (t : List Char) (c : Char)
    (h : (t.dropWhile p).head? = some c) : p c = false := by
  induction t with
  | nil => simp at h
  | cons x rest ih =>
    by_cases hx : p x = true
    · rw [List.dropWhile_cons_of_pos hx] at h
      exact ih h
    · rw [List.dropWhile_cons_of_neg hx] at h
      simp only [List.head?_cons, Option.some.injEq] at h
      subst h
      simpa using hx

/-- A match at the start of `s`: `s` is the accepted head, the digit run and a rest
that no digit starts. -/
theorem matchAt_run (s digits : List Char) (h : matchAt s = some digits) :
    ∃ rest, s = acceptedHead.data ++ digits ++ rest ∧
      ∀ c, rest.head? = some c → isAsciiDigit c = false := by
  unfold matchAt at h
  by_cases hp : acceptedHead.data.isPrefixOf s = true
  · obtain ⟨t, rfl⟩ := List.isPrefixOf_iff_prefix.mp hp
    rw [if_pos hp, List.drop_left] at h
    dsimp only at h
    by_cases he : (List.takeWhile isAsciiDigit t).isEmpty = true
    · rw [if_pos he] at h
      simp at h
    · rw [if_neg he] at h
      have hd : List.takeWhile isAsciiDigit t = digits := by simpa using h
      refine ⟨t.dropWhile isAsciiDigit, ?_, fun c hc => head?_dropWhile_false _ t c hc⟩
      rw [← hd, List.append_assoc, List.takeWhile_append_dropWhile]
  · rw [if_neg hp] at h
    simp at h

theorem matchAt_of_run (digits rest : List Char) (hne : digits ≠ [])
    (hdigits : ∀ c ∈ digits, isAsciiDigit c = true)
    (hrest : ∀ c, rest.head? = some c → isAsciiDigit c = false) :
    matchAt (acceptedHead.data ++ digits ++ rest) = some digits := by
  have hp : acceptedHead.data.isPrefixOf (acceptedHead.data ++ digits ++ rest) = true := by
    rw [List.isPrefixOf_iff_prefix, List.append_assoc]
    exact List.prefix_append _ _
  have htake : (digits ++ rest).takeWhile isAsciiDigit = digits := by
    rw [List.takeWhile_append_of_pos hdigits]
    rcases rest with _ | ⟨c, tail⟩
    · simp
    · simp [List.takeWhile, hrest c rfl]
  unfold matchAt
  rw [if_pos hp, List.append_assoc, List.drop_left, htake]
  cases digits with
  | nil => exact absurd rfl hne
  | cons c tail => rfl

/-- The call `url.match(regex)` returns the digit run of the leftmost place where
the accepted head is directly followed by a digit. -/
theorem regexMatch_firstDigitRun (s digits : List Char) (h : regexMatch s = some digits) :
    FirstDigitRun s digits := by
  induction s with
  | nil =>
    obtain ⟨d, rest, hd, hs⟩ := matchAt_some [] digits h
    simp at hs
  | cons c tail ih =>
    unfold regexMatch at h
    rcases hm : matchAt (c :: tail) with _ | found
    · rw [hm] at h
      obtain ⟨pre, rest, hs, hne, hall, hrest, hmin⟩ := ih h
      refine ⟨c :: pre, rest, by rw [hs]; simp, hne, hall, hrest, ?_⟩
      intro pre2 d rest2 hs2 hd
      cases pre2 with
      | nil =>
        obtain ⟨ds, hds⟩ := matchAt_of_digit d rest2 hd
        rw [hs2] at hm
        simp only [List.nil_append] at hm
        rw [hds] at hm
        simp at hm
      | cons p pre3 =>
        simp only [List.cons_append, List.cons.injEq] at hs2
        have := hmin pre3 d rest2 hs2.2 hd
        simp only [List.length_cons]
        omega
    · rw [hm] at h
      have hfd : found = digits := by simpa using h
      subst hfd
      obtain ⟨hne, hall⟩ := matchAt_digits _ found hm
      obtain ⟨rest, hs, hrest⟩ := matchAt_run _ found hm
      refine ⟨[], rest, by simpa using hs, hne, ?_, hrest, fun _ _ _ _ _ => Nat.zero_le _⟩
      intro x hx
      exact (List.all_eq_true.mp hall) x hx

theorem regexMatch_of_firstDigitRun (s digits : List Char) (h : FirstDigitRun s digits) :
    regexMatch s = some digits := by
  obtain ⟨pre, rest, hs, hne, hall, hrest, hmin⟩ := h
  induction pre generalizing s with
  | nil =>
    rw [hs]
    exact regexMatch_of_matchAt _ digits (by simpa using matchAt_of_run digits rest hne hall hrest)
  | cons p pre ih =>
    have hnone : matchAt s = none := by
      rcases hm : matchAt s with _ | found
      · rfl
      · obtain ⟨d, rest2, hd, hs2⟩ := matchAt_some s found hm
        have := hmin [] d rest2 (by simpa using hs2) hd
        simp at this
    have htail : regexMatch s = regexMatch (pre ++ acceptedHead.data ++ digits ++ rest) := by
      rw [hs] at hnone ⊢
      simp only [List.cons_append] at hnone ⊢
      rw [regexMatch, hnone]
    rw [htail]
    refine ih _ rfl ?_
    intro pre2 d rest2 hs2 hd
    have := hmin (p :: pre2) d rest2 (by rw [hs]; simp [← hs2]) hd
    simp only [List.length_cons] at this
    omega

theorem extractCommunityId_eq_some_iff (url c : String) :
    extractCommunityId url = some c ↔
      regexMatch url.data = some c.data ∧ 0 < parseIntDigits c.data := by
  unfold extractCommunityId
  constructor
  · intro h
    rcases hm : regexMatch url.data with _ | digits
    · rw [hm] at h
      simp at h
    · rw [hm] at h
      dsimp only at h
      by_cases hcond : ¬ digits.isEmpty = true ∧ digits.all isAsciiDigit = true ∧
          parseIntDigits digits > 0
      · rw [if_pos hcond] at h
        have hc : c = ⟨digits⟩ := by simpa using h.symm
        subst hc
        exact ⟨rfl, hcond.2.2⟩
      · rw [if_neg hcond] at h
        simp at h
  · rintro ⟨hm, hpos⟩
    obtain ⟨hne, hall⟩ := regexMatch_digits _ _ hm
    rw [hm]
    dsimp only
    have hcond : ¬ c.data.isEmpty = true ∧ c.data.all isAsciiDigit = true ∧
        parseIntDigits c.data > 0 :=
      ⟨fun he => hne (List.isEmpty_iff.mp he), hall, hpos⟩
    rw [if_pos hcond]

/-- The validation accepts exactly the links of `AcceptedShape`, with the
identifier that the shape names. -/
theorem validateCommunityLink_accepts_iff (link c : String) :
    validateCommunityLink link = { valid := true, communityId := some c, error := none } ↔
      AcceptedShape link c := by
  unfold validateCommunityLink AcceptedShape
  by_cases hempty : link = ""
  · subst hempty
    have hnp : ¬ acceptedHead.data <+: (jsTrim "").data := by decide
    simp [hnp]
  · rw [if_neg hempty]
    dsimp only
    by_cases hp : acceptedHead.data.isPrefixOf (jsTrim link).data = true
    · have hpre : acceptedHead.data <+: (jsTrim link).data := List.isPrefixOf_iff_prefix.mp hp
      rw [if_neg (not_not.mpr hp)]
      rcases hx : extractCommunityId (jsTrim link) with _ | found
      · constructor
        · intro h
          simp at h
        · rintro ⟨_, hrun, hpos⟩
          have := (extractCommunityId_eq_some_iff (jsTrim link) c).mpr
            ⟨regexMatch_of_firstDigitRun _ _ hrun, hpos⟩
          rw [hx] at this
          simp at this
      · constructor
        · intro h
          have hfc : found = c := by simpa using h
          subst hfc
          obtain ⟨hm, hpos⟩ := (extractCommunityId_eq_some_iff (jsTrim link) found).mp hx
          exact ⟨hpre, regexMatch_firstDigitRun _ _ hm, hpos⟩
        · rintro ⟨_, hrun, hpos⟩
          have := (extractCommunityId_eq_some_iff (jsTrim link) c).mpr
            ⟨regexMatch_of_firstDigitRun _ _ hrun, hpos⟩
          rw [hx] at this
          have hfc : found = c := by simpa using this
          subst hfc
          rfl
    · have hnpre : ¬ acceptedHead.data <+: (jsTrim link).data :=
        fun h => hp (List.isPrefixOf_iff_prefix.mpr h)
      rw [if_pos hp]
      constructor
      · intro h
        simp at h
      · rintro ⟨h, _⟩
        exact absurd h hnpre

/-- The validation returns either an accepted identifier without an error text, or
`valid = false` with an error text and no identifier. -/
theorem validateCommunityLink_cases (link : String) :
    (∃ c, validateCommunityLink link = { valid := true, communityId := some c, error := none }) ∨
    (∃ message, validateCommunityLink link =
      { valid := false, communityId := none, error := some message }) := by
  unfold validateCommunityLink
  by_cases hempty : link = ""
  · exact Or.inr ⟨_, by rw [if_pos hempty]⟩
  · rw [if_neg hempty]
    dsimp only
    by_cases hp : acceptedHead.data.isPrefixOf (jsTrim link).data = true
    · rw [if_neg (not_not.mpr hp)]
      rcases extractCommunityId (jsTrim link) with _ | found
      · exact Or.inr ⟨_, rfl⟩
      · exact Or.inl ⟨found, rfl⟩
    · rw [if_pos hp]
      exact Or.inr ⟨_, rfl⟩

/-- C10 (as amended): `validateCommunityLink` returns `valid = true` with the
identifier `c` exactly when the trimmed link starts with
`https://www.roblox.com/communities/`, `c` is the digit run of the leftmost place
in it where that head is directly followed by a decimal digit, and `c` denotes a
positive integer.  For every other link it returns `valid = false` with an error
text, and `handleSearch`, when no search is in progress, shows that text as an
error and returns without storing anything, sending any message or starting a
timer.  In particular a link whose trimmed form is the head, a digit run denoting a
positive integer and a rest that no digit starts is accepted with that run as the
identifier. -/
theorem rejected_link_sends_nothing (env : PopupEnv) (st : PopupState)
    (hrest : st.isSearching = false) :
    (∀ c, validateCommunityLink st.inputValue =
        { valid := true, communityId := some c, error := none } ↔
      AcceptedShape st.inputValue c) ∧
    ((validateCommunityLink st.inputValue).valid = true ↔
      ∃ c, AcceptedShape st.inputValue c) ∧
    ((¬ ∃ c, AcceptedShape st.inputValue c) →
      (validateCommunityLink st.inputValue).valid = false ∧
      ∃ message, (validateCommunityLink st.inputValue).error = some message ∧
        handleSearch env st = (.ok (), showStatus message "error" st) ∧
        (handleSearch env st).2.messages = st.messages ∧
        (handleSearch env st).2.storageWrites = st.storageWrites ∧
        (handleSearch env st).2.progressTimers = st.progressTimers) ∧
    (∀ digits rest, (jsTrim st.inputValue).data = acceptedHead.data ++ digits ++ rest →
      digits ≠ [] → (∀ d ∈ digits, isAsciiDigit d = true) →
      (∀ d, rest.head? = some d → isAsciiDigit d = false) →
      0 < parseIntDigits digits →
      validateCommunityLink st.inputValue =
        { valid := true, communityId := some ⟨digits⟩, error := none }) := by
  have hiff := validateCommunityLink_accepts_iff st.inputValue
  refine ⟨hiff, ?_, ?_, ?_⟩
  · constructor
    · intro hvalid
      rcases validateCommunityLink_cases st.inputValue with ⟨c, hc⟩ | ⟨message, hm⟩
      · exact ⟨c, (hiff c).mp hc⟩
      · rw [hm] at hvalid
        simp at hvalid
    · rintro ⟨c, hc⟩
      rw [(hiff c).mpr hc]
  · intro hnot
    rcases validateCommunityLink_cases st.inputValue with ⟨c, hc⟩ | ⟨message, hm⟩
    · exact absurd ⟨c, (hiff c).mp hc⟩ hnot
    · have hvalid : (validateCommunityLink st.inputValue).valid = false := by rw [hm]
      have herr : (validateCommunityLink st.inputValue).error = some message := by rw [hm]
      have hrun : handleSearch env st = (.ok (), showStatus message "error" st) := by
        simp [handleSearch, hrest, hvalid, herr]
      refine ⟨hvalid, message, herr, hrun, ?_, ?_, ?_⟩ <;> rw [hrun] <;> rfl
  · intro digits rest hs hne hall hrun hpos
    refine (hiff ⟨digits⟩).mpr ⟨?_, ⟨[], rest, by simpa using hs, hne, hall, hrun,
      fun _ _ _ _ _ => Nat.zero_le _⟩, hpos⟩
    rw [hs, List.append_assoc]
    exact List.prefix_append _ _

/-- Witness of C10 (as amended): the link `https://host/communities/42abc` does not
start with the accepted head, so it is rejected and nothing is sent. -/
theorem rejected_link_sends_nothing_witness :
    (popupWith "https://host/communities/42abc").isSearching = false ∧
    (validateCommunityLink "https://host/communities/42abc").valid = false ∧
    ∃ message, (validateCommunityLink "https://host/communities/42abc").error = some message ∧
      handleSearch popupEnvOk (popupWith "https://host/communities/42abc") =
        (.ok (), showStatus message "error" (popupWith "https://host/communities/42abc")) ∧
      (handleSearch popupEnvOk (popupWith "https://host/communities/42abc")).2.messages = [] ∧
      (handleSearch popupEnvOk (popupWith "https://host/communities/42abc")).2.storageWrites
        = [] ∧
      (handleSearch popupEnvOk (popupWith "https://host/communities/42abc")).2.progressTimers
        = 0 :=
  ⟨rfl,
    (rejected_link_sends_nothing popupEnvOk (popupWith "https://host/communities/42abc")
      rfl).2.2.1 (fun h => h.elim fun _ hc => absurd hc.1 (by decide))⟩

/-- A link that starts with the accepted head and is rejected all the same: the head
at the start is followed by `abc`, and the digit run after the embedded second
occurrence denotes zero. -/
theorem embedded_zero_occurrence_is_rejected :
    validateCommunityLink
        "https://www.roblox.com/communities/abc?r=https://www.roblox.com/communities/0" =
      { valid := false, communityId := none,
        error := some "Could not extract valid community ID from link" } := by
  decide

/-- Counterexample to C10 as stated: in `https://www.roblox.com/communities/42abc`
the segment after `/communities/` is `42abc`, which is not a decimal integer, yet
the link is valid with identifier `42`, and `handleSearch` stores it and sends
`fetchCommunityMembers` for it. -/
theorem trailing_text_after_digits_is_accepted :
    communitiesSegment "https://www.roblox.com/communities/42abc" = some "42abc" ∧
    isPositiveDecimal "42abc" = false ∧
    validateCommunityLink "https://www.roblox.com/communities/42abc" =
      { valid := true, communityId := some "42", error := none } ∧
    (handleSearch popupEnvOk
      (popupWith "https://www.roblox.com/communities/42abc")).2.messages =
      [{ action := "fetchCommunityMembers", communityId := "42" }] := by
  decide

end Popup

namespace Popup

/-! ## Accepted links -/

/-- The part of C11 that the code satisfies: an accepted identifier is a non-empty
string of decimal digits denoting a positive integer, and the trimmed link starts
with the accepted head. -/
theorem validateCommunityLink_valid_identifier (link c : String)
    (hvalid : (validateCommunityLink link).valid = true)
    (hid : (validateCommunityLink link).communityId = some c) :
    c.data ≠ [] ∧ c.data.all isAsciiDigit = true ∧ 0 < parseIntDigits c.data ∧
      acceptedHead.data <+: (jsTrim link).data := by
  unfold validateCommunityLink at hvalid hid
  by_cases hempty : link = ""
  · simp [hempty] at hvalid
  · rw [if_neg hempty] at hvalid hid
    dsimp only at hvalid hid
    by_cases hp : acceptedHead.data.isPrefixOf (jsTrim link).data = true
    · have hnp : ¬ ¬ acceptedHead.data.isPrefixOf (jsTrim link).data = true := not_not.mpr hp
      rw [if_neg hnp] at hvalid hid
      rcases hx : extractCommunityId (jsTrim link) with _ | found
      · rw [hx] at hvalid
        simp at hvalid
      · rw [hx] at hid
        have hfc : found = c := by simpa using hid
        subst hfc
        unfold extractCommunityId at hx
        rcases hm : regexMatch (jsTrim link).data with _ | digits
        · rw [hm] at hx
          simp at hx
        · rw [hm] at hx
          dsimp only at hx
          obtain ⟨hne, hall⟩ := regexMatch_digits _ digits hm
          by_cases hpos : parseIntDigits digits > 0
          · have hcond : ¬ digits.isEmpty = true ∧ digits.all isAsciiDigit = true ∧
                parseIntDigits digits > 0 :=
              ⟨fun he => hne (List.isEmpty_iff.mp he), hall, hpos⟩
            rw [if_pos hcond] at hx
            have hf : found = ⟨digits⟩ := by simpa using hx.symm
            subst hf
            exact ⟨hne, hall, hpos, List.isPrefixOf_iff_prefix.mp hp⟩
          · have hcond : ¬ (¬ digits.isEmpty = true ∧ digits.all isAsciiDigit = true ∧
                parseIntDigits digits > 0) := fun h => hpos h.2.2
            rw [if_neg hcond] at hx
            simp at hx
    · have hnp : ¬ acceptedHead.data.isPrefixOf (jsTrim link).data = true := hp
      rw [if_pos hnp] at hvalid
      simp at hvalid

/-- C11 (code at the failing input): the link
`https://www.roblox.com/communities/abc?r=https://www.roblox.com/communities/7`
starts with the accepted head, which is followed by `abc`, and
`validateCommunityLink` returns it valid with the identifier `7` of the embedded
second occurrence: the trimmed link does not consist of the head at position 0
immediately followed by that identifier. -/
theorem embedded_occurrence_supplies_identifier :
    validateCommunityLink
        "https://www.roblox.com/communities/abc?r=https://www.roblox.com/communities/7" =
      { valid := true, communityId := some "7", error := none } ∧
    ¬ (acceptedHead.data ++ "7".data <+:
        (jsTrim
          "https://www.roblox.com/communities/abc?r=https://www.roblox.com/communities/7").data) := by
  decide

end Popup

namespace WealthTracker

/-! ## The background message handler -/

/-- C16 (as amended): for every incoming message whose action is neither the start
command nor `updateProgress` (that is `getProgress`, `contentScriptReady` or any
unknown action), the background message handler leaves the whole tracker state,
and so `currentProgress`, unchanged; an `updateProgress` message overwrites
`processed` and `total` with the values it carries and leaves `completed` and
`results` unchanged. -/
theorem onMessage_progress_frame (env : Env) (request : IncomingMessage) (st : Tracker)
    (hstart : request.action ≠ "fetchCommunityMembers") :
    (request.action ≠ "updateProgress" → (onMessage env request st).2 = st) ∧
    (request.action = "updateProgress" →
      (onMessage env request st).2.currentProgress =
        { processed := request.processed, total := request.total,
          completed := st.currentProgress.completed,
          results := st.currentProgress.results }) := by
  constructor
  · intro hupdate
    unfold onMessage
    rw [if_neg hstart]
    by_cases h1 : request.action = "getProgress"
    · rw [if_pos h1]
    · rw [if_neg h1, if_neg hupdate]
      by_cases h2 : request.action = "contentScriptReady"
      · rw [if_pos h2]
      · rw [if_neg h2]
  · intro hupdate
    unfold onMessage
    have h1 : request.action ≠ "getProgress" := by rw [hupdate]; decide
    rw [if_neg hstart, if_neg h1, if_pos hupdate]
    rfl

/-- Witness of C16 (as amended): a `getProgress` message on a tracker in a run. -/
theorem onMessage_progress_frame_witness :
    ((⟨"getProgress", "", 0, 0⟩ : IncomingMessage).action ≠ "updateProgress" →
      (onMessage envSingle ⟨"getProgress", "", 0, 0⟩ busyTracker).2 = busyTracker) ∧
    ((⟨"getProgress", "", 0, 0⟩ : IncomingMessage).action = "updateProgress" →
      (onMessage envSingle ⟨"getProgress", "", 0, 0⟩ busyTracker).2.currentProgress =
        { processed := (⟨"getProgress", "", 0, 0⟩ : IncomingMessage).processed,
          total := (⟨"getProgress", "", 0, 0⟩ : IncomingMessage).total,
          completed := busyTracker.currentProgress.completed,
          results := busyTracker.currentProgress.results }) :=
  onMessage_progress_frame envSingle ⟨"getProgress", "", 0, 0⟩ busyTracker (by decide)

/-- Counterexample to C16 as stated: an `updateProgress` message carrying
`processed = 5`, `total = 9` is not the start command, and the handler changes
`currentProgress` from `{0, 0}` to `{5, 9}`. -/
theorem updateProgress_overwrites_progress :
    (⟨"updateProgress", "", 5, 9⟩ : IncomingMessage).action ≠ "fetchCommunityMembers" ∧
    idleTracker.currentProgress =
      { processed := 0, total := 0, completed := false, results := [] } ∧
    (onMessage envSingle ⟨"updateProgress", "", 5, 9⟩ idleTracker).2.currentProgress =
      { processed := 5, total := 9, completed := false, results := [] } ∧
    (onMessage envSingle ⟨"updateProgress", "", 5, 9⟩ idleTracker).2.currentProgress ≠
      idleTracker.currentProgress := by
  decide

end WealthTracker

namespace Content

open WealthTracker (ApiResponse makeAPIRequest Tracker)

/-! ## The authenticated request gateway -/

theorem setHeader_mem (name value : String) (headers : List (String × String)) :
    (name, value) ∈ setHeader name value headers := by
  unfold setHeader
  by_cases h : headers.any (fun h => decide (h.1 = name)) = true
  · rw [if_pos h]
    obtain ⟨x, hx, hname⟩ := List.any_eq_true.mp h
    refine List.mem_map.mpr ⟨x, hx, ?_⟩
    have : x.1 = name := by simpa using hname
    simp [this]
  · rw [if_neg h]
    simp

theorem setHeader_unique (name value v : String) (headers : List (String × String))
    (h : (name, v) ∈ setHeader name value headers) : v = value := by
  unfold setHeader at h
  by_cases ha : headers.any (fun h => decide (h.1 = name)) = true
  · rw [if_pos ha] at h
    obtain ⟨x, _, hx⟩ := List.mem_map.mp h
    by_cases hn : x.1 = name
    · rw [if_pos hn] at hx
      exact (Prod.mk.inj hx).2.symm
    · rw [if_neg hn] at hx
      exact absurd (congrArg Prod.fst hx) hn
  · rw [if_neg ha] at h
    rcases List.mem_append.mp h with h1 | h1
    · exfalso
      apply ha
      exact List.any_eq_true.mpr ⟨(name, v), h1, by simp⟩
    · have : (name, v) = (name, value) := by simpa using h1
      exact (Prod.mk.inj this).2

/-- The call of `fetch` that retries `call` with the refreshed token. -/
theorem makeAuthenticatedRequest_of_refresh {α : Type} (fetch : Transport α) (url : String)
    (options : RequestOptions) (helper : ApiHelper) (r : HttpResponse α)
    (hfirst : fetch helper.fetches.length (firstCall url options helper) = .ok r)
    (hstatus : r.status = 403) (htoken : stringTruthy r.csrfHeader = true) :
    makeAuthenticatedRequest fetch url options helper =
      (fetch (helper.fetches.length + 1)
          { firstCall url options helper with
            headers := setHeader "X-CSRF-TOKEN" (r.csrfHeader.getD "")
              (firstCall url options helper).headers },
        { csrfToken := r.csrfHeader, authCookie := helper.authCookie,
          fetches := helper.fetches ++ [firstCall url options helper,
            { firstCall url options helper with
              headers := setHeader "X-CSRF-TOKEN" (r.csrfHeader.getD "")
                (firstCall url options helper).headers }] }) := by
  unfold makeAuthenticatedRequest
  simp only [firstCall] at hfirst ⊢
  rw [hfirst]
  simp [hstatus, htoken]

theorem makeAuthenticatedRequest_of_no_refresh {α : Type} (fetch : Transport α)
    (url : String) (options : RequestOptions) (helper : ApiHelper)
    (hno : ∀ r, fetch helper.fetches.length (firstCall url options helper) = .ok r →
      ¬ (r.status = 403 ∧ stringTruthy r.csrfHeader = true)) :
    makeAuthenticatedRequest fetch url options helper =
      (fetch helper.fetches.length (firstCall url options helper),
        { helper with fetches := helper.fetches ++ [firstCall url options helper] }) := by
  unfold makeAuthenticatedRequest
  simp only [firstCall] at hno ⊢
  rcases hf : fetch helper.fetches.length
      { url := url, credentials := options.credentials.getD "include",
        headers := mergedHeaders helper.csrfToken options } with e | r
  · rfl
  · have := hno r hf
    simp only [this, if_false]

/-- The result of `handleAPIRequest` in terms of the response that
`makeAuthenticatedRequest` returns. -/
theorem handleAPIRequest_fst {α : Type} (fetch : Transport α) (url : String)
    (helper : ApiHelper) :
    (handleAPIRequest fetch url helper).1 =
      .ok (match (makeAuthenticatedRequest fetch url noOptions helper).1 with
           | .error e => .failure e
           | .ok response =>
             if response.ok = true then
               match response.body with
               | .ok data => .success data
               | .error e => .failure e
             else
               .failure ("HTTP " ++ toString response.status ++ ": " ++ response.statusText)) := by
  unfold handleAPIRequest
  rcases makeAuthenticatedRequest fetch url noOptions helper with ⟨out, helper1⟩
  rcases out with e | response
  · rfl
  · dsimp only
    by_cases hok : response.ok = true
    · simp only [hok, not_true_eq_false, if_false, if_true]
      rcases response.body with e | data <;> rfl
    · simp [hok]

end Content

namespace Content

open WealthTracker (ApiResponse makeAPIRequest Tracker)

/-- C12 (as amended): one call of `makeAuthenticatedRequest` performs one or two
fetches, all to the given URL; it performs the second if and only if the first
response has status 403 and carries a non-empty `x-csrf-token` header, in which
case the cached `csrfToken` is replaced by that header value before the retry, the
retry carries that value as its only `X-CSRF-TOKEN` header, and the retry's outcome
is returned without any further retry; otherwise the first outcome is returned and
the cached token is kept.  `handleAPIRequest` then reports success exactly when the
returned response is ok and its body parses as JSON, and `{success:false, error}`
when the response is not ok or its body does not parse. -/
theorem authenticated_request_retries_once {α : Type} (fetch : Transport α) (url : String)
    (options : RequestOptions) (helper : ApiHelper) :
    (∃ calls,
      (makeAuthenticatedRequest fetch url options helper).2.fetches =
        helper.fetches ++ calls ∧
      1 ≤ calls.length ∧ calls.length ≤ 2 ∧
      (∀ c ∈ calls, c.url = url) ∧
      (calls.length = 2 ↔
        ∃ r, fetch helper.fetches.length (firstCall url options helper) = .ok r ∧
          r.status = 403 ∧ stringTruthy r.csrfHeader = true) ∧
      (∀ r, fetch helper.fetches.length (firstCall url options helper) = .ok r →
        r.status = 403 → stringTruthy r.csrfHeader = true →
        ∃ token retry, r.csrfHeader = some token ∧
          calls = [firstCall url options helper, retry] ∧
          ("X-CSRF-TOKEN", token) ∈ retry.headers ∧
          (∀ v, ("X-CSRF-TOKEN", v) ∈ retry.headers → v = token) ∧
          (makeAuthenticatedRequest fetch url options helper).2.csrfToken = some token ∧
          (makeAuthenticatedRequest fetch url options helper).1 =
            fetch (helper.fetches.length + 1) retry) ∧
      (calls.length = 1 →
        (makeAuthenticatedRequest fetch url options helper).1 =
          fetch helper.fetches.length (firstCall url options helper) ∧
        (makeAuthenticatedRequest fetch url options helper).2.csrfToken =
          helper.csrfToken)) ∧
    (∀ response, (makeAuthenticatedRequest fetch url noOptions helper).1 = .ok response →
      (∀ data, response.ok = true → response.body = .ok data →
        (handleAPIRequest fetch url helper).1 = .ok (.success data)) ∧
      (∀ e, response.ok = true → response.body = .error e →
        (handleAPIRequest fetch url helper).1 = .ok (.failure e)) ∧
      (response.ok = false →
        (handleAPIRequest fetch url helper).1 =
          .ok (.failure
            ("HTTP " ++ toString response.status ++ ": " ++ response.statusText)))) := by
  constructor
  · by_cases hre : ∃ r, fetch helper.fetches.length (firstCall url options helper) = .ok r ∧
        r.status = 403 ∧ stringTruthy r.csrfHeader = true
    · obtain ⟨r, hfirst, hstatus, htoken⟩ := hre
      have heq := makeAuthenticatedRequest_of_refresh fetch url options helper r hfirst
        hstatus htoken
      obtain ⟨token, htok⟩ : ∃ token, r.csrfHeader = some token := by
        rcases hc : r.csrfHeader with _ | token
        · rw [hc] at htoken
          simp [stringTruthy] at htoken
        · exact ⟨token, rfl⟩
      refine ⟨[firstCall url options helper,
        { firstCall url options helper with
          headers := setHeader "X-CSRF-TOKEN" (r.csrfHeader.getD "")
            (firstCall url options helper).headers }], ?_, by simp, by simp, ?_, ?_, ?_, ?_⟩
      · rw [heq]
      · intro c hc
        simp only [List.mem_cons, List.mem_singleton, List.not_mem_nil, or_false] at hc
        rcases hc with h | h <;> rw [h] <;> rfl
      · exact ⟨fun _ => ⟨r, hfirst, hstatus, htoken⟩, fun _ => rfl⟩
      · intro r1 hfirst1 _ _
        have hr : r1 = r := by
          rw [hfirst] at hfirst1
          exact (Except.ok.inj hfirst1).symm
        subst hr
        refine ⟨token, _, htok, rfl, ?_, ?_, ?_, ?_⟩
        · rw [htok]
          exact setHeader_mem _ _ _
        · intro v hv
          rw [htok] at hv
          exact setHeader_unique _ _ _ _ hv
        · rw [heq, htok]
        · rw [heq]
      · intro h
        simp at h
    · have hno : ∀ r, fetch helper.fetches.length (firstCall url options helper) = .ok r →
          ¬ (r.status = 403 ∧ stringTruthy r.csrfHeader = true) :=
        fun r hr hc => hre ⟨r, hr, hc.1, hc.2⟩
      have heq := makeAuthenticatedRequest_of_no_refresh fetch url options helper hno
      refine ⟨[firstCall url options helper], ?_, by simp, by simp, ?_, ?_, ?_, ?_⟩
      · rw [heq]
      · intro c hc
        have : c = firstCall url options helper := by simpa using hc
        rw [this]
        rfl
      · exact ⟨fun h => by simp at h, fun h => absurd h hre⟩
      · intro r hr hs ht
        exact absurd ⟨hs, ht⟩ (hno r hr)
      · intro _
        rw [heq]
        exact ⟨rfl, rfl⟩
  · intro response hresp
    have h := handleAPIRequest_fst fetch url helper
    rw [hresp] at h
    refine ⟨?_, ?_, ?_⟩
    · intro data hok hbody
      rw [h]
      simp [hok, hbody]
    · intro e hok hbody
      rw [h]
      simp [hok, hbody]
    · intro hok
      rw [h]
      simp [hok]

/-- Counterexample to C12 as stated.  First, a 403 with a refreshed token is
retried, the retry is ok (status 200) and its body is not JSON:
`handleAPIRequest` reports `{success:false, error}`, not success.  Second, a 403
that carries an `x-csrf-token` header with an empty value is not retried. -/
theorem ok_retry_with_unparseable_body_fails :
    (makeAuthenticatedRequest transportRefreshBadBody "u" noOptions freshHelper).2.fetches.length
      = 2 ∧
    (makeAuthenticatedRequest transportRefreshBadBody "u" noOptions freshHelper).1 =
      .ok badBodyResponse ∧
    badBodyResponse.ok = true ∧
    (handleAPIRequest transportRefreshBadBody "u" freshHelper).1 =
      .ok (.failure "Unexpected token < in JSON at position 0") ∧
    transportEmptyToken 0 (firstCall "u" noOptions freshHelper) = .ok emptyTokenResponse ∧
    emptyTokenResponse.status = 403 ∧
    emptyTokenResponse.csrfHeader = some "" ∧
    (makeAuthenticatedRequest transportEmptyToken "u" noOptions freshHelper).2.fetches.length
      = 1 := by
  decide

/-- C15: whatever the transport does (`fetch` throws, the status is not a success,
the body does not parse as JSON), `handleAPIRequest` returns, without throwing, a
value of the form `{success:true, data}` or `{success:false, error}`, and the three
failures give the second form; and `makeAPIRequest` in the background returns,
without throwing, such a value too: the content script's answer when the message
is delivered and `{success:false, error}` when `sendMessage` rejects. -/
theorem gateways_return_result_objects {α : Type} (fetch : Transport α) (url : String)
    (helper : ApiHelper)
    (send : Nat → Nat → String → Except String (ApiResponse α)) (tabId : Nat)
    (st : Tracker) (delivery : Except String Unit) :
    (∃ response, (handleAPIRequest fetch url helper).1 = .ok response ∧
      ((∃ data, response = .success data) ∨ ∃ error, response = .failure error)) ∧
    (∀ e, (makeAuthenticatedRequest fetch url noOptions helper).1 = .error e →
      (handleAPIRequest fetch url helper).1 = .ok (.failure e)) ∧
    (∀ response, (makeAuthenticatedRequest fetch url noOptions helper).1 = .ok response →
      response.ok = false → ∃ error, (handleAPIRequest fetch url helper).1 = .ok (.failure error)) ∧
    (∀ response e, (makeAuthenticatedRequest fetch url noOptions helper).1 = .ok response →
      response.body = .error e →
      ∃ error, (handleAPIRequest fetch url helper).1 = .ok (.failure error)) ∧
    (∃ response, (makeAPIRequest send tabId url st).1 = .ok response ∧
      ((∃ data, response = .success data) ∨ ∃ error, response = .failure error)) ∧
    (∀ e, send st.requests.length tabId url = .error e →
      (makeAPIRequest send tabId url st).1 = .ok (.failure e)) ∧
    (∃ response,
      (makeAPIRequest (relay delivery fetch helper) tabId url st).1 = .ok response ∧
      ((∃ data, response = .success data) ∨ ∃ error, response = .failure error)) := by
  have hform : ∀ response : ApiResponse α,
      (∃ data, response = .success data) ∨ ∃ error, response = .failure error := by
    intro response
    cases response with
    | success data => exact Or.inl ⟨data, rfl⟩
    | failure error => exact Or.inr ⟨error, rfl⟩
  have h := handleAPIRequest_fst fetch url helper
  refine ⟨⟨_, h, hform _⟩, ?_, ?_, ?_, ?_, ?_, ?_⟩
  · intro e he
    rw [h, he]
  · intro response hresp hok
    rw [h, hresp]
    exact ⟨"HTTP " ++ toString response.status ++ ": " ++ response.statusText,
      by simp [hok]⟩
  · intro response e hresp hbody
    rw [h, hresp]
    by_cases hok : response.ok = true
    · exact ⟨e, by simp [hok, hbody]⟩
    · exact ⟨"HTTP " ++ toString response.status ++ ": " ++ response.statusText,
        by simp [hok]⟩
  · exact ⟨_, WealthTracker.makeAPIRequest_fst send tabId url st, hform _⟩
  · intro e he
    rw [WealthTracker.makeAPIRequest_fst, he]
  · exact ⟨_, WealthTracker.makeAPIRequest_fst _ tabId url st, hform _⟩

end Content

namespace WealthTracker

/-! ## Exact results of the scheduler -/

theorem analyzeMemberWealth_fst (env : Env) (tabId : Nat) (member : Member) (st : Tracker) :
    (analyzeMemberWealth env tabId member st).1 =
      .ok (valuationOf env tabId member st.requests.length) := by
  unfold analyzeMemberWealth analyzeMemberWealthBody valuationOf
  rcases hu : member.user with _ | user
  · rfl
  · dsimp only
    rw [makeAPIRequest_eq]
    rcases env.inventory st.requests.length tabId (inventoryUrl user.userId) with
      msg | (body | err)
    · rfl
    · dsimp only
      rw [tallyInventory_eq]
      dsimp only
      by_cases h : 10000 < qualifyingSum (body.data.getD []) <;> simp [h]
    · rfl

theorem inventoryRequests_cons (tabId : Nat) (member : Member) (rest : List Member) :
    inventoryRequests tabId (member :: rest) =
      inventoryRequests tabId [member] ++ inventoryRequests tabId rest := by
  unfold inventoryRequests
  rcases hu : member.user with _ | user <;> simp [hu]

theorem inventoryRequests_append (tabId : Nat) (a b : List Member) :
    inventoryRequests tabId (a ++ b) =
      inventoryRequests tabId a ++ inventoryRequests tabId b := by
  unfold inventoryRequests
  rw [List.filterMap_append]

theorem analyzeAll_fst (env : Env) (tabId : Nat) (batch : List Member) (st : Tracker) :
    (analyzeAll env tabId batch st).1 =
      .ok (valuations env tabId batch st.requests.length) := by
  induction batch generalizing st with
  | nil => rfl
  | cons member rest ih =>
    have h1 := analyzeMemberWealth_fst env tabId member st
    have h2 := analyzeMemberWealth_snd env tabId member st
    rcases hm : analyzeMemberWealth env tabId member st with ⟨res, st1⟩
    rw [hm] at h1 h2
    dsimp only at h1 h2
    subst h1
    have h3 := ih st1
    rcases hrest : analyzeAll env tabId rest st1 with ⟨res2, st2⟩
    rw [hrest] at h3
    dsimp only at h3
    subst h3
    have hlen : st1.requests.length =
        st.requests.length + (inventoryRequests tabId [member]).length := by
      rw [h2]
      rcases hu : member.user with _ | user <;> simp [inventoryRequests, hu]
    simp only [analyzeAll, hm, hrest, valuations, hlen]

theorem processMemberBatch_eq (env : Env) (tabId : Nat) (batch : List Member)
    (st : Tracker) :
    processMemberBatch env tabId batch st =
      (.ok (valued env tabId batch st.requests.length),
        { st with requests := st.requests ++ inventoryRequests tabId batch }) := by
  have h1 := analyzeAll_fst env tabId batch st
  have h2 := analyzeAll_snd env tabId batch st
  unfold processMemberBatch valued
  rcases hrest : analyzeAll env tabId batch st with ⟨res, st1⟩
  rw [hrest] at h1 h2
  dsimp only at h1 h2
  subst h1
  subst h2
  rfl

theorem valuations_append (env : Env) (tabId : Nat) (a b : List Member) (seq : Nat) :
    valuations env tabId (a ++ b) seq =
      valuations env tabId a seq ++
        valuations env tabId b (seq + (inventoryRequests tabId a).length) := by
  induction a generalizing seq with
  | nil => simp [valuations, inventoryRequests]
  | cons member rest ih =>
    rw [List.cons_append, valuations, valuations, ih, inventoryRequests_cons tabId member rest,
      List.length_append, Nat.add_assoc]
    rfl

theorem valued_append (env : Env) (tabId : Nat) (a b : List Member) (seq : Nat) :
    valued env tabId (a ++ b) seq =
      valued env tabId a seq ++
        valued env tabId b (seq + (inventoryRequests tabId a).length) := by
  unfold valued
  rw [valuations_append, List.filterMap_append]

theorem valuations_length (env : Env) (tabId : Nat) (members : List Member) (seq : Nat) :
    (valuations env tabId members seq).length = members.length := by
  induction members generalizing seq with
  | nil => rfl
  | cons member rest ih => simp [valuations, ih]

theorem valuationOf_above_floor (env : Env) (tabId : Nat) (member : Member) (seq : Nat)
    (r : WealthRecord) (h : valuationOf env tabId member seq = some r) :
    10000 < r.totalValue := by
  unfold valuationOf at h
  rcases hu : member.user with _ | user
  · rw [hu] at h
    simp at h
  · rw [hu] at h
    dsimp only at h
    rcases hi : env.inventory seq tabId (inventoryUrl user.userId) with msg | (body | err)
    · rw [hi] at h
      simp at h
    · rw [hi] at h
      dsimp only at h
      by_cases hgt : 10000 < qualifyingSum (body.data.getD [])
      · rw [if_pos hgt] at h
        have : r = _ := (Option.some.inj h).symm
        rw [this]
        exact hgt
      · rw [if_neg hgt] at h
        simp at h
    · rw [hi] at h
      simp at h

theorem valuations_above_floor (env : Env) (tabId : Nat) (members : List Member) (seq : Nat)
    (r : WealthRecord) (h : some r ∈ valuations env tabId members seq) :
    10000 < r.totalValue := by
  induction members generalizing seq with
  | nil => simp [valuations] at h
  | cons member rest ih =>
    rw [valuations] at h
    rcases List.mem_cons.mp h with h1 | h1
    · exact valuationOf_above_floor env tabId member seq r h1.symm
    · exact ih _ h1

theorem valued_above_floor (env : Env) (tabId : Nat) (members : List Member) (seq : Nat)
    (r : WealthRecord) (h : r ∈ valued env tabId members seq) : 10000 < r.totalValue := by
  unfold valued at h
  have : some r ∈ valuations env tabId members seq := by simpa using h
  exact valuations_above_floor env tabId members seq r this

theorem filter_positive_valued (env : Env) (tabId : Nat) (members : List Member) (seq : Nat) :
    (valued env tabId members seq).filter (fun member => member.totalValue > 0) =
      valued env tabId members seq := by
  rw [List.filter_eq_self]
  intro r hr
  have := valued_above_floor env tabId members seq r hr
  simp
  omega

theorem combineResults_append (acc : List WealthRecord) (brs : List (List WealthRecord)) :
    combineResults acc brs = acc ++ combineResults [] brs := by
  induction brs generalizing acc with
  | nil => simp [combineResults]
  | cons b brs ihb =>
    unfold combineResults at ihb ⊢
    rw [List.foldl_cons, List.foldl_cons, ihb (acc ++ _), ihb ([] ++ _)]
    simp

theorem combineResults_cons (acc b : List WealthRecord) (brs : List (List WealthRecord)) :
    combineResults acc (b :: brs) =
      acc ++ b.filter (fun member => member.totalValue > 0) ++ combineResults [] brs := by
  have h : combineResults acc (b :: brs) =
      combineResults (acc ++ b.filter (fun member => member.totalValue > 0)) brs := by
    unfold combineResults
    rw [List.foldl_cons]
  rw [h, combineResults_append]

/-- The groups of one outer iteration, submitted in order: the results are the
valued members of each group and the requests those of all the groups. -/
theorem submitAll_eq (env : Env) (tabId : Nat) (groups : List (List Member)) (st : Tracker) :
    ∃ results, submitAll env tabId groups st =
        (.ok results,
          { st with requests := st.requests ++ inventoryRequests tabId groups.flatten }) ∧
      combineResults [] results = valued env tabId groups.flatten st.requests.length ∧
      results.length = groups.length := by
  induction groups generalizing st with
  | nil => exact ⟨[], by simp [submitAll, inventoryRequests], by simp [combineResults, valued,
      valuations], rfl⟩
  | cons group rest ih =>
    obtain ⟨results, heq, hcomb, hlen⟩ := ih
      { st with requests := st.requests ++ inventoryRequests tabId group }
    simp only [List.length_append] at hcomb
    refine ⟨valued env tabId group st.requests.length :: results, ?_, ?_, ?_⟩
    · simp only [submitAll, processMemberBatch_eq, heq, List.flatten_cons,
        inventoryRequests_append, List.append_assoc]
    · rw [List.flatten_cons, valued_append, ← hcomb, combineResults_cons,
        filter_positive_valued, List.nil_append]
    · simp [hlen]

theorem runBatches_eq_submitAll (env : Env) (tabId : Nat) (members : List Member) (i : Nat)
    (js : List Nat) (st : Tracker) :
    runBatches env tabId members i js st =
      submitAll env tabId (iterationGroups members i js) st := by
  induction js generalizing st with
  | nil => rfl
  | cons j js ih =>
    by_cases hlt : i + j * batchSize < members.length
    · have hg : iterationGroups members i (j :: js) =
          slice members (i + j * batchSize)
            (min (i + j * batchSize + batchSize) members.length) ::
            iterationGroups members i js := by
        simp [iterationGroups, batchAt, hlt]
      rw [hg]
      simp only [runBatches, hlt, if_true, submitAll, ih]
    · have hg : iterationGroups members i (j :: js) = iterationGroups members i js := by
        simp [iterationGroups, batchAt, hlt]
      rw [hg, ← ih]
      simp only [runBatches, hlt, if_false]

/-- The outer loop is the run of its schedule. -/
theorem processLoop_eq_runIterations (env : Env) (tabId : Nat) (members : List Member)
    (fuel i : Nat) (acc : List WealthRecord) (st : Tracker)
    (hfuel : members.length ≤ i + fuel * (batchSize * concurrentBatches)) :
    processLoop env tabId members fuel i acc st =
      runIterations env tabId members.length (schedule members fuel i) acc st := by
  induction fuel generalizing i acc st with
  | zero =>
    have hge : ¬ i < members.length := by omega
    simp [processLoop, schedule, runIterations, hge]
  | succ fuel ih =>
    by_cases hlt : i < members.length
    · have hfuel2 : members.length ≤
          i + batchSize * concurrentBatches + fuel * (batchSize * concurrentBatches) := by
        have := hfuel
        rw [Nat.succ_mul] at this
        omega
      simp only [processLoop, schedule, hlt, if_true, runIterations, runBatches_eq_submitAll]
      rcases submitAll env tabId (iterationGroups members i (List.range concurrentBatches)) st
        with ⟨res, st1⟩
      rcases res with e | brs
      · rfl
      · exact ih _ _ _ hfuel2
    · simp [processLoop, schedule, runIterations, hlt]

end WealthTracker

namespace WealthTracker

/-! ## The groups of the scheduler -/

theorem slice_min {α : Type} (xs : List α) (a b : Nat) :
    slice xs a (min b xs.length) = slice xs a b := by
  unfold slice
  rw [List.take_eq_take, List.length_drop]
  omega

theorem slice_append {α : Type} (xs : List α) (a b c : Nat) (hab : a ≤ b) (hbc : b ≤ c) :
    slice xs a b ++ slice xs b c = slice xs a c := by
  unfold slice
  have h1 : c - a = (b - a) + (c - b) := by omega
  have h2 : List.drop b xs = List.drop (b - a) (List.drop a xs) := by
    rw [List.drop_drop]
    congr 1
    omega
  rw [h1, List.take_add, h2]

theorem drop_eq_slice_append {α : Type} (xs : List α) (a b : Nat) (hab : a ≤ b) :
    xs.drop a = slice xs a b ++ xs.drop b := by
  unfold slice
  have h2 : List.drop b xs = List.drop (b - a) (List.drop a xs) := by
    rw [List.drop_drop]
    congr 1
    omega
  rw [h2, List.take_append_drop]

theorem batchAt_eq (members : List Member) (k0 j : Nat) :
    batchAt members (batchSize * k0) j =
      if k0 + j < (members.length + (batchSize - 1)) / batchSize then
        some (slice members (batchSize * (k0 + j)) (batchSize * (k0 + j) + batchSize))
      else none := by
  unfold batchAt
  rw [slice_min]
  have hidx : batchSize * k0 + j * batchSize = batchSize * (k0 + j) := by
    simp only [batchSize]
    omega
  rw [hidx]
  have hcond : batchSize * (k0 + j) < members.length ↔
      k0 + j < (members.length + (batchSize - 1)) / batchSize := by
    simp only [batchSize]
    omega
  by_cases h : batchSize * (k0 + j) < members.length
  · rw [if_pos h, if_pos (hcond.mp h)]
  · rw [if_neg h, if_neg (fun h2 => h (hcond.mpr h2))]

theorem filterMap_range_lt {β : Type} (f : Nat → β) (k0 bound m : Nat) :
    (List.range m).filterMap (fun j => if k0 + j < bound then some (f (k0 + j)) else none) =
      (List.range' k0 (min m (bound - k0))).map f := by
  induction m with
  | zero => simp
  | succ m ih =>
    rw [List.range_succ, List.filterMap_append, ih]
    by_cases h : k0 + m < bound
    · have h1 : min m (bound - k0) = m := by omega
      have h2 : min (m + 1) (bound - k0) = m + 1 := by omega
      rw [h1, h2, List.range'_concat]
      simp [h]
    · have h1 : min (m + 1) (bound - k0) = min m (bound - k0) := by omega
      rw [h1]
      simp [h]

/-- The groups formed by the outer iteration that starts at member `50 * k0`: the
slices number `k0`, `k0 + 1`, ... up to five of them, as far as slices exist. -/
theorem iterationGroups_eq (members : List Member) (k0 : Nat) :
    iterationGroups members (batchSize * k0) (List.range concurrentBatches) =
      (List.range' k0
        (min concurrentBatches ((members.length + (batchSize - 1)) / batchSize - k0))).map
        (fun k => slice members (batchSize * k) (batchSize * k + batchSize)) := by
  unfold iterationGroups
  have hfun : batchAt members (batchSize * k0) =
      fun j => if k0 + j < (members.length + (batchSize - 1)) / batchSize then
        some ((fun k => slice members (batchSize * k) (batchSize * k + batchSize)) (k0 + j))
      else none := by
    funext j
    exact batchAt_eq members k0 j
  rw [hfun]
  exact filterMap_range_lt
    (fun k => slice members (batchSize * k) (batchSize * k + batchSize)) k0 _ concurrentBatches

theorem flatten_slices {α : Type} (xs : List α) (size k0 m : Nat) :
    ((List.range' k0 m).map (fun k => slice xs (size * k) (size * k + size))).flatten =
      slice xs (size * k0) (size * (k0 + m)) := by
  induction m generalizing k0 with
  | zero => simp [slice]
  | succ m ih =>
    rw [List.range'_succ, List.map_cons, List.flatten_cons, ih (k0 + 1)]
    have h1 : size * k0 + size = size * (k0 + 1) := by rw [Nat.mul_add, Nat.mul_one]
    have h2 : k0 + 1 + m = k0 + (m + 1) := by omega
    rw [h1, h2]
    exact slice_append xs _ _ _ (Nat.mul_le_mul_left _ (by omega))
      (Nat.mul_le_mul_left _ (by omega))

theorem specGroups_eq (members : List Member) :
    specGroups members =
      (List.range' 0 ((members.length + (batchSize - 1)) / batchSize)).map
        (fun k => slice members (batchSize * k) (batchSize * k + batchSize)) := by
  unfold specGroups
  rw [List.range_eq_range']
  apply List.map_congr_left
  intro k _
  exact slice_min members _ _

theorem slice_all {α : Type} (xs : List α) (b : Nat) (h : xs.length ≤ b) :
    slice xs 0 b = xs := by
  unfold slice
  simp [List.take_of_length_le h]

/-- The groups of all outer iterations, in order, from the iteration that starts at
member `50 * k0` on, are the slices number `k0`, `k0 + 1`, ... -/
theorem schedule_groups (members : List Member) (fuel k0 : Nat)
    (hfuel : members.length ≤ batchSize * k0 + fuel * (batchSize * concurrentBatches)) :
    ((schedule members fuel (batchSize * k0)).map (·.2)).flatten =
      (List.range' k0 ((members.length + (batchSize - 1)) / batchSize - k0)).map
        (fun k => slice members (batchSize * k) (batchSize * k + batchSize)) := by
  induction fuel generalizing k0 with
  | zero =>
    have hz : (members.length + (batchSize - 1)) / batchSize - k0 = 0 := by
      simp only [batchSize] at hfuel ⊢
      omega
    simp [schedule, hz]
  | succ fuel ih =>
    by_cases hlt : batchSize * k0 < members.length
    · have hnext : batchSize * k0 + batchSize * concurrentBatches =
          batchSize * (k0 + concurrentBatches) := by rw [Nat.mul_add]
      have hfuel2 : members.length ≤
          batchSize * (k0 + concurrentBatches) + fuel * (batchSize * concurrentBatches) := by
        have := hfuel
        rw [Nat.succ_mul] at this
        rw [← hnext]
        omega
      have hstep : schedule members (fuel + 1) (batchSize * k0) =
          (batchSize * k0, iterationGroups members (batchSize * k0)
            (List.range concurrentBatches)) ::
            schedule members fuel (batchSize * (k0 + concurrentBatches)) := by
        rw [schedule, if_pos hlt, hnext]
      rw [hstep, List.map_cons, List.flatten_cons, ih _ hfuel2, iterationGroups_eq,
        ← List.map_append]
      congr 1
      by_cases hfull : k0 + concurrentBatches ≤ (members.length + (batchSize - 1)) / batchSize
      · have h1 : min concurrentBatches
            ((members.length + (batchSize - 1)) / batchSize - k0) = concurrentBatches := by
          omega
        have h2 : (members.length + (batchSize - 1)) / batchSize - k0 =
            ((members.length + (batchSize - 1)) / batchSize - (k0 + concurrentBatches)) +
              concurrentBatches := by
          omega
        rw [h1]
        conv_rhs => rw [h2]
        rw [List.range'_append_1]
      · have h1 : min concurrentBatches
            ((members.length + (batchSize - 1)) / batchSize - k0) =
            (members.length + (batchSize - 1)) / batchSize - k0 := by omega
        have h2 : (members.length + (batchSize - 1)) / batchSize - (k0 + concurrentBatches) =
            0 := by omega
        rw [h1, h2]
        simp
    · have hz : (members.length + (batchSize - 1)) / batchSize - k0 = 0 := by
        simp only [batchSize] at hlt ⊢
        omega
      simp [schedule, hlt, hz]

end WealthTracker

namespace WealthTracker

theorem chunk_eq (members : List Member) (k0 : Nat) :
    slice members (batchSize * k0)
        (batchSize * (k0 + min concurrentBatches
          ((members.length + (batchSize - 1)) / batchSize - k0))) =
      slice members (batchSize * k0) (batchSize * (k0 + concurrentBatches)) := by
  rw [← slice_min members _ (batchSize * (k0 + min concurrentBatches _)),
    ← slice_min members _ (batchSize * (k0 + concurrentBatches))]
  congr 1
  simp only [batchSize, concurrentBatches]
  omega

theorem processLoop_fst (env : Env) (tabId : Nat) (members : List Member)
    (fuel k0 : Nat) (acc : List WealthRecord) (st : Tracker)
    (hfuel : members.length ≤ batchSize * k0 + fuel * (batchSize * concurrentBatches)) :
    (processLoop env tabId members fuel (batchSize * k0) acc st).1 =
      .ok (acc ++ valued env tabId (members.drop (batchSize * k0)) st.requests.length) := by
  induction fuel generalizing k0 acc st with
  | zero =>
    have hge : ¬ batchSize * k0 < members.length := by omega
    have hnil : members.drop (batchSize * k0) = [] := List.drop_eq_nil_of_le (by omega)
    simp [processLoop, hge, hnil, valued, valuations]
  | succ fuel ih =>
    by_cases hlt : batchSize * k0 < members.length
    · have hnext : batchSize * k0 + batchSize * concurrentBatches =
          batchSize * (k0 + concurrentBatches) := by rw [Nat.mul_add]
      have hfuel2 : members.length ≤
          batchSize * (k0 + concurrentBatches) + fuel * (batchSize * concurrentBatches) := by
        have := hfuel
        rw [Nat.succ_mul] at this
        rw [← hnext]
        omega
      obtain ⟨results, heq, hcomb, _⟩ := submitAll_eq env tabId
        (iterationGroups members (batchSize * k0) (List.range concurrentBatches)) st
      have hflat : (iterationGroups members (batchSize * k0)
          (List.range concurrentBatches)).flatten =
          slice members (batchSize * k0) (batchSize * (k0 + concurrentBatches)) := by
        rw [iterationGroups_eq, flatten_slices, chunk_eq]
      rw [hflat] at heq hcomb
      have hstep : processLoop env tabId members (fuel + 1) (batchSize * k0) acc st =
          processLoop env tabId members fuel (batchSize * (k0 + concurrentBatches))
            (combineResults acc results)
            (setProcessed
              (min (batchSize * k0 + batchSize * concurrentBatches) members.length)
              { st with
                requests := st.requests ++ inventoryRequests tabId (slice members (batchSize * k0) (batchSize * (k0 + concurrentBatches))) }) := by
        simp only [processLoop, hlt, if_true, runBatches_eq_submitAll, heq, hnext]
      rw [hstep, ih _ _ _ hfuel2, combineResults_append, hcomb,
        drop_eq_slice_append members (batchSize * k0) (batchSize * (k0 + concurrentBatches))
          (Nat.mul_le_mul_left _ (by omega)),
        valued_append, List.append_assoc]
      simp [WealthTracker.setProcessed]
    · have hnil : members.drop (batchSize * k0) = [] := List.drop_eq_nil_of_le (by omega)
      simp [processLoop, hlt, hnil, valued, valuations]

/-- The scheduler returns the stable descending sort of the valued members. -/
theorem processMembersOptimized_fst (env : Env) (tabId : Nat) (members : List Member)
    (st : Tracker) :
    (processMembersOptimized env tabId members st).1 =
      .ok (sortByWealth (valued env tabId members st.requests.length)) := by
  have hfuel : members.length ≤
      batchSize * 0 + members.length * (batchSize * concurrentBatches) := by
    simp only [batchSize, concurrentBatches]
    omega
  have h := processLoop_fst env tabId members members.length 0 [] st hfuel
  simp only [Nat.mul_zero, List.drop_zero, List.nil_append] at h
  unfold processMembersOptimized
  rcases hl : processLoop env tabId members members.length 0 [] st with ⟨r, st1⟩
  rw [hl] at h
  dsimp only at h
  subst h
  rfl

theorem mem_valued_iff (env : Env) (tabId : Nat) (members : List Member) (seq : Nat)
    (r : WealthRecord) :
    r ∈ valued env tabId members seq ↔ some r ∈ valuations env tabId members seq := by
  unfold valued
  simp

theorem valued_cons_split (env : Env) (tabId : Nat) (before : List Member) (member : Member)
    (after : List Member) (seq : Nat) :
    valued env tabId (before ++ member :: after) seq =
      valued env tabId before seq ++
        (valuationOf env tabId member (seq + (inventoryRequests tabId before).length)).toList ++
        valued env tabId after
          (seq + (inventoryRequests tabId before).length +
            (inventoryRequests tabId [member]).length) := by
  rw [valued_append]
  have hcons : member :: after = [member] ++ after := rfl
  rw [hcons, valued_append, List.append_assoc]
  congr 2

/-- C13: for every member sequence and every outcome of the inventory requests
(a record, a failing response, a rejected request, a member lacking its user
field), `processMemberBatch` and `processMembersOptimized` return without throwing;
the batch returns, in member order, exactly the records of the members whose
fetch succeeded and whose value cleared the floor, and the scheduler returns the
stable descending sort of that list, so a permutation of it; each member
contributes its own valuation and nothing else, so the entries of the members
before and after it are the same whatever its own outcome is. -/
theorem batch_returns_exactly_the_valued_members (env : Env) (tabId : Nat)
    (members : List Member) (st : Tracker) :
    (processMemberBatch env tabId members st).1 =
      .ok (valued env tabId members st.requests.length) ∧
    (processMembersOptimized env tabId members st).1 =
      .ok (sortByWealth (valued env tabId members st.requests.length)) ∧
    (sortByWealth (valued env tabId members st.requests.length)).Perm
      (valued env tabId members st.requests.length) ∧
    (valuations env tabId members st.requests.length).length = members.length ∧
    (∀ r, r ∈ valued env tabId members st.requests.length ↔
      some r ∈ valuations env tabId members st.requests.length) ∧
    (∀ before member after, members = before ++ member :: after →
      valued env tabId members st.requests.length =
        valued env tabId before st.requests.length ++
          (valuationOf env tabId member
            (st.requests.length + (inventoryRequests tabId before).length)).toList ++
          valued env tabId after
            (st.requests.length + (inventoryRequests tabId before).length +
              (inventoryRequests tabId [member]).length)) := by
  refine ⟨?_, processMembersOptimized_fst env tabId members st,
    List.perm_insertionSort _ _, valuations_length env tabId members _,
    fun r => mem_valued_iff env tabId members _ r, ?_⟩
  · rw [processMemberBatch_eq]
  · intro before member after hsplit
    rw [hsplit]
    exact valued_cons_split env tabId before member after _

end WealthTracker

namespace WealthTracker

/-! ## The partition into groups -/

theorem length_slice {α : Type} (xs : List α) (a b : Nat) :
    (slice xs a b).length = min (b - a) (xs.length - a) := by
  unfold slice
  rw [List.length_take, List.length_drop]

theorem batchAt_some (members : List Member) (i j : Nat) (g : List Member)
    (h : batchAt members i j = some g) : g ≠ [] ∧ g.length ≤ batchSize := by
  unfold batchAt at h
  by_cases hlt : i + j * batchSize < members.length
  · rw [if_pos hlt] at h
    have hg : g = _ := (Option.some.inj h).symm
    have hlen : g.length =
        min (min (i + j * batchSize + batchSize) members.length - (i + j * batchSize))
          (members.length - (i + j * batchSize)) := by
      rw [hg, length_slice]
    simp only [batchSize] at hlt hlen ⊢
    constructor
    · intro hnil
      rw [hnil] at hlen
      simp only [List.length_nil] at hlen
      omega
    · omega
  · rw [if_neg hlt] at h
    simp at h

theorem iterationGroups_bounds (members : List Member) (i : Nat) (js : List Nat) :
    (iterationGroups members i js).length ≤ js.length ∧
      ∀ g ∈ iterationGroups members i js, g ≠ [] ∧ g.length ≤ batchSize := by
  unfold iterationGroups
  refine ⟨List.length_filterMap_le _ _, ?_⟩
  intro g hg
  obtain ⟨j, _, hj⟩ := List.mem_filterMap.mp hg
  exact batchAt_some members i j g hj

theorem length_flatten_le {α : Type} (gs : List (List α)) (bound : Nat)
    (h : ∀ g ∈ gs, g.length ≤ bound) : gs.flatten.length ≤ gs.length * bound := by
  induction gs with
  | nil => simp
  | cons g rest ih =>
    have h1 := h g (List.mem_cons_self _ _)
    have h2 := ih (fun g hg => h g (List.mem_cons_of_mem _ hg))
    rw [List.flatten_cons, List.length_append, List.length_cons, Nat.succ_mul]
    omega

theorem mem_schedule (members : List Member) (fuel i : Nat)
    (it : Nat × List (List Member)) (h : it ∈ schedule members fuel i) :
    it.1 < members.length ∧
      it.2 = iterationGroups members it.1 (List.range concurrentBatches) := by
  induction fuel generalizing i with
  | zero => simp [schedule] at h
  | succ fuel ih =>
    by_cases hlt : i < members.length
    · rw [schedule, if_pos hlt] at h
      rcases List.mem_cons.mp h with h1 | h1
      · rw [h1]
        exact ⟨hlt, rfl⟩
      · exact ih _ h1
    · rw [schedule, if_neg hlt] at h
      simp at h

theorem specGroups_flatten (members : List Member) : (specGroups members).flatten = members := by
  rw [specGroups_eq, flatten_slices]
  have h : members.length ≤
      batchSize * (0 + (members.length + (batchSize - 1)) / batchSize) := by
    simp only [batchSize]
    omega
  simpa using slice_all members _ h

theorem mem_specGroups (members : List Member) (g : List Member)
    (h : g ∈ specGroups members) : g ≠ [] ∧ g.length ≤ batchSize := by
  unfold specGroups at h
  obtain ⟨k, hk, hg⟩ := List.mem_map.mp h
  have hk2 : k < (members.length + (batchSize - 1)) / batchSize := List.mem_range.mp hk
  have hlen : g.length =
      min (min (batchSize * k + batchSize) members.length - batchSize * k)
        (members.length - batchSize * k) := by
    rw [← hg, length_slice]
  simp only [batchSize] at hk2 hlen ⊢
  constructor
  · intro hnil
    rw [hnil] at hlen
    simp only [List.length_nil] at hlen
    omega
  · omega

/-- C17: `processMembersOptimized` runs its schedule of outer iterations; the groups
of the schedule, in order, are exactly the consecutive slices
`[50k, min(50k+50, n))` for `k = 0 .. ceil(n/50) - 1`; each outer iteration submits,
through `runBatches`, the groups the schedule lists for it, at most 5 of them
holding at most 250 members; each group is non-empty and has at most 50 members;
the groups concatenated are the member sequence, so every member is submitted in
exactly one group; and when every valuation returns a record, the output is a
permutation of those `n` records. -/
theorem groups_are_consecutive_slices (env : Env) (tabId : Nat) (members : List Member)
    (st : Tracker) :
    processLoop env tabId members members.length 0 [] st =
      runIterations env tabId members.length (schedule members members.length 0) [] st ∧
    ((schedule members members.length 0).map (·.2)).flatten = specGroups members ∧
    (∀ it ∈ schedule members members.length 0,
      (∀ s, runBatches env tabId members it.1 (List.range concurrentBatches) s =
        submitAll env tabId it.2 s) ∧
      it.2.length ≤ concurrentBatches ∧
      it.2.flatten.length ≤ batchSize * concurrentBatches) ∧
    (∀ g ∈ specGroups members, g ≠ [] ∧ g.length ≤ batchSize) ∧
    (specGroups members).flatten = members ∧
    (∀ records, valuations env tabId members st.requests.length = records.map some →
      ∃ ranked, (processMembersOptimized env tabId members st).1 = .ok ranked ∧
        ranked.Perm records ∧ ranked.length = members.length) := by
  have hfuel : members.length ≤ 0 + members.length * (batchSize * concurrentBatches) := by
    simp only [batchSize, concurrentBatches]
    omega
  have hfuel0 : members.length ≤
      batchSize * 0 + members.length * (batchSize * concurrentBatches) := by
    simp only [batchSize, concurrentBatches]
    omega
  refine ⟨processLoop_eq_runIterations env tabId members members.length 0 [] st hfuel,
    ?_, ?_, mem_specGroups members, specGroups_flatten members, ?_⟩
  · have h := schedule_groups members members.length 0 hfuel0
    rw [Nat.mul_zero, Nat.sub_zero] at h
    rw [h, specGroups_eq]
  · intro it hit
    obtain ⟨_, hgroups⟩ := mem_schedule members members.length 0 it hit
    obtain ⟨hcount, hsizes⟩ :=
      iterationGroups_bounds members it.1 (List.range concurrentBatches)
    rw [← hgroups] at hcount hsizes
    have hcount5 : it.2.length ≤ concurrentBatches := by simpa using hcount
    refine ⟨?_, hcount5, ?_⟩
    · intro s
      rw [runBatches_eq_submitAll, hgroups]
    · have := length_flatten_le it.2 batchSize (fun g hg => (hsizes g hg).2)
      calc it.2.flatten.length ≤ it.2.length * batchSize := this
        _ ≤ concurrentBatches * batchSize := Nat.mul_le_mul_right _ hcount5
        _ = batchSize * concurrentBatches := Nat.mul_comm _ _
  · intro records hrecords
    have hvalued : valued env tabId members st.requests.length = records := by
      unfold valued
      rw [hrecords]
      simp
    refine ⟨sortByWealth records, ?_, List.perm_insertionSort _ _, ?_⟩
    · rw [processMembersOptimized_fst, hvalued]
    · have h1 := valuations_length env tabId members st.requests.length
      rw [hrecords, List.length_map] at h1
      have h2 : (sortByWealth records).length = records.length :=
        (List.perm_insertionSort _ records).length_eq
      rw [h2, h1]

set_option maxRecDepth 100000

/-- Scenario B for C17: 120 members, each holding one item worth 15000, are split
into the groups of 50, 50 and 20 members in one outer iteration, and the output has
120 entries, one per member, each with `totalValue = 15000`. -/
theorem scenario_b_120_members :
    (schedule ((List.range 120).map sampleMember) 120 0).map
        (fun it => (it.1, it.2.map List.length)) = [(0, [50, 50, 20])] ∧
    (processMembersOptimized envScenarioB 1 ((List.range 120).map sampleMember)
        idleTracker).1 = .ok ((List.range 120).map scenarioRecord) ∧
    ((List.range 120).map scenarioRecord).length = 120 ∧
    ((List.range 120).map scenarioRecord).all (fun r => r.totalValue = 15000) = true ∧
    ∃ ranked, (processMembersOptimized envScenarioB 1 ((List.range 120).map sampleMember)
        idleTracker).1 = .ok ranked ∧
      ranked.Perm ((List.range 120).map scenarioRecord) ∧
      ranked.length = ((List.range 120).map sampleMember).length :=
  ⟨by decide!, by decide!, by decide!, by decide!,
    (groups_are_consecutive_slices envScenarioB 1 ((List.range 120).map sampleMember)
      idleTracker).2.2.2.2.2 ((List.range 120).map scenarioRecord) (by decide!)⟩

end WealthTracker

namespace WealthTracker

/-! ## The enumeration when every listing request succeeds -/

theorem append_page (allMembers : List Member) (data : ListingData) :
    (match data.data with
      | some page => if page.length > 0 then allMembers ++ page else allMembers
      | none => allMembers) = allMembers ++ data.data.getD [] := by
  rcases data.data with _ | page
  · simp
  · by_cases hp : page.length > 0
    · simp [hp]
    · have : page = [] := List.length_eq_zero.mp (by omega)
      simp [this]

theorem membersLoop_pages (env : Env) (tabId : Nat) (communityId : String) (base : Nat)
    (hall : ∀ j, j < maxPages →
      ∃ data, pageOutcome env tabId communityId base j = .ok (.success data))
    (fuel p : Nat) (acc : List Member) (st : Tracker)
    (hsum : p + fuel = maxPages) (hfuel : 1 ≤ fuel) (hlen : st.requests.length = base + p) :
    ∃ k, p < k ∧ k ≤ maxPages ∧
      (∀ j, p ≤ j → j + 1 < k → pageContinues env tabId communityId base j = true) ∧
      (k < maxPages → pageContinues env tabId communityId base (k - 1) = false) ∧
      (membersLoop env tabId communityId fuel acc (pageCursor env tabId communityId base p)
          p st).1 =
        .ok (acc ++
          ((List.range' p (k - p)).map (pageData env tabId communityId base)).flatten) ∧
      (membersLoop env tabId communityId fuel acc (pageCursor env tabId communityId base p)
          p st).2.requests =
        st.requests ++ (List.range' p (k - p)).map (pageRequest env tabId communityId base) := by
  induction fuel generalizing p acc st with
  | zero => omega
  | succ fuel ih =>
    obtain ⟨data, hdata⟩ := hall p (by omega)
    have hresp : env.listing st.requests.length tabId
        (listingUrl communityId (pageCursor env tabId communityId base p)) =
        .ok (.success data) := by
      rw [hlen]
      exact hdata
    have hpd : pageData env tabId communityId base p = data.data.getD [] := by
      simp only [pageData, hdata]
    by_cases hcont : cursorTruthy data.nextPageCursor = true ∧ p + 1 < maxPages
    · have hnextcur : pageCursor env tabId communityId base (p + 1) = data.nextPageCursor := by
        have := hdata
        unfold pageOutcome at this
        simp only [pageCursor, this]
      have hstep : membersLoop env tabId communityId (fuel + 1) acc
          (pageCursor env tabId communityId base p) p st =
          membersLoop env tabId communityId fuel (acc ++ data.data.getD [])
            (pageCursor env tabId communityId base (p + 1)) (p + 1)
            (setProcessed (acc ++ data.data.getD []).length
              { st with
                requests := st.requests ++ [pageRequest env tabId communityId base p] }) := by
        simp only [membersLoop, makeAPIRequest_eq, hresp, append_page, hnextcur]
        rw [if_pos hcont]
        rfl
      obtain ⟨k, hk1, hk2, hconts, hstop, hres, hreq⟩ := ih (p + 1)
        (acc ++ data.data.getD [])
        (setProcessed (acc ++ data.data.getD []).length
          { st with requests := st.requests ++ [pageRequest env tabId communityId base p] })
        (by omega) (by omega)
        (by simp [WealthTracker.setProcessed, hlen]; omega)
      have hrange : List.range' p (k - p) = p :: List.range' (p + 1) (k - (p + 1)) := by
        have : k - p = (k - (p + 1)) + 1 := by omega
        rw [this, List.range'_succ]
      refine ⟨k, by omega, hk2, ?_, hstop, ?_, ?_⟩
      · intro j hpj hjk
        by_cases hj : j = p
        · subst hj
          simp only [pageContinues, hdata]
          exact hcont.1
        · exact hconts j (by omega) hjk
      · rw [hstep, hres, hrange, List.map_cons, List.flatten_cons, hpd, List.append_assoc]
      · rw [hstep, hreq, hrange, List.map_cons]
        simp [WealthTracker.setProcessed]
    · have hstep : membersLoop env tabId communityId (fuel + 1) acc
          (pageCursor env tabId communityId base p) p st =
          (.ok (acc ++ data.data.getD []),
            setProcessed (acc ++ data.data.getD []).length
              { st with
                requests := st.requests ++ [pageRequest env tabId communityId base p] }) := by
        simp only [membersLoop, makeAPIRequest_eq, hresp, append_page]
        rw [if_neg hcont]
        rfl
      have hrange : List.range' p (p + 1 - p) = [p] := by
        have : p + 1 - p = 1 := by omega
        rw [this]
        rfl
      refine ⟨p + 1, by omega, by omega, ?_, ?_, ?_, ?_⟩
      · intro j hpj hjk
        omega
      · intro hk
        have hnot : ¬ cursorTruthy data.nextPageCursor = true := fun h => hcont ⟨h, hk⟩
        simp only [Nat.add_sub_cancel, pageContinues, hdata]
        simpa using hnot
      · rw [hstep, hrange]
        simp [hpd]
      · rw [hstep, hrange]
        simp [WealthTracker.setProcessed]

/-- C14: when every listing request of the enumeration succeeds,
`getAllCommunityMembers` returns normally after `k` requests, where `k` is the
number of the first page that returns no next cursor (none, or the empty string),
or 200 when the first 199 pages all return one; the first request carries no cursor
and request `j + 1` carries exactly the cursor returned by page `j`; the result is
the concatenation, in page order, of the data of those `k` pages; and at the
200-page cap the result is returned, not an error. -/
theorem enumeration_follows_cursors (env : Env) (tabId : Nat) (communityId : String)
    (st : Tracker)
    (hall : ∀ j, j < maxPages →
      ∃ data, pageOutcome env tabId communityId st.requests.length j = .ok (.success data)) :
    ∃ k, 1 ≤ k ∧ k ≤ maxPages ∧
      (∀ j, j + 1 < k → pageContinues env tabId communityId st.requests.length j = true) ∧
      (k < maxPages →
        pageContinues env tabId communityId st.requests.length (k - 1) = false) ∧
      (getAllCommunityMembers env tabId communityId st).2.requests =
        st.requests ++
          (List.range k).map (pageRequest env tabId communityId st.requests.length) ∧
      pageCursor env tabId communityId st.requests.length 0 = none ∧
      (∀ j data, pageOutcome env tabId communityId st.requests.length j = .ok (.success data) →
        pageCursor env tabId communityId st.requests.length (j + 1) = data.nextPageCursor) ∧
      (getAllCommunityMembers env tabId communityId st).1 =
        .ok ((List.range k).map
          (pageData env tabId communityId st.requests.length)).flatten := by
  obtain ⟨k, hk1, hk2, hconts, hstop, hres, hreq⟩ :=
    membersLoop_pages env tabId communityId st.requests.length hall maxPages 0 [] st
      (by omega) (by decide) rfl
  refine ⟨k, by omega, hk2, fun j hj => hconts j (Nat.zero_le _) hj, hstop, ?_, rfl, ?_, ?_⟩
  · rw [List.range_eq_range']
    exact hreq
  · intro j data hdata
    unfold pageOutcome at hdata
    simp only [pageCursor, hdata]
  · rw [List.range_eq_range']
    simpa using hres

set_option maxRecDepth 100000

/-- Witness of C14: the three listing pages of `envThreePages`. -/
theorem enumeration_follows_cursors_witness :
    (getAllCommunityMembers envThreePages 1 "42" idleTracker).2.requests =
      [⟨1, listingUrl "42" none⟩, ⟨1, listingUrl "42" (some "next")⟩,
       ⟨1, listingUrl "42" (some "next")⟩] ∧
    ∃ k, 1 ≤ k ∧ k ≤ maxPages ∧
      (∀ j, j + 1 < k →
        pageContinues envThreePages 1 "42" idleTracker.requests.length j = true) ∧
      (k < maxPages →
        pageContinues envThreePages 1 "42" idleTracker.requests.length (k - 1) = false) ∧
      (getAllCommunityMembers envThreePages 1 "42" idleTracker).2.requests =
        idleTracker.requests ++
          (List.range k).map (pageRequest envThreePages 1 "42" idleTracker.requests.length) ∧
      pageCursor envThreePages 1 "42" idleTracker.requests.length 0 = none ∧
      (∀ j data,
        pageOutcome envThreePages 1 "42" idleTracker.requests.length j = .ok (.success data) →
        pageCursor envThreePages 1 "42" idleTracker.requests.length (j + 1) =
          data.nextPageCursor) ∧
      (getAllCommunityMembers envThreePages 1 "42" idleTracker).1 =
        .ok ((List.range k).map
          (pageData envThreePages 1 "42" idleTracker.requests.length)).flatten :=
  ⟨by decide!,
    enumeration_follows_cursors envThreePages 1 "42" idleTracker (fun _ _ => ⟨_, rfl⟩)⟩

end WealthTracker
